import Mathlib

/-!
Quadtree terrain LOD (`Lab 1/QuadTree.h`, `Lab 1/QuadTree.cpp`) and its heightfield
(`Lab 1/Terrain.h`, `Lab 1/Terrain.cpp`).

Shallow embedding of the quadtree spatial index, of the heightfield queries, of the
noise that fills the heightfield and of the LOD grids.

Conventions of the embedding.

* `float` values are rationals.  `roundToFloat` rounds a real result to the nearest
  `float` (IEEE 754 binary32, ties to even).  The operations of the frustum test
  `Intersects`, of the child centres in `ConstructTree` and of the heightfield
  query `GetHeight` are the rounded ones.  Elsewhere (the patch sizes, whose
  halving is exact, the LOD distances, the noise, the generation of the heightmap
  and the geometry) the sums and products are the exact ones.
* A `float` of magnitude `2 ^ 128` or more is infinite and is not a value of the
  model: `GetHeight` and `GenerateProceduralHeightmap`, which compute a NaN from
  it, yield `none` there.
* `std::sqrt` is a library function outside the repository; every function that
  calls it takes it as the parameter `sqrtf : ℚ → ℚ`.
* `int` values are integers (signed overflow of the counters is undefined
  behaviour and is not modelled); the `unsigned int` slot counter wraps modulo
  `2 ^ 32`, and the shift `1 << shift` keeps 32 bits.
* In the heightfield queries the conversion `(int)std::floor(u)` of a value that
  does not fit `int` gives `INT_MIN`, as the conversion instruction of the x86
  targets does (`floorToInt`).  An `int` increment that overflows and a vector
  index out of range have no defined result: the query then yields `none`.
* `Initialize` does not return when the `resize` of its threshold table throws;
  `QuadTree.Initialize.throws` tells when, and `QuadTree.Initialize` is the state
  that a call which returns leaves.
* In `PerlinNoise` the converted floor is used only through `& 255`.  There the
  conversion `(int)` of a `float` is the parameter `toInt : ℚ → Int` of every
  function that calls it, and the theorems hold for every `toInt`, so for whatever
  the conversion returns when the floor does not fit `int`; `floatToInt` is the
  conversion on the values that fit.  The operation `&` on `int` is `Int.land`.
* The `unsigned int` arithmetic of `BuildGeometry` is taken modulo `2 ^ 32`.
* `std::unique_ptr<TerrainNode>` is the type `NodePtr`: either `null` or a node
  that owns its four child pointers.  A `TerrainNode*` handed out by
  `GetVisibleNodes` is the path of child indices leading from the root to it.
-/

namespace CG

/-- The power `2 ^ k` for an integer exponent. -/
def twoPow (k : Int) : ℚ :=
  if 0 ≤ k then ((2 ^ k.toNat : Nat) : ℚ) else 1 / ((2 ^ (-k).toNat : Nat) : ℚ)

/-- The number of binary digits of `n`, found by halving at most `fuel` times. -/
def bitLength : Nat → Nat → Nat
  | 0, _ => 0
  | fuel + 1, n => if n = 0 then 0 else bitLength fuel (n / 2) + 1

/-- The binary exponent of a non-zero rational: the `e` with
`2 ^ e ≤ |q| < 2 ^ (e + 1)`. -/
def floatExponent (q : ℚ) : Int :=
  let k : Int := (bitLength q.num.natAbs q.num.natAbs : Int) - (bitLength q.den q.den : Int)
  if twoPow k ≤ |q| then k else k - 1

/-- The integer nearest to `x`, the even one of the two when `x` lies halfway
between them. -/
def roundHalfEven (x : ℚ) : Int :=
  let lower : Int := ⌊x⌋
  let rest : ℚ := x - (lower : ℚ)
  if rest < 1 / 2 then lower
  else if 1 / 2 < rest then lower + 1
  else if lower % 2 = 0 then lower else lower + 1

/-- The `float` nearest to a non-negative real `q`: the floats around `q` are the
multiples of `2 ^ (e - 23)`, `e` being the binary exponent of `q`, and of `2 ^ -149`
below `2 ^ -126` (24 significant bits, subnormal numbers included). -/
def roundMagnitude (q : ℚ) : ℚ :=
  let ulp : ℚ := twoPow (max (floatExponent q - 23) (-149))
  (roundHalfEven (q / ulp) : ℚ) * ulp

/-- The result of a `float` operation whose real result is `q`: `q` rounded to the
nearest `float` (IEEE 754 binary32, ties to the even significand).  Results beyond
the largest finite `float` are rounded in the same way; the infinities are not
values of the model. -/
def roundToFloat (q : ℚ) : ℚ :=
  if 0 ≤ q then roundMagnitude q else -roundMagnitude (-q)

/-- The struct `DirectX::XMFLOAT3`. -/
structure XMFLOAT3 where
  x : ℚ
  y : ℚ
  z : ℚ
deriving DecidableEq

/-- The struct `DirectX::XMFLOAT4`. -/
structure XMFLOAT4 where
  x : ℚ
  y : ℚ
  z : ℚ
  w : ℚ
deriving DecidableEq

/-- The struct `BoundingBoxAABB` of `QuadTree.h`. -/
structure BoundingBoxAABB where
  m_center : XMFLOAT3
  m_halfDimensions : XMFLOAT3
deriving DecidableEq

/-- The six frustum planes `const XMFLOAT4* planeSet`, read at indices `0..5`. -/
abbrev PlaneSet := Fin 6 → XMFLOAT4

/-- The vertex of the box that `Intersects` picks for one plane
(`QuadTree.cpp` lines 13-16); each coordinate is a `float` sum or difference. -/
def BoundingBoxAABB.vertexFor (b : BoundingBoxAABB) (plane : XMFLOAT4) : XMFLOAT3 :=
  { x := if plane.x ≥ 0 then roundToFloat (b.m_center.x + b.m_halfDimensions.x)
         else roundToFloat (b.m_center.x - b.m_halfDimensions.x)
    y := if plane.y ≥ 0 then roundToFloat (b.m_center.y + b.m_halfDimensions.y)
         else roundToFloat (b.m_center.y - b.m_halfDimensions.y)
    z := if plane.z ≥ 0 then roundToFloat (b.m_center.z + b.m_halfDimensions.z)
         else roundToFloat (b.m_center.z - b.m_halfDimensions.z) }

/-- The value `plane.x * v.x + plane.y * v.y + plane.z * v.z + plane.w`
(`QuadTree.cpp` line 18) as `float` arithmetic evaluates it: the three products
and the three sums, taken from left to right, are each rounded to `float`. -/
def planeDistance (plane : XMFLOAT4) (v : XMFLOAT3) : ℚ :=
  roundToFloat
    (roundToFloat
      (roundToFloat (roundToFloat (plane.x * v.x) + roundToFloat (plane.y * v.y))
        + roundToFloat (plane.z * v.z))
      + plane.w)

/-- The method `BoundingBoxAABB::Intersects` (`QuadTree.cpp` lines 7-23): the loop
over the six planes returns `false` at the first plane whose chosen vertex has a
negative distance, and `true` when no plane rejects the box. -/
def BoundingBoxAABB.Intersects (b : BoundingBoxAABB) (planeSet : PlaneSet) : Bool :=
  (List.finRange 6).all fun idx =>
    let plane := planeSet idx
    let vertex := b.vertexFor plane
    let distance := planeDistance plane vertex
    !decide (distance < 0)

/-- The data members of the struct `TerrainNode` other than the child pointers. -/
structure TerrainNode where
  m_xCoordinate : ℚ
  m_zCoordinate : ℚ
  m_patchSize : ℚ
  m_detailLevel : Int
  m_maximumDetail : Int
  m_bounds : BoundingBoxAABB
  m_minimumElevation : ℚ
  m_maximumElevation : ℚ
  m_isLeaf : Bool
  m_isVisible : Bool
  m_bufferIndex : Nat
deriving DecidableEq

/-- The node that `std::make_unique<TerrainNode>()` creates: the default member
initialisers of `QuadTree.h` lines 19-34. -/
def TerrainNode.fresh : TerrainNode :=
  { m_xCoordinate := 0
    m_zCoordinate := 0
    m_patchSize := 0
    m_detailLevel := 0
    m_maximumDetail := 0
    m_bounds := { m_center := ⟨0, 0, 0⟩, m_halfDimensions := ⟨0, 0, 0⟩ }
    m_minimumElevation := 0
    m_maximumElevation := 0
    m_isLeaf := true
    m_isVisible := false
    m_bufferIndex := 0 }

/-- A `std::unique_ptr<TerrainNode>`: null, or a node together with its four
child pointers `m_childPatches[0..3]`. -/
inductive NodePtr where
  | null : NodePtr
  | node (n : TerrainNode) (c0 c1 c2 c3 : NodePtr) : NodePtr
deriving DecidableEq

/-- A `TerrainNode*` into a tree: the child indices from the root to the node. -/
abbrev NodePath := List (Fin 4)

/-- The pointer reached from `t` by following the child indices of a path. -/
def NodePtr.subtreeAt : NodePtr → NodePath → NodePtr
  | t, [] => t
  | .null, _ :: _ => .null
  | .node _ c0 c1 c2 c3, i :: rest =>
    match i with
    | 0 => c0.subtreeAt rest
    | 1 => c1.subtreeAt rest
    | 2 => c2.subtreeAt rest
    | 3 => c3.subtreeAt rest

/-- The data members of the node a pointer designates, if it is not null. -/
def NodePtr.data? : NodePtr → Option TerrainNode
  | .null => none
  | .node n _ _ _ _ => some n

/-- The node at a path below `t`, if there is one. -/
def NodePtr.nodeAt (t : NodePtr) (path : NodePath) : Option TerrainNode :=
  (t.subtreeAt path).data?

/-- Number of nodes owned through a pointer. -/
def NodePtr.size : NodePtr → Nat
  | .null => 0
  | .node _ c0 c1 c2 c3 => 1 + c0.size + c1.size + c2.size + c3.size

/-- Whether every node owned through a pointer satisfies `p`. -/
def NodePtr.all (p : TerrainNode → Bool) : NodePtr → Bool
  | .null => true
  | .node n c0 c1 c2 c3 => p n && c0.all p && c1.all p && c2.all p && c3.all p

/-- The assignments `ConstructTree` makes to the node it is given before it
decides on subdivision (`QuadTree.cpp` lines 63-77); the node comes fresh from
`std::make_unique<TerrainNode>()`. -/
def ConstructTree.init (m_maximumDetailLevels : Int) (xPos zPos patchSize : ℚ) (depth : Int) :
    TerrainNode :=
  let m_minimumElevation : ℚ := 0
  let m_maximumElevation : ℚ := 100
  let midElevation : ℚ := (m_minimumElevation + m_maximumElevation) * (1 / 2)
  let halfVertical : ℚ := (m_maximumElevation - m_minimumElevation) * (1 / 2) + 10
  { TerrainNode.fresh with
    m_xCoordinate := xPos
    m_zCoordinate := zPos
    m_patchSize := patchSize
    m_detailLevel := depth
    m_maximumDetail := m_maximumDetailLevels - 1
    m_minimumElevation := m_minimumElevation
    m_maximumElevation := m_maximumElevation
    m_bounds :=
      { m_center := ⟨xPos, midElevation, zPos⟩
        m_halfDimensions := ⟨patchSize * (1 / 2), halfVertical, patchSize * (1 / 2)⟩ } }

/-- The method `QuadTree::ConstructTree` (`QuadTree.cpp` lines 61-100), called on a
node fresh from `std::make_unique<TerrainNode>()`.  The members
`m_minimumPatchSize` and `m_maximumDetailLevels` are the first two arguments; the
counter `m_totalPatchCount` is passed in and returned next to the built node. -/
def ConstructTree (m_minimumPatchSize : ℚ) (m_maximumDetailLevels : Int)
    (xPos zPos patchSize : ℚ) (depth : Int) (m_totalPatchCount : Int) : NodePtr × Int :=
  let patch : TerrainNode := ConstructTree.init m_maximumDetailLevels xPos zPos patchSize depth
  let total := m_totalPatchCount + 1
  if hleaf : ¬ (patchSize > m_minimumPatchSize ∧ depth < m_maximumDetailLevels - 1) then
    (.node { patch with m_isLeaf := true } .null .null .null .null, total)
  else
    let halfSpan := patchSize * (1 / 2)
    let quarterSpan := patchSize * (1 / 4)
    let r0 := ConstructTree m_minimumPatchSize m_maximumDetailLevels
      (roundToFloat (xPos - quarterSpan)) (roundToFloat (zPos + quarterSpan)) halfSpan
      (depth + 1) total
    let r1 := ConstructTree m_minimumPatchSize m_maximumDetailLevels
      (roundToFloat (xPos + quarterSpan)) (roundToFloat (zPos + quarterSpan)) halfSpan
      (depth + 1) r0.2
    let r2 := ConstructTree m_minimumPatchSize m_maximumDetailLevels
      (roundToFloat (xPos - quarterSpan)) (roundToFloat (zPos - quarterSpan)) halfSpan
      (depth + 1) r1.2
    let r3 := ConstructTree m_minimumPatchSize m_maximumDetailLevels
      (roundToFloat (xPos + quarterSpan)) (roundToFloat (zPos - quarterSpan)) halfSpan
      (depth + 1) r2.2
    (.node { patch with m_isLeaf := false } r0.1 r1.1 r2.1 r3.1, r3.2)
termination_by (m_maximumDetailLevels - 1 - depth).toNat
decreasing_by
  all_goals simp_wf
  all_goals omega

/-- The class `QuadTree` (`QuadTree.h` lines 63-74). -/
structure QuadTree where
  m_rootPatch : NodePtr
  m_worldExtent : ℚ
  m_minimumPatchSize : ℚ
  m_maximumDetailLevels : Int
  m_lodThresholds : List ℚ
  m_visiblePatchCount : Int
  m_totalPatchCount : Int
  m_nextBufferIndex : Nat
deriving DecidableEq

/-- The constructor `QuadTree::QuadTree()` (`QuadTree.cpp` lines 25-33). -/
def QuadTree.new : QuadTree :=
  { m_rootPatch := .null
    m_worldExtent := 0
    m_minimumPatchSize := 0
    m_maximumDetailLevels := 0
    m_lodThresholds := []
    m_visiblePatchCount := 0
    m_totalPatchCount := 0
    m_nextBufferIndex := 0 }

/-- The `int` expression `1 << shift`.  For `0 ≤ shift ≤ 30` it is `2 ^ shift`;
for `shift = 31` the value `2 ^ 31` does not fit `int` and converts to `-2 ^ 31`.
For other shift counts the C++ expression is undefined; the model keeps the low
32 bits of the product there as well. -/
def shiftLeftOne (shift : Int) : Int :=
  let bits : Nat := 2 ^ shift.toNat % 2 ^ 32
  if bits < 2 ^ 31 then (bits : Int) else (bits : Int) - 2 ^ 32

/-- The table `Initialize` fills in when `m_lodThresholds` is empty
(`QuadTree.cpp` lines 47-54): `maxDetailLevels` entries, entry `i` being
`m_minimumPatchSize * (float)(1 << shift) * 2.0f` with
`shift = maxDetailLevels - i - 1`.  For a negative `maxDetailLevels` the call
`resize((size_t)maxDetailLevels)` throws (`QuadTree.Initialize.throws`) and no
table is filled in; the list is empty there. -/
def defaultLodThresholds (m_minimumPatchSize : ℚ) (maxDetailLevels : Int) : List ℚ :=
  (List.range maxDetailLevels.toNat).map fun (i : Nat) =>
    let shift : Int := maxDetailLevels - (i : Int) - 1
    let base : ℚ := m_minimumPatchSize * ((shiftLeftOne shift : Int) : ℚ)
    base * 2

/-- The method `QuadTree::Initialize` (`QuadTree.cpp` lines 35-59): the state it
leaves when it returns.  It does not return when `resize` throws, which
`QuadTree.Initialize.throws` tells. -/
def QuadTree.Initialize (self : QuadTree) (worldExtent minPatchSize : ℚ)
    (maxDetailLevels : Int) : QuadTree :=
  let lod :=
    if self.m_lodThresholds.isEmpty then defaultLodThresholds minPatchSize maxDetailLevels
    else self.m_lodThresholds
  let built := ConstructTree minPatchSize maxDetailLevels 0 0 worldExtent 0 0
  { m_worldExtent := worldExtent
    m_minimumPatchSize := minPatchSize
    m_maximumDetailLevels := maxDetailLevels
    m_visiblePatchCount := 0
    m_nextBufferIndex := 0
    m_lodThresholds := lod
    m_rootPatch := built.1
    m_totalPatchCount := built.2 }

/-- Whether the call `m_lodThresholds.resize((size_t)maxDetailLevels)` of
`Initialize` (`QuadTree.cpp` lines 45-47) throws `std::length_error`: the table is
empty, so that the call is made, and `maxDetailLevels` is negative, so that its
conversion to `size_t` exceeds every vector size.  `Initialize` then does not
return and builds no tree. -/
def QuadTree.Initialize.throws (self : QuadTree) (maxDetailLevels : Int) : Bool :=
  self.m_lodThresholds.isEmpty && decide (maxDetailLevels < 0)

/-- The loop of `QuadTree::DetermineLOD` (`QuadTree.cpp` lines 149-155) from index
`i` on, over the entries of `m_lodThresholds` not yet read: the first index whose
threshold exceeds `distance`, and `m_maximumDetailLevels - 1` when the table runs
out.  The cast `(int)i` is the index itself. -/
def DetermineLOD.scan (distance : ℚ) (m_maximumDetailLevels : Int) : List ℚ → Nat → Int
  | [], _ => m_maximumDetailLevels - 1
  | t :: rest, i =>
    if distance < t then (i : Int) else DetermineLOD.scan distance m_maximumDetailLevels rest (i + 1)

/-- The distance `QuadTree::DetermineLOD` computes (`QuadTree.cpp` lines 139-147). -/
def lodDistance (sqrtf : ℚ → ℚ) (patch : TerrainNode) (viewerLocation : XMFLOAT3) : ℚ :=
  let centerX := patch.m_xCoordinate
  let centerZ := patch.m_zCoordinate
  let centerY := (patch.m_minimumElevation + patch.m_maximumElevation) * (1 / 2)
  let dx := viewerLocation.x - centerX
  let dy := viewerLocation.y - centerY
  let dz := viewerLocation.z - centerZ
  sqrtf (dx * dx + dy * dy + dz * dz)

/-- The method `QuadTree::DetermineLOD` (`QuadTree.cpp` lines 137-156); the members
`m_lodThresholds` and `m_maximumDetailLevels` are arguments. -/
def DetermineLOD (sqrtf : ℚ → ℚ) (m_lodThresholds : List ℚ) (m_maximumDetailLevels : Int)
    (patch : TerrainNode) (viewerLocation : XMFLOAT3) : Int :=
  DetermineLOD.scan (lodDistance sqrtf patch viewerLocation) m_maximumDetailLevels
    m_lodThresholds 0

/-- The method `QuadTree::ShouldFragment` (`QuadTree.cpp` lines 158-169). -/
def ShouldFragment (sqrtf : ℚ → ℚ) (patch : TerrainNode) (viewerLocation : XMFLOAT3) : Bool :=
  if patch.m_isLeaf then false
  else
    let dx := viewerLocation.x - patch.m_xCoordinate
    let dz := viewerLocation.z - patch.m_zCoordinate
    let horizontalDistance := sqrtf (dx * dx + dz * dz)
    decide (horizontalDistance < patch.m_patchSize * (3 / 2))

/-- The two counters `m_visiblePatchCount` and `m_nextBufferIndex` that
`ProcessNode` advances. -/
structure FrameCounters where
  m_visiblePatchCount : Int
  m_nextBufferIndex : Nat
deriving DecidableEq

/-- The method `QuadTree::ProcessNode` (`QuadTree.cpp` lines 111-135).  The call
sites only pass non-null pointers (`if (m_rootPatch)`, `if (m_childPatches[i])`);
that test is the `null` case here.  Returns the node as left by the call and the
counters. -/
def ProcessNode (sqrtf : ℚ → ℚ) (m_lodThresholds : List ℚ) (m_maximumDetailLevels : Int)
    (viewerLocation : XMFLOAT3) (frustumBoundaries : PlaneSet) :
    NodePtr → FrameCounters → NodePtr × FrameCounters
  | .null, c => (.null, c)
  | .node n c0 c1 c2 c3, c =>
    let p1 : TerrainNode := { n with m_isVisible := n.m_bounds.Intersects frustumBoundaries }
    if !p1.m_isVisible then (.node p1 c0 c1 c2 c3, c)
    else
      let p2 : TerrainNode :=
        { p1 with m_detailLevel :=
            DetermineLOD sqrtf m_lodThresholds m_maximumDetailLevels p1 viewerLocation }
      let traverseChildren := !p2.m_isLeaf && ShouldFragment sqrtf p2 viewerLocation
      if traverseChildren then
        let p3 : TerrainNode := { p2 with m_isVisible := false }
        let r0 := ProcessNode sqrtf m_lodThresholds m_maximumDetailLevels viewerLocation
          frustumBoundaries c0 c
        let r1 := ProcessNode sqrtf m_lodThresholds m_maximumDetailLevels viewerLocation
          frustumBoundaries c1 r0.2
        let r2 := ProcessNode sqrtf m_lodThresholds m_maximumDetailLevels viewerLocation
          frustumBoundaries c2 r1.2
        let r3 := ProcessNode sqrtf m_lodThresholds m_maximumDetailLevels viewerLocation
          frustumBoundaries c3 r2.2
        (.node p3 r0.1 r1.1 r2.1 r3.1, r3.2)
      else
        (.node { p2 with m_bufferIndex := c.m_nextBufferIndex } c0 c1 c2 c3,
          { m_visiblePatchCount := c.m_visiblePatchCount + 1
            m_nextBufferIndex := (c.m_nextBufferIndex + 1) % 2 ^ 32 })

/-- The method `QuadTree::Update` (`QuadTree.cpp` lines 102-109). -/
def QuadTree.Update (sqrtf : ℚ → ℚ) (self : QuadTree) (viewerLocation : XMFLOAT3)
    (frustumBoundaries : PlaneSet) : QuadTree :=
  let r := ProcessNode sqrtf self.m_lodThresholds self.m_maximumDetailLevels viewerLocation
    frustumBoundaries self.m_rootPatch { m_visiblePatchCount := 0, m_nextBufferIndex := 0 }
  { self with
    m_rootPatch := r.1
    m_visiblePatchCount := r.2.m_visiblePatchCount
    m_nextBufferIndex := r.2.m_nextBufferIndex }

/-- The method `QuadTree::GatherVisible` (`QuadTree.cpp` lines 180-196); `path` is
the pointer `patch` itself, and the null case is the test at the call sites. -/
def GatherVisible : NodePtr → NodePath → List NodePath → List NodePath
  | .null, _, outputList => outputList
  | .node n c0 c1 c2 c3, path, outputList =>
    if n.m_isVisible then outputList ++ [path]
    else if n.m_isLeaf then outputList
    else
      let o0 := GatherVisible c0 (path ++ [0]) outputList
      let o1 := GatherVisible c1 (path ++ [1]) o0
      let o2 := GatherVisible c2 (path ++ [2]) o1
      GatherVisible c3 (path ++ [3]) o2

/-- The method `QuadTree::GetVisibleNodes` (`QuadTree.cpp` lines 171-178): the
output list after the call, whatever it held before. -/
def QuadTree.GetVisibleNodes (self : QuadTree) : List NodePath :=
  GatherVisible self.m_rootPatch [] []

/-- The method `QuadTree::SetHeightRange` (`QuadTree.cpp` lines 198-210). -/
def QuadTree.SetHeightRange (self : QuadTree) (_xPos _zPos _regionSize minY maxY : ℚ) :
    QuadTree :=
  match self.m_rootPatch with
  | .null => self
  | .node n c0 c1 c2 c3 =>
    let n1 : TerrainNode :=
      { n with
        m_minimumElevation := minY
        m_maximumElevation := maxY
        m_bounds :=
          { m_center := { n.m_bounds.m_center with y := (minY + maxY) * (1 / 2) }
            m_halfDimensions :=
              { n.m_bounds.m_halfDimensions with y := (maxY - minY) * (1 / 2) + 10 } } }
    { self with m_rootPatch := .node n1 c0 c1 c2 c3 }

/-- The method `QuadTree::GetVisibleNodeCount` (`QuadTree.h` line 50). -/
def QuadTree.GetVisibleNodeCount (self : QuadTree) : Int := self.m_visiblePatchCount

/-- The method `QuadTree::GetTotalNodeCount` (`QuadTree.h` line 51). -/
def QuadTree.GetTotalNodeCount (self : QuadTree) : Int := self.m_totalPatchCount

/-- The method `QuadTree::SetLODDistances` (`QuadTree.h` line 53). -/
def QuadTree.SetLODDistances (self : QuadTree) (thresholds : List ℚ) : QuadTree :=
  { self with m_lodThresholds := thresholds }

/-- Largest `k` with `k * k ≤ n`, by search from below. -/
def floorSqrt (n : Nat) : Nat :=
  (List.range (n + 1)).foldl (fun r k => if k * k ≤ n then k else r) 0

/-- A square root on the rationals for evaluating the code at concrete inputs in
place of `std::sqrt`: exact on the squares of rationals (numerator and
denominator are rooted separately), rounded down on each part otherwise. -/
def sqrtQ (q : ℚ) : ℚ := (floorSqrt q.num.toNat : ℚ) / (floorSqrt q.den : ℚ)

/-- The six planes of the axis-aligned cube of centre `c` and half-side `h`, with
unit normals pointing inwards: a view volume as `Update` receives it. -/
def cubeFrustum (c : XMFLOAT3) (h : ℚ) : PlaneSet := fun idx =>
  match idx with
  | 0 => ⟨1, 0, 0, h - c.x⟩
  | 1 => ⟨-1, 0, 0, h + c.x⟩
  | 2 => ⟨0, 1, 0, h - c.y⟩
  | 3 => ⟨0, -1, 0, h + c.y⟩
  | 4 => ⟨0, 0, 1, h - c.z⟩
  | 5 => ⟨0, 0, -1, h + c.z⟩

/-- A view volume around the origin that holds the whole terrain: the cube
`[-1000, 1000]³`. -/
def terrainInView : PlaneSet := cubeFrustum ⟨0, 0, 0⟩ 1000

/-- A view volume high above the terrain: the cube `[-1000, 1000] × [1000, 3000] ×
[-1000, 1000]`, which no terrain box (they end at `y = 110`) reaches. -/
def terrainOutOfView : PlaneSet := cubeFrustum ⟨0, 2000, 0⟩ 1000

/-- The eight corners of a box, with the coordinates `Intersects` computes for
them: the `float` sums and differences of centre and half-extent. -/
def BoundingBoxAABB.corners (b : BoundingBoxAABB) : List XMFLOAT3 :=
  [ ⟨roundToFloat (b.m_center.x - b.m_halfDimensions.x),
      roundToFloat (b.m_center.y - b.m_halfDimensions.y),
      roundToFloat (b.m_center.z - b.m_halfDimensions.z)⟩,
    ⟨roundToFloat (b.m_center.x - b.m_halfDimensions.x),
      roundToFloat (b.m_center.y - b.m_halfDimensions.y),
      roundToFloat (b.m_center.z + b.m_halfDimensions.z)⟩,
    ⟨roundToFloat (b.m_center.x - b.m_halfDimensions.x),
      roundToFloat (b.m_center.y + b.m_halfDimensions.y),
      roundToFloat (b.m_center.z - b.m_halfDimensions.z)⟩,
    ⟨roundToFloat (b.m_center.x - b.m_halfDimensions.x),
      roundToFloat (b.m_center.y + b.m_halfDimensions.y),
      roundToFloat (b.m_center.z + b.m_halfDimensions.z)⟩,
    ⟨roundToFloat (b.m_center.x + b.m_halfDimensions.x),
      roundToFloat (b.m_center.y - b.m_halfDimensions.y),
      roundToFloat (b.m_center.z - b.m_halfDimensions.z)⟩,
    ⟨roundToFloat (b.m_center.x + b.m_halfDimensions.x),
      roundToFloat (b.m_center.y - b.m_halfDimensions.y),
      roundToFloat (b.m_center.z + b.m_halfDimensions.z)⟩,
    ⟨roundToFloat (b.m_center.x + b.m_halfDimensions.x),
      roundToFloat (b.m_center.y + b.m_halfDimensions.y),
      roundToFloat (b.m_center.z - b.m_halfDimensions.z)⟩,
    ⟨roundToFloat (b.m_center.x + b.m_halfDimensions.x),
      roundToFloat (b.m_center.y + b.m_halfDimensions.y),
      roundToFloat (b.m_center.z + b.m_halfDimensions.z)⟩ ]

/-- A point lies in the (closed) box that the corners span. -/
def BoundingBoxAABB.Contains (b : BoundingBoxAABB) (p : XMFLOAT3) : Prop :=
  (roundToFloat (b.m_center.x - b.m_halfDimensions.x) ≤ p.x ∧
    p.x ≤ roundToFloat (b.m_center.x + b.m_halfDimensions.x)) ∧
  (roundToFloat (b.m_center.y - b.m_halfDimensions.y) ≤ p.y ∧
    p.y ≤ roundToFloat (b.m_center.y + b.m_halfDimensions.y)) ∧
  (roundToFloat (b.m_center.z - b.m_halfDimensions.z) ≤ p.z ∧
    p.z ≤ roundToFloat (b.m_center.z + b.m_halfDimensions.z))

/-- Six planes `(0, 0, 0, 1)`: the plane expression has the value `1` at every
point, so that no box is culled. -/
def acceptingPlanes : PlaneSet := fun _ => ⟨0, 0, 0, 1⟩

/-- The planes of the C8 counterexample: the plane
`(0.8f, 0.9f, 0.7f, -3.6f)`, and five planes `(0, 0, 0, 1)` that every point
satisfies. -/
def grazingPlanes : PlaneSet := fun idx =>
  match idx with
  | 0 => ⟨13421773 / 16777216, 7549747 / 8388608, 11744051 / 16777216, -7549747 / 2097152⟩
  | _ => ⟨0, 0, 0, 1⟩

/-- The tree of the C10 counterexample: the table `[1, 2, 4]` installed by
`SetLODDistances`, then `Initialize(16, 1, 2)`. -/
def longTableTree : QuadTree := (QuadTree.new.SetLODDistances [1, 2, 4]).Initialize 16 1 2

/-- Centre, patch size and recorded depth of a node. -/
def TerrainNode.geometry (n : TerrainNode) : ℚ × ℚ × ℚ × Int :=
  (n.m_xCoordinate, n.m_zCoordinate, n.m_patchSize, n.m_detailLevel)

/-- The square a node covers: its `x` interval and its `z` interval. -/
def TerrainNode.square (n : TerrainNode) : (ℚ × ℚ) × (ℚ × ℚ) :=
  ((n.m_xCoordinate - n.m_patchSize / 2, n.m_xCoordinate + n.m_patchSize / 2),
    (n.m_zCoordinate - n.m_patchSize / 2, n.m_zCoordinate + n.m_patchSize / 2))

/-- The paths `GatherVisible` appends for a node, relative to that node. -/
def visiblePaths : NodePtr → List NodePath
  | .null => []
  | .node n c0 c1 c2 c3 =>
    if n.m_isVisible then [[]]
    else if n.m_isLeaf then []
    else (visiblePaths c0).map (List.cons 0) ++ (visiblePaths c1).map (List.cons 1) ++
      (visiblePaths c2).map (List.cons 2) ++ (visiblePaths c3).map (List.cons 3)

/-- The buffer slot recorded in the node at a path. -/
def NodePtr.slotAt (t : NodePtr) (path : NodePath) : Option Nat :=
  (t.nodeAt path).map fun n => n.m_bufferIndex

/-- The node at a path exists and is flagged visible. -/
def NodePtr.FlaggedAt (t : NodePtr) (path : NodePath) : Prop :=
  ∃ n, t.nodeAt path = some n ∧ n.m_isVisible = true

/-- Every node below the pointer that is not flagged as a leaf has four non-null
child pointers. -/
def NodePtr.WellFormed : NodePtr → Prop
  | .null => True
  | .node n c0 c1 c2 c3 =>
    (n.m_isLeaf = false → c0 ≠ .null ∧ c1 ≠ .null ∧ c2 ≠ .null ∧ c3 ≠ .null) ∧
      c0.WellFormed ∧ c1.WellFormed ∧ c2.WellFormed ∧ c3.WellFormed

/-- The states of a `QuadTree` on which `Initialize` has been called (from any
prior state), followed by any calls of `Update`, `SetHeightRange`,
`SetLODDistances` and `Initialize`. -/
inductive Initialised (sqrtf : ℚ → ℚ) : QuadTree → Prop
  | init (q : QuadTree) (we mp : ℚ) (md : Int) : Initialised sqrtf (q.Initialize we mp md)
  | update {q : QuadTree} (viewer : XMFLOAT3) (planes : PlaneSet) :
      Initialised sqrtf q → Initialised sqrtf (QuadTree.Update sqrtf q viewer planes)
  | setHeightRange {q : QuadTree} (x z r minY maxY : ℚ) :
      Initialised sqrtf q → Initialised sqrtf (q.SetHeightRange x z r minY maxY)
  | setLODDistances {q : QuadTree} (th : List ℚ) :
      Initialised sqrtf q → Initialised sqrtf (q.SetLODDistances th)

/-- The members of a node that `ConstructTree` sets and that describe where the
node lies: centre, patch size, maximum detail, box, elevation range, leaf flag. -/
def TerrainNode.placement (n : TerrainNode) :
    ℚ × ℚ × ℚ × Int × BoundingBoxAABB × ℚ × ℚ × Bool :=
  (n.m_xCoordinate, n.m_zCoordinate, n.m_patchSize, n.m_maximumDetail, n.m_bounds,
    n.m_minimumElevation, n.m_maximumElevation, n.m_isLeaf)

/-- A sequence of `Update` calls, one per frame, on the same `QuadTree`. -/
def QuadTree.Updates (sqrtf : ℚ → ℚ) (self : QuadTree) (frames : List (XMFLOAT3 × PlaneSet)) :
    QuadTree :=
  frames.foldl (fun q frame => QuadTree.Update sqrtf q frame.1 frame.2) self

/-- Whether `ProcessNode`, started at the pointer, reaches the node at the path and
the node passes the frustum test there: every node above it passed the test and
was subdivided. -/
def passedTest (sqrtf : ℚ → ℚ) (viewerLocation : XMFLOAT3) (frustumBoundaries : PlaneSet) :
    NodePtr → NodePath → Bool
  | .null, _ => false
  | .node n _ _ _ _, [] => n.m_bounds.Intersects frustumBoundaries
  | .node n c0 c1 c2 c3, i :: rest =>
    n.m_bounds.Intersects frustumBoundaries &&
      (!n.m_isLeaf && ShouldFragment sqrtf n viewerLocation) &&
      match i with
      | 0 => passedTest sqrtf viewerLocation frustumBoundaries c0 rest
      | 1 => passedTest sqrtf viewerLocation frustumBoundaries c1 rest
      | 2 => passedTest sqrtf viewerLocation frustumBoundaries c2 rest
      | 3 => passedTest sqrtf viewerLocation frustumBoundaries c3 rest

/-- A view volume beside the terrain: the half-spaces `0.6 x + 0.8 z ≥ 4` and
`x ≤ -1` (unit normals), bounded by `|y| ≤ 1000` and `|z| ≤ 1000`.  It holds the
point `(-2, 0, 7)`; the box `[-4, 4] × [-10, 110] × [-4, 4]` passes each of its
planes, and each of the four quadrants of that box fails one of them. -/
def besideTerrainView : PlaneSet := fun idx =>
  match idx with
  | 0 => ⟨3 / 5, 0, 4 / 5, -4⟩
  | 1 => ⟨-1, 0, 0, -1⟩
  | 2 => ⟨0, 1, 0, 1000⟩
  | 3 => ⟨0, -1, 0, 1000⟩
  | 4 => ⟨0, 0, 1, 1000⟩
  | 5 => ⟨0, 0, -1, 1000⟩

/-- The data members of the class `Terrain` (`Terrain.h` lines 69-82) that the
heightfield queries and loaders use; the device, mesh and texture handles are
left out. -/
structure Terrain where
  m_worldExtent : ℚ
  m_baseElevation : ℚ
  m_peakElevation : ℚ
  m_heightfieldWidth : Nat
  m_heightfieldHeight : Nat
  m_heightfield : List ℚ
  m_permutationTable : List Int
deriving DecidableEq

/-- The conversion `(int)n` of an `unsigned int`: the value itself below `2 ^ 31`,
and `n - 2 ^ 32` from there on. -/
def toInt32 (n : Nat) : Int :=
  if n % 2 ^ 32 < 2 ^ 31 then ((n % 2 ^ 32 : Nat) : Int) else ((n % 2 ^ 32 : Nat) : Int) - 2 ^ 32

/-- The conversion `(int)std::floor(x)`: the floor of `x` when it fits `int`.  For
a value that does not fit, the conversion instruction of the x86 targets of the
program (`cvttss2si`) gives `INT_MIN`. -/
def floorToInt (x : ℚ) : Int :=
  if -2 ^ 31 ≤ ⌊x⌋ ∧ ⌊x⌋ < 2 ^ 31 then ⌊x⌋ else -2 ^ 31

/-- The `int` expression `n + 1`: no defined value when it overflows. -/
def intSucc (n : Int) : Option Int :=
  if n + 1 < 2 ^ 31 then some (n + 1) else none

/-- The method `Terrain::FetchHeightSample` (`Terrain.cpp` lines 280-289); `none`
when the index is outside `m_heightfield`. -/
def Terrain.FetchHeightSample (self : Terrain) (xCoord zCoord : Int) : Option ℚ :=
  let maxX : Int := toInt32 self.m_heightfieldWidth - 1
  let maxZ : Int := toInt32 self.m_heightfieldHeight - 1
  let xCoord : Int := max 0 (min xCoord maxX)
  let zCoord : Int := max 0 (min zCoord maxZ)
  self.m_heightfield[zCoord.toNat * self.m_heightfieldWidth + xCoord.toNat]?

/-- The fractional grid column `u` of a world `x` (`Terrain.cpp` line 240), in
`float` arithmetic: the quotient, the sum, the conversion of the width to `float`
and the product are each rounded. -/
def Terrain.gridU (self : Terrain) (worldX : ℚ) : ℚ :=
  roundToFloat (roundToFloat (roundToFloat (worldX / self.m_worldExtent) + 1 / 2)
    * roundToFloat (self.m_heightfieldWidth : ℚ))

/-- The fractional grid row `v` of a world `z` (`Terrain.cpp` line 241), in `float`
arithmetic. -/
def Terrain.gridV (self : Terrain) (worldZ : ℚ) : ℚ :=
  roundToFloat (roundToFloat (roundToFloat (worldZ / self.m_worldExtent) + 1 / 2)
    * roundToFloat (self.m_heightfieldHeight : ℚ))

/-- The expression `a + (b - a) * t` of `GetHeight` (`Terrain.cpp` lines 254-256)
in `float` arithmetic: the difference, the product and the sum are each rounded. -/
def floatLerp (a b t : ℚ) : ℚ :=
  roundToFloat (a + roundToFloat (roundToFloat (b - a) * t))

/-- The method `Terrain::GetHeight` (`Terrain.cpp` lines 235-259), every `float`
operation rounded.  With `m_worldExtent = 0`, and when `u` or `v` exceeds the
`float` range (`2 ^ 128` and beyond), the code computes with an infinity or a NaN
and returns a NaN, which is no rational: the result is `none`, as for an `int`
increment that overflows and for an index outside the vector. -/
def Terrain.GetHeight (self : Terrain) (worldX worldZ : ℚ) : Option ℚ :=
  if self.m_heightfield.isEmpty then some 0
  else if self.m_worldExtent = 0 then none
  else
    let u : ℚ := self.gridU worldX
    let v : ℚ := self.gridV worldZ
    if 2 ^ 128 ≤ |u| ∨ 2 ^ 128 ≤ |v| then none
    else
      let x0 : Int := floorToInt u
      let z0 : Int := floorToInt v
      let fracX : ℚ := roundToFloat (u - roundToFloat (x0 : ℚ))
      let fracZ : ℚ := roundToFloat (v - roundToFloat (z0 : ℚ))
      (intSucc x0).bind fun x1 =>
      (intSucc z0).bind fun z1 =>
      (self.FetchHeightSample x0 z0).bind fun h00 =>
      (self.FetchHeightSample x1 z0).bind fun h10 =>
      (self.FetchHeightSample x0 z1).bind fun h01 =>
      (self.FetchHeightSample x1 z1).bind fun h11 =>
      let hx0 : ℚ := floatLerp h00 h10 fracX
      let hx1 : ℚ := floatLerp h01 h11 fracX
      let interpolated : ℚ := floatLerp hx0 hx1 fracZ
      some (roundToFloat (self.m_baseElevation
        + roundToFloat (interpolated
            * roundToFloat (self.m_peakElevation - self.m_baseElevation))))

/-- The invariant of the heightfield: `m_heightfield` holds
`m_heightfieldWidth * m_heightfieldHeight` samples, and both dimensions fit the
`int` that `FetchHeightSample` converts them to. -/
def Terrain.WellFormed (self : Terrain) : Prop :=
  self.m_heightfield.length = self.m_heightfieldWidth * self.m_heightfieldHeight ∧
    self.m_heightfieldWidth < 2 ^ 31 ∧ self.m_heightfieldHeight < 2 ^ 31

/-- The method `Terrain::LoadHeightmap` (`Terrain.cpp` lines 44-73).  The file is
the argument `source`: `none` when the stream cannot be opened, and the bytes of
the file otherwise.  `read` copies the bytes there are into the zero-filled
`rawData` (16-bit samples are little-endian) and its result is not looked at.
Returns the `bool` and the object after the call. -/
def Terrain.LoadHeightmap (self : Terrain) (source : Option (List (Fin 256)))
    (width height : Nat) (sixteenBit : Bool) : Bool × Terrain :=
  match source with
  | none => (false, self)
  | some bytes =>
    let elementCount : Nat := width * height
    let rawData : List Nat :=
      if sixteenBit then
        (List.range elementCount).map fun (i : Nat) =>
          ((bytes.getD (2 * i) 0 : Fin 256) : Nat) + 256 * ((bytes.getD (2 * i + 1) 0 : Fin 256) : Nat)
      else
        (List.range elementCount).map fun (i : Nat) => ((bytes.getD i 0 : Fin 256) : Nat)
    let samples : List ℚ :=
      if sixteenBit then rawData.map fun r => (r : ℚ) / 65535
      else rawData.map fun r => (r : ℚ) / 255
    (true,
      { self with
        m_heightfieldWidth := width
        m_heightfieldHeight := height
        m_heightfield := samples })

/-- A 2 by 2 heightfield `[0, 1, 1, 0]` on a world of extent `1` with elevations
from `0` to `100`. -/
def sampleTerrain : Terrain :=
  { m_worldExtent := 1
    m_baseElevation := 0
    m_peakElevation := 100
    m_heightfieldWidth := 2
    m_heightfieldHeight := 2
    m_heightfield := [0, 1, 1, 0]
    m_permutationTable := [] }

/-- The local `x0` of `GetHeight` for a world `x` (`Terrain.cpp` line 243). -/
def Terrain.GetHeight.x0 (self : Terrain) (worldX : ℚ) : Int := floorToInt (self.gridU worldX)

/-- The local `z0` of `GetHeight` for a world `z` (`Terrain.cpp` line 244). -/
def Terrain.GetHeight.z0 (self : Terrain) (worldZ : ℚ) : Int := floorToInt (self.gridV worldZ)

/-- The local `fracX` of `GetHeight` for a world `x` (`Terrain.cpp` line 246): the
`float` difference of `u` and the conversion of `x0` to `float`. -/
def Terrain.GetHeight.fracX (self : Terrain) (worldX : ℚ) : ℚ :=
  roundToFloat (self.gridU worldX - roundToFloat ((Terrain.GetHeight.x0 self worldX : Int) : ℚ))

/-- The local `fracZ` of `GetHeight` for a world `z` (`Terrain.cpp` line 247). -/
def Terrain.GetHeight.fracZ (self : Terrain) (worldZ : ℚ) : ℚ :=
  roundToFloat (self.gridV worldZ - roundToFloat ((Terrain.GetHeight.z0 self worldZ : Int) : ℚ))

/-- The blend of `GetHeight` (`Terrain.cpp` lines 254-256) in `float` arithmetic:
`hx0`, `hx1` and `interpolated`. -/
def bilinear (h00 h10 h01 h11 fracX fracZ : ℚ) : ℚ :=
  floatLerp (floatLerp h00 h10 fracX) (floatLerp h01 h11 fracX) fracZ

/-- A 10 by 1 heightfield with the sample `1` in column `1`, on a world of extent
`10` with elevations from `0` to `100`. -/
def stripTerrain : Terrain :=
  { m_worldExtent := 10
    m_baseElevation := 0
    m_peakElevation := 100
    m_heightfieldWidth := 10
    m_heightfieldHeight := 1
    m_heightfield := [0, 1, 0, 0, 0, 0, 0, 0, 0, 0]
    m_permutationTable := [] }

/-- A heightfield of the single sample `1` with elevations from `-7.3f` to `12.9f`:
`-7.3f` is `-7654605/1048576` and `12.9f` is `6763315/524288`. -/
def plateauTerrain : Terrain :=
  { m_worldExtent := 1
    m_baseElevation := -7654605 / 1048576
    m_peakElevation := 6763315 / 524288
    m_heightfieldWidth := 1
    m_heightfieldHeight := 1
    m_heightfield := [1]
    m_permutationTable := [] }

/-- The constructor `Terrain::Terrain` (`Terrain.cpp` lines 19-42).  `shuffled` is
the vector `baseIndices` as `std::shuffle` leaves it, a rearrangement of
`0, 1, ..., 255`; the table is assigned 512 zeros and then written at `i` and at
`i + 256` for `i = 0, ..., 255`.  The heightfield starts empty. -/
def Terrain.new (shuffled : List Int) (worldExtent baseElevation peakElevation : ℚ) : Terrain :=
  let assigned : List Int := List.replicate 512 0
  let table : List Int :=
    (List.range 256).foldl
      (fun (tbl : List Int) (i : Nat) =>
        (tbl.set i (shuffled.getD i 0)).set (i + 256) (shuffled.getD i 0))
      assigned
  { m_worldExtent := worldExtent
    m_baseElevation := baseElevation
    m_peakElevation := peakElevation
    m_heightfieldWidth := 0
    m_heightfieldHeight := 0
    m_heightfield := []
    m_permutationTable := table }

/-- The vector `baseIndices` before the shuffle: `0, 1, ..., 255`
(`Terrain.cpp` lines 29-30). -/
def baseIndices : List Int := (List.range 256).map fun (i : Nat) => (i : Int)

/-- The read `m_permutationTable[index]` with an `int` index; `none` when the index
is outside the vector. -/
def Terrain.permutationAt (self : Terrain) (index : Int) : Option Int :=
  if 0 ≤ index then self.m_permutationTable[index.toNat]? else none

/-- The method `Terrain::Smoothstep` (`Terrain.cpp` lines 316-319). -/
def Terrain.Smoothstep (t : ℚ) : ℚ := t * t * t * (t * (t * 6 - 15) + 10)

/-- The method `Terrain::Interpolate` (`Terrain.cpp` lines 321-324). -/
def Terrain.Interpolate (a b t : ℚ) : ℚ := a + t * (b - a)

/-- The method `Terrain::Gradient` (`Terrain.cpp` lines 326-335); `&` on `int` is
`Int.land`. -/
def Terrain.Gradient (hashValue : Int) (xComponent zComponent : ℚ) : ℚ :=
  let h : Int := Int.land hashValue 3
  let u : ℚ := if h < 2 then xComponent else zComponent
  let v : ℚ := if h < 2 then zComponent else xComponent
  let signA : ℚ := if Int.land h 1 ≠ 0 then -u else u
  let signB : ℚ := if Int.land h 2 ≠ 0 then -v else v
  signA + signB

/-- The table indices `Terrain::PerlinNoise` reads, in the order of the reads
(`Terrain.cpp` lines 302-308): `gridX`, `gridX + 1`, `a`, `b`, `a + 1`, `b + 1`;
`none` when one of the first two reads, which give `a` and `b`, is outside the
table.  The parameter `toInt` is the conversion `(int)` of a `float`. -/
def Terrain.PerlinNoise.indices (toInt : ℚ → Int) (self : Terrain) (xCoord zCoord : ℚ) :
    Option (List Int) :=
  let gridX : Int := Int.land (toInt (⌊xCoord⌋ : ℚ)) 255
  let gridZ : Int := Int.land (toInt (⌊zCoord⌋ : ℚ)) 255
  (self.permutationAt gridX).bind fun (atX : Int) =>
  (self.permutationAt (gridX + 1)).bind fun (atX1 : Int) =>
  let a : Int := atX + gridZ
  let b : Int := atX1 + gridZ
  some [gridX, gridX + 1, a, b, a + 1, b + 1]

/-- The method `Terrain::PerlinNoise` (`Terrain.cpp` lines 291-314); `none` when a
read of `m_permutationTable` is outside the table.  The parameter `toInt` is the
conversion `(int)` of a `float`, applied to `std::floor(xCoord)` and
`std::floor(zCoord)`. -/
def Terrain.PerlinNoise (toInt : ℚ → Int) (self : Terrain) (xCoord zCoord : ℚ) : Option ℚ :=
  let gridX : Int := Int.land (toInt (⌊xCoord⌋ : ℚ)) 255
  let gridZ : Int := Int.land (toInt (⌊zCoord⌋ : ℚ)) 255
  let xCoord : ℚ := xCoord - (⌊xCoord⌋ : ℚ)
  let zCoord : ℚ := zCoord - (⌊zCoord⌋ : ℚ)
  let u : ℚ := Terrain.Smoothstep xCoord
  let v : ℚ := Terrain.Smoothstep zCoord
  (self.permutationAt gridX).bind fun (atX : Int) =>
  (self.permutationAt (gridX + 1)).bind fun (atX1 : Int) =>
  let a : Int := atX + gridZ
  let b : Int := atX1 + gridZ
  (self.permutationAt a).bind fun (atA : Int) =>
  (self.permutationAt b).bind fun (atB : Int) =>
  (self.permutationAt (a + 1)).bind fun (atA1 : Int) =>
  (self.permutationAt (b + 1)).bind fun (atB1 : Int) =>
  let g00 : ℚ := Terrain.Gradient atA xCoord zCoord
  let g10 : ℚ := Terrain.Gradient atB (xCoord - 1) zCoord
  let g01 : ℚ := Terrain.Gradient atA1 xCoord (zCoord - 1)
  let g11 : ℚ := Terrain.Gradient atB1 (xCoord - 1) (zCoord - 1)
  let ix0 : ℚ := Terrain.Interpolate g00 g10 u
  let ix1 : ℚ := Terrain.Interpolate g01 g11 u
  some (Terrain.Interpolate ix0 ix1 v)

/-- The conversion `(int)` of a `float` whose value is an integer that fits `int`:
the integer itself. -/
def floatToInt (x : ℚ) : Int := ⌊x⌋

/-- The values of a list of results when each of them is defined. -/
def allDefined : List (Option ℚ) → Option (List ℚ)
  | [] => some []
  | none :: _ => none
  | some a :: rest => (allDefined rest).map fun (l : List ℚ) => a :: l

/-- The cells `(x, z)` in the order in which the two nested loops
`for z < height`, `for x < width` visit them: the cell `(x, z)` is the element
`z * width + x`. -/
def gridCells (width height : Nat) : List (Nat × Nat) :=
  (List.range height).flatMap fun (z : Nat) => (List.range width).map fun (x : Nat) => (x, z)

/-- The locals of the octave loop of `GenerateProceduralHeightmap`
(`Terrain.cpp` lines 121-124). -/
structure OctaveState where
  accumulated : ℚ
  amplitude : ℚ
  frequency : ℚ
  amplitudeSum : ℚ
deriving DecidableEq

/-- The octave loop of `GenerateProceduralHeightmap` (`Terrain.cpp` lines 126-133),
run for the given number of passes. -/
def GenerateProceduralHeightmap.octaves (toInt : ℚ → Int) (self : Terrain) (nx nz : ℚ) :
    Nat → OctaveState → Option OctaveState
  | 0, s => some s
  | k + 1, s =>
    (self.PerlinNoise toInt (nx * s.frequency) (nz * s.frequency)).bind fun (noise : ℚ) =>
      GenerateProceduralHeightmap.octaves toInt self nx nz k
        { accumulated := s.accumulated + noise * s.amplitude
          amplitudeSum := s.amplitudeSum + s.amplitude
          amplitude := s.amplitude * (1 / 2)
          frequency := s.frequency * 2 }

/-- The `value` that `GenerateProceduralHeightmap` computes for the cell `(x, z)`
(`Terrain.cpp` lines 118-135). -/
def GenerateProceduralHeightmap.value (toInt : ℚ → Int) (self : Terrain) (width height : Nat)
    (baseFrequency : ℚ) (octaveCount : Int) (x z : Nat) : Option ℚ :=
  let nx : ℚ := (x : ℚ) / (width : ℚ)
  let nz : ℚ := (z : ℚ) / (height : ℚ)
  (GenerateProceduralHeightmap.octaves toInt self nx nz octaveCount.toNat
      { accumulated := 0, amplitude := 1, frequency := baseFrequency, amplitudeSum := 0 }).map
    fun (s : OctaveState) => (s.accumulated / s.amplitudeSum + 1) * (1 / 2)

/-- The samples `GenerateProceduralHeightmap` has written when its first pair of
loops ends (`Terrain.cpp` lines 114-141), before the rescaling. -/
def GenerateProceduralHeightmap.values (toInt : ℚ → Int) (self : Terrain) (width height : Nat)
    (baseFrequency : ℚ) (octaveCount : Int) : Option (List ℚ) :=
  allDefined ((gridCells width height).map fun (cell : Nat × Nat) =>
    GenerateProceduralHeightmap.value toInt self width height baseFrequency octaveCount
      cell.1 cell.2)

/-- Whether the local `frequency` of the octave loop of `GenerateProceduralHeightmap`
(`Terrain.cpp` lines 124-132) is infinite in a pass that uses it.  The pass `k`
(from `0`) of a cell uses `baseFrequency * 2 ^ k`, the doubling of a `float` being
exact, and a `float` of magnitude `2 ^ 128` or more is infinite; the last pass of
`octaveCount` passes is the pass `octaveCount - 1`.  With an infinite `frequency`
the coordinates `nx * frequency` and `nz * frequency` are infinite or NaN and
`PerlinNoise`, which subtracts `std::floor(xCoord)` from `xCoord`, returns NaN, so
that the `value` of the cell is NaN. -/
def GenerateProceduralHeightmap.frequencyOverflows (width height : Nat) (baseFrequency : ℚ)
    (octaveCount : Int) : Bool :=
  decide (0 < width * height ∧ 1 ≤ octaveCount ∧
    2 ^ 128 ≤ |baseFrequency| * 2 ^ (octaveCount.toNat - 1))

/-- The method `Terrain::GenerateProceduralHeightmap` (`Terrain.cpp` lines 105-149);
`none` when the samples it writes are NaN, the `frequency` of the octave loop being
infinite, and when a call of `PerlinNoise` reads outside the table.  The sums and
products are the exact ones.  The constant `0.001f` is the rational `1 / 1000`. -/
def Terrain.GenerateProceduralHeightmap (toInt : ℚ → Int) (self : Terrain) (width height : Nat)
    (baseFrequency : ℚ) (octaveCount : Int) : Option Terrain :=
  if GenerateProceduralHeightmap.frequencyOverflows width height baseFrequency octaveCount then
    none
  else
  (GenerateProceduralHeightmap.values toInt self width height baseFrequency octaveCount).map
    fun (values : List ℚ) =>
      let highest : ℚ := values.foldl (fun (highest value : ℚ) => max highest value) 0
      let lowest : ℚ := values.foldl (fun (lowest value : ℚ) => min lowest value) 1
      let range : ℚ := highest - lowest
      let samples : List ℚ :=
        if range > 1 / 1000 then values.map fun (sample : ℚ) => (sample - lowest) / range
        else values
      { self with
        m_heightfieldWidth := width
        m_heightfieldHeight := height
        m_heightfield := samples }

/-- The method `Terrain::LoadHeightmapDDS` (`Terrain.cpp` lines 75-103).  The
texture file is the argument `texture`: `none` when
`CreateDDSTextureFromFile12` fails, and the `Width` and `Height` of the created
resource otherwise.  The result is `none` when a call of `PerlinNoise` reads
outside the table. -/
def Terrain.LoadHeightmapDDS (toInt : ℚ → Int) (self : Terrain) (texture : Option (Nat × Nat)) :
    Option (Bool × Terrain) :=
  match texture with
  | none => some (false, self)
  | some (resourceWidth, resourceHeight) =>
    let m_heightfieldWidth : Nat := resourceWidth % 2 ^ 32
    let m_heightfieldHeight : Nat := resourceHeight
    (allDefined ((gridCells m_heightfieldWidth m_heightfieldHeight).map fun (cell : Nat × Nat) =>
        let fx : ℚ := (cell.1 : ℚ) / (m_heightfieldWidth : ℚ)
        let fz : ℚ := (cell.2 : ℚ) / (m_heightfieldHeight : ℚ)
        (self.PerlinNoise toInt (fx * 4) (fz * 4)).map fun (noiseValue : ℚ) =>
          noiseValue * (1 / 2) + 1 / 2)).map
      fun (samples : List ℚ) =>
        (true,
          { self with
            m_heightfieldWidth := m_heightfieldWidth
            m_heightfieldHeight := m_heightfieldHeight
            m_heightfield := samples })

/-- The index `(size_t)zCoord * (size_t)m_heightfieldWidth + (size_t)xCoord` that
`FetchHeightSample` forms from its clamped arguments (`Terrain.cpp` lines
282-288). -/
def Terrain.FetchHeightSample.index (self : Terrain) (xCoord zCoord : Int) : Nat :=
  let maxX : Int := toInt32 self.m_heightfieldWidth - 1
  let maxZ : Int := toInt32 self.m_heightfieldHeight - 1
  let xCoord : Int := max 0 (min xCoord maxX)
  let zCoord : Int := max 0 (min zCoord maxZ)
  zCoord.toNat * self.m_heightfieldWidth + xCoord.toNat

/-- The sample indices of the four calls of `FetchHeightSample` in `GetHeight`
(`Terrain.cpp` lines 249-252), in the order of the calls; `none` where the grid
coordinates are no values of the model (`m_worldExtent = 0`) or an `int` increment
overflows, and the empty list when the heightfield is empty and nothing is read. -/
def Terrain.GetHeight.indices (self : Terrain) (worldX worldZ : ℚ) : Option (List Nat) :=
  if self.m_heightfield.isEmpty then some []
  else if self.m_worldExtent = 0 then none
  else
    let u : ℚ := self.gridU worldX
    let v : ℚ := self.gridV worldZ
    let x0 : Int := floorToInt u
    let z0 : Int := floorToInt v
    (intSucc x0).bind fun x1 =>
    (intSucc z0).bind fun z1 =>
    some [Terrain.FetchHeightSample.index self x0 z0, Terrain.FetchHeightSample.index self x1 z0,
      Terrain.FetchHeightSample.index self x0 z1, Terrain.FetchHeightSample.index self x1 z1]

/-- The struct `DirectX::XMFLOAT2`. -/
structure XMFLOAT2 where
  x : ℚ
  y : ℚ
deriving DecidableEq

/-- The struct `TerrainVertex` (`Terrain.h` lines 10-15). -/
structure TerrainVertex where
  m_localPosition : XMFLOAT3
  m_localNormal : XMFLOAT3
  m_textureCoordinate : XMFLOAT2
deriving DecidableEq

/-- The members of `SubmeshGeometry` that `BuildGeometry` sets. -/
structure SubmeshGeometry where
  IndexCount : Nat
  StartIndexLocation : Nat
  BaseVertexLocation : Int
deriving DecidableEq

/-- The two local vectors of `BuildGeometry` and the map `m_meshData->DrawArgs`,
as a list of keys with their entries. -/
structure MeshGeometry where
  vertexCollection : List TerrainVertex
  indexCollection : List Nat
  DrawArgs : List (String × SubmeshGeometry)
deriving DecidableEq

/-- The method `Terrain::GetLODMeshIdentifier` (`Terrain.cpp` lines 12-17). -/
def Terrain.GetLODMeshIdentifier (lodIndex : Int) : String :=
  let identifiers : List String := ["lod0", "lod1", "lod2", "lod3", "lod4"]
  if lodIndex < 0 ∨ lodIndex ≥ 5 then identifiers.getD 0 ""
  else identifiers.getD lodIndex.toNat ""

/-- The array `gridDimensions` of `BuildGeometry` (`Terrain.cpp` line 159). -/
def gridDimensions : List Nat := [256, 128, 64, 32, 16]

/-- The vertices one pass of the loop of `BuildGeometry` appends
(`Terrain.cpp` lines 168-184): the rows `z = 0, ..., resolution`, each with
`x = 0, ..., resolution`. -/
def BuildGeometry.vertices (resolution : Nat) : List TerrainVertex :=
  let invResolution : ℚ := 1 / (resolution : ℚ)
  (List.range (resolution + 1)).flatMap fun (z : Nat) =>
    let verticalCoord : ℚ := (z : ℚ) * invResolution
    (List.range (resolution + 1)).map fun (x : Nat) =>
      let horizontalCoord : ℚ := (x : ℚ) * invResolution
      { m_localPosition := ⟨horizontalCoord - 1 / 2, 0, verticalCoord - 1 / 2⟩
        m_localNormal := ⟨0, 1, 0⟩
        m_textureCoordinate := ⟨horizontalCoord, verticalCoord⟩ }

/-- The six indices `BuildGeometry` appends for the cell `(z, x)`
(`Terrain.cpp` lines 191-202), in `unsigned int` arithmetic. -/
def BuildGeometry.cell (vertexStart rowLength z x : Nat) : List Nat :=
  let idx0 : Nat := (vertexStart + z * rowLength + x) % 2 ^ 32
  let idx1 : Nat := (idx0 + 1) % 2 ^ 32
  let idx2 : Nat := (vertexStart + (z + 1) * rowLength + x) % 2 ^ 32
  let idx3 : Nat := (idx2 + 1) % 2 ^ 32
  [idx0, idx2, idx1, idx1, idx2, idx3]

/-- The indices one pass of the loop of `BuildGeometry` appends
(`Terrain.cpp` lines 186-204). -/
def BuildGeometry.indices (vertexStart resolution : Nat) : List Nat :=
  let rowLength : Nat := (resolution + 1) % 2 ^ 32
  (List.range resolution).flatMap fun (z : Nat) =>
    (List.range resolution).flatMap fun (x : Nat) =>
      BuildGeometry.cell vertexStart rowLength z x

/-- The assignment `DrawArgs[key] = submeshInfo` of a map. -/
def assignDrawArgs (DrawArgs : List (String × SubmeshGeometry)) (key : String)
    (submeshInfo : SubmeshGeometry) : List (String × SubmeshGeometry) :=
  (key, submeshInfo) :: DrawArgs.filter fun (entry : String × SubmeshGeometry) => entry.1 ≠ key

/-- One pass of the loop `for (int lod = 0; lod < 5; ++lod)` of `BuildGeometry`
(`Terrain.cpp` lines 161-212). -/
def BuildGeometry.pass (state : MeshGeometry) (lod : Nat) : MeshGeometry :=
  let resolution : Nat := gridDimensions.getD lod 0
  let vertexStart : Nat := state.vertexCollection.length % 2 ^ 32
  let indexStart : Nat := state.indexCollection.length % 2 ^ 32
  let submeshInfo : SubmeshGeometry :=
    { IndexCount := resolution * resolution * 6 % 2 ^ 32
      StartIndexLocation := indexStart
      BaseVertexLocation := 0 }
  { vertexCollection := state.vertexCollection ++ BuildGeometry.vertices resolution
    indexCollection := state.indexCollection ++ BuildGeometry.indices vertexStart resolution
    DrawArgs := assignDrawArgs state.DrawArgs (Terrain.GetLODMeshIdentifier (lod : Int))
      submeshInfo }

/-- The loop of `BuildGeometry` after the given number of passes. -/
def BuildGeometry.passes (count : Nat) : MeshGeometry :=
  (List.range count).foldl BuildGeometry.pass
    { vertexCollection := [], indexCollection := [], DrawArgs := [] }

/-- The method `Terrain::BuildGeometry` (`Terrain.cpp` lines 151-212): the vertex
and index vectors and the draw arguments it builds, before they are copied to the
buffers. -/
def Terrain.BuildGeometry : MeshGeometry := BuildGeometry.passes 5

/-- The number of vertices of the grids before the one of `lod`: the sum of
`(r + 1) ^ 2` over the earlier resolutions `r`. -/
def lodVertexStart (lod : Nat) : Nat :=
  ((gridDimensions.take lod).map fun (r : Nat) => (r + 1) ^ 2).sum

/-- The number of indices of the grids before the one of `lod`: the sum of
`6 * r ^ 2` over the earlier resolutions `r`. -/
def lodIndexStart (lod : Nat) : Nat :=
  ((gridDimensions.take lod).map fun (r : Nat) => 6 * r ^ 2).sum

/-- Centre and patch size of the node a pointer designates. -/
def NodePtr.centreSize (t : NodePtr) : Option (ℚ × ℚ × ℚ) :=
  t.data?.map fun (m : TerrainNode) => (m.m_xCoordinate, m.m_zCoordinate, m.m_patchSize)

/-- Every node below the pointer that is not flagged as a leaf has its four
children where `ConstructTree` places them (`QuadTree.cpp` lines 90-99): half its
size, centred a quarter of its size away from its centre in `x` and in `z`. -/
def NodePtr.Quartered : NodePtr → Prop
  | .null => True
  | .node n c0 c1 c2 c3 =>
    (n.m_isLeaf = false →
      c0.centreSize = some (roundToFloat (n.m_xCoordinate - n.m_patchSize * (1 / 4)),
        roundToFloat (n.m_zCoordinate + n.m_patchSize * (1 / 4)), n.m_patchSize * (1 / 2)) ∧
      c1.centreSize = some (roundToFloat (n.m_xCoordinate + n.m_patchSize * (1 / 4)),
        roundToFloat (n.m_zCoordinate + n.m_patchSize * (1 / 4)), n.m_patchSize * (1 / 2)) ∧
      c2.centreSize = some (roundToFloat (n.m_xCoordinate - n.m_patchSize * (1 / 4)),
        roundToFloat (n.m_zCoordinate - n.m_patchSize * (1 / 4)), n.m_patchSize * (1 / 2)) ∧
      c3.centreSize = some (roundToFloat (n.m_xCoordinate + n.m_patchSize * (1 / 4)),
        roundToFloat (n.m_zCoordinate - n.m_patchSize * (1 / 4)), n.m_patchSize * (1 / 2))) ∧
      c0.Quartered ∧ c1.Quartered ∧ c2.Quartered ∧ c3.Quartered

/-- The square `[x - s/2, x + s/2] × [z - s/2, z + s/2]` of a node contains the
horizontal position of the viewer. -/
def TerrainNode.Covers (n : TerrainNode) (viewerLocation : XMFLOAT3) : Prop :=
  (n.m_xCoordinate - n.m_patchSize / 2 ≤ viewerLocation.x ∧
    viewerLocation.x ≤ n.m_xCoordinate + n.m_patchSize / 2) ∧
  (n.m_zCoordinate - n.m_patchSize / 2 ≤ viewerLocation.z ∧
    viewerLocation.z ≤ n.m_zCoordinate + n.m_patchSize / 2)

/-- Whether the square of a node contains the viewer can be computed. -/
instance TerrainNode.decidableCovers (n : TerrainNode) (viewerLocation : XMFLOAT3) :
    Decidable (n.Covers viewerLocation) :=
  inferInstanceAs (Decidable
    ((n.m_xCoordinate - n.m_patchSize / 2 ≤ viewerLocation.x ∧
      viewerLocation.x ≤ n.m_xCoordinate + n.m_patchSize / 2) ∧
    (n.m_zCoordinate - n.m_patchSize / 2 ≤ viewerLocation.z ∧
      viewerLocation.z ≤ n.m_zCoordinate + n.m_patchSize / 2)))

/-- The tree of the C28 counterexample: `Initialize(0.1f, 0.01f, 4)` on a new
`QuadTree`; `0.1f` is `13421773/134217728` and `0.01f` is `5368709/536870912`. -/
def uncoveredTree : QuadTree :=
  QuadTree.new.Initialize (13421773 / 134217728) (5368709 / 536870912) 4

/-- The viewer of the C28 counterexample: `(-0.0375f, 50, 0.03125)`; `-0.0375f` is
`-5033165/134217728`. -/
def uncoveredViewer : XMFLOAT3 := ⟨-5033165 / 134217728, 50, 1 / 32⟩

/-! Rounding to float -/

theorem twoPow_eq (k : Int) : twoPow k = (2 : ℚ) ^ k := by
  unfold twoPow
  split_ifs with h
  · obtain ⟨n, rfl⟩ := Int.eq_ofNat_of_zero_le h
    simp
  · push_neg at h
    obtain ⟨n, hn⟩ := Int.exists_eq_neg_ofNat h.le
    subst hn
    simp

theorem twoPow_pos (k : Int) : 0 < twoPow k := by
  rw [twoPow_eq]; positivity

theorem bitLength_spec (fuel : Nat) : ∀ n : Nat, n ≠ 0 → n ≤ fuel →
    2 ^ (bitLength fuel n - 1) ≤ n ∧ n < 2 ^ bitLength fuel n ∧ 1 ≤ bitLength fuel n := by
  induction fuel with
  | zero => intro n h0 h; omega
  | succ f ih =>
    intro n h0 h
    unfold bitLength
    rw [if_neg h0]
    by_cases h2 : n / 2 = 0
    · have h1 : n = 1 := by omega
      subst h1
      cases f <;> simp [bitLength]
    · obtain ⟨i1, i2, i3⟩ := ih (n / 2) h2 (by omega)
      refine ⟨?_, ?_, by omega⟩
      · have : bitLength f (n / 2) + 1 - 1 = (bitLength f (n / 2) - 1) + 1 := by omega
        rw [this, pow_succ]
        omega
      · rw [pow_succ]; omega

theorem floatExponent_spec (q : ℚ) (hq : 0 < q) :
    (2 : ℚ) ^ floatExponent q ≤ q ∧ q < (2 : ℚ) ^ (floatExponent q + 1) := by
  have hnum : 0 < q.num := Rat.num_pos.mpr hq
  have hn0 : q.num.natAbs ≠ 0 := by omega
  have hd0 : q.den ≠ 0 := q.den_nz
  obtain ⟨a1, a2, a3⟩ := bitLength_spec _ _ hn0 le_rfl
  obtain ⟨b1, b2, b3⟩ := bitLength_spec _ _ hd0 le_rfl
  set a := bitLength q.num.natAbs q.num.natAbs with ha
  set b := bitLength q.den q.den with hb
  have hqe : q = (q.num.natAbs : ℚ) / (q.den : ℚ) := by
    have h2 : (q.num.natAbs : ℚ) = (q.num : ℚ) := by
      rw [Nat.cast_natAbs, abs_of_pos hnum]
    rw [h2, Rat.num_div_den]
  have hdpos : (0 : ℚ) < (q.den : ℚ) := by exact_mod_cast Nat.pos_of_ne_zero hd0
  have A1 : ((2 : ℚ) ^ (a - 1)) ≤ (q.num.natAbs : ℚ) := by exact_mod_cast a1
  have A2 : (q.num.natAbs : ℚ) < (2 : ℚ) ^ a := by exact_mod_cast a2
  have B1 : ((2 : ℚ) ^ (b - 1)) ≤ (q.den : ℚ) := by exact_mod_cast b1
  have B2 : (q.den : ℚ) < (2 : ℚ) ^ b := by exact_mod_cast b2
  have habs : |q| = q := abs_of_pos hq
  -- bounds on q
  have hlow : (2 : ℚ) ^ ((a : Int) - (b : Int) - 1) < q := by
    rw [hqe, lt_div_iff₀ hdpos]
    calc (2 : ℚ) ^ ((a : Int) - (b : Int) - 1) * (q.den : ℚ)
        < (2 : ℚ) ^ ((a : Int) - (b : Int) - 1) * (2 : ℚ) ^ b := by
          apply mul_lt_mul_of_pos_left B2; positivity
      _ = (2 : ℚ) ^ (a - 1) := by
          rw [← zpow_natCast (2 : ℚ) b, ← zpow_add₀ (by norm_num : (2 : ℚ) ≠ 0),
            ← zpow_natCast (2 : ℚ) (a - 1)]
          congr 1
          omega
      _ ≤ _ := A1
  have hhigh : q < (2 : ℚ) ^ ((a : Int) - (b : Int) + 1) := by
    rw [hqe, div_lt_iff₀ hdpos]
    calc (q.num.natAbs : ℚ) < (2 : ℚ) ^ a := A2
      _ = (2 : ℚ) ^ ((a : Int) - (b : Int) + 1) * (2 : ℚ) ^ (b - 1) := by
          rw [← zpow_natCast (2 : ℚ) (b - 1), ← zpow_add₀ (by norm_num : (2 : ℚ) ≠ 0),
            ← zpow_natCast (2 : ℚ) a]
          congr 1
          omega
      _ ≤ _ := by
          apply mul_le_mul_of_nonneg_left B1; positivity
  unfold floatExponent
  simp only [← ha, ← hb, twoPow_eq, habs]
  split_ifs with h
  · exact ⟨h, hhigh⟩
  · push_neg at h
    refine ⟨hlow.le, ?_⟩
    have : (a : Int) - (b : Int) - 1 + 1 = (a : Int) - (b : Int) := by ring
    rw [this]; exact h

theorem floatExponent_mono (a b : ℚ) (ha : 0 < a) (hab : a ≤ b) :
    floatExponent a ≤ floatExponent b := by
  obtain ⟨a1, _⟩ := floatExponent_spec a ha
  obtain ⟨_, b2⟩ := floatExponent_spec b (lt_of_lt_of_le ha hab)
  have h : (2 : ℚ) ^ floatExponent a < (2 : ℚ) ^ (floatExponent b + 1) :=
    lt_of_le_of_lt (a1.trans hab) b2
  have := (zpow_lt_zpow_iff_right₀ (by norm_num : (1 : ℚ) < 2)).mp h
  omega

theorem floatExponent_unique (q : ℚ) (e : Int) (h1 : (2 : ℚ) ^ e ≤ q) (h2 : q < (2 : ℚ) ^ (e + 1)) :
    floatExponent q = e := by
  have hq : 0 < q := lt_of_lt_of_le (by positivity) h1
  obtain ⟨s1, s2⟩ := floatExponent_spec q hq
  have ha := (zpow_lt_zpow_iff_right₀ (by norm_num : (1 : ℚ) < 2)).mp (lt_of_le_of_lt h1 s2)
  have hb := (zpow_lt_zpow_iff_right₀ (by norm_num : (1 : ℚ) < 2)).mp (lt_of_le_of_lt s1 h2)
  omega


theorem roundHalfEven_intCast (n : Int) : roundHalfEven (n : ℚ) = n := by
  unfold roundHalfEven
  simp

theorem roundHalfEven_bounds (x : ℚ) : ⌊x⌋ ≤ roundHalfEven x ∧ roundHalfEven x ≤ ⌊x⌋ + 1 := by
  unfold roundHalfEven
  simp only
  split_ifs <;> omega

theorem roundHalfEven_le_of_le (x : ℚ) (n : Int) (h : x ≤ (n : ℚ)) : roundHalfEven x ≤ n := by
  rcases eq_or_lt_of_le h with h | h
  · rw [h, roundHalfEven_intCast]
  · have := (roundHalfEven_bounds x).2
    have hf : ⌊x⌋ < n := Int.floor_lt.mpr h
    omega

theorem le_roundHalfEven_of_le (x : ℚ) (n : Int) (h : (n : ℚ) ≤ x) : n ≤ roundHalfEven x := by
  have := (roundHalfEven_bounds x).1
  have hf : n ≤ ⌊x⌋ := Int.le_floor.mpr h
  omega

theorem roundHalfEven_mono (x y : ℚ) (h : x ≤ y) : roundHalfEven x ≤ roundHalfEven y := by
  have hfl : ⌊x⌋ ≤ ⌊y⌋ := Int.floor_mono h
  rcases eq_or_lt_of_le hfl with he | hl
  · unfold roundHalfEven
    simp only [he]
    have hr : x - (⌊y⌋ : ℚ) ≤ y - (⌊y⌋ : ℚ) := by linarith
    split_ifs <;> first | omega | linarith
  · have h1 := (roundHalfEven_bounds x).2
    have h2 := (roundHalfEven_bounds y).1
    omega

theorem roundHalfEven_error (x : ℚ) :
    (roundHalfEven x : ℚ) - x ≤ 1 / 2 ∧ x - (roundHalfEven x : ℚ) ≤ 1 / 2 := by
  have h1 : (⌊x⌋ : ℚ) ≤ x := Int.floor_le x
  have h2 : x < (⌊x⌋ : ℚ) + 1 := Int.lt_floor_add_one x
  unfold roundHalfEven
  simp only
  split_ifs <;> push_cast <;> constructor <;> linarith

theorem roundMagnitude_zero : roundMagnitude 0 = 0 := by decide!

theorem roundMagnitude_nonneg (q : ℚ) (hq : 0 ≤ q) : 0 ≤ roundMagnitude q := by
  unfold roundMagnitude
  simp only
  apply mul_nonneg _ (twoPow_pos _).le
  have : (0 : Int) ≤ roundHalfEven (q / twoPow (max (floatExponent q - 23) (-149))) := by
    apply le_roundHalfEven_of_le
    simpa using div_nonneg hq (twoPow_pos _).le
  exact_mod_cast this

theorem roundMagnitude_le_pow (q : ℚ) (hq : 0 < q) (j : Int)
    (hj1 : floatExponent q + 1 ≤ j) (hj2 : max (floatExponent q - 23) (-149) ≤ j) :
    roundMagnitude q ≤ (2 : ℚ) ^ j := by
  obtain ⟨_, s2⟩ := floatExponent_spec q hq
  unfold roundMagnitude
  simp only
  set s := max (floatExponent q - 23) (-149) with hs
  rw [twoPow_eq]
  have hpos : (0 : ℚ) < (2 : ℚ) ^ s := by positivity
  obtain ⟨n, hn⟩ := Int.eq_ofNat_of_zero_le (show 0 ≤ j - s by omega)
  have hle : q / (2 : ℚ) ^ s ≤ (((2 ^ n : Nat) : Int) : ℚ) := by
    rw [div_le_iff₀ hpos]
    push_cast
    rw [← zpow_natCast (2 : ℚ) n, ← zpow_add₀ (by norm_num : (2 : ℚ) ≠ 0)]
    have : (n : Int) + s = j := by omega
    rw [this]
    exact s2.le.trans (zpow_le_zpow_right₀ (by norm_num) hj1)
  have hr := roundHalfEven_le_of_le _ _ hle
  have hr2 : (roundHalfEven (q / (2 : ℚ) ^ s) : ℚ) ≤ (2 : ℚ) ^ (n : Int) := by
    have : ((roundHalfEven (q / (2 : ℚ) ^ s) : Int) : ℚ) ≤ (((2 ^ n : Nat) : Int) : ℚ) := by
      exact_mod_cast hr
    simpa using this
  calc (roundHalfEven (q / (2 : ℚ) ^ s) : ℚ) * (2 : ℚ) ^ s
      ≤ (2 : ℚ) ^ (n : Int) * (2 : ℚ) ^ s := mul_le_mul_of_nonneg_right hr2 hpos.le
    _ = (2 : ℚ) ^ j := by
      rw [← zpow_add₀ (by norm_num : (2 : ℚ) ≠ 0)]
      congr 1; omega

theorem pow_le_roundMagnitude (q : ℚ) (hq : 0 < q) (j : Int)
    (hj1 : j ≤ floatExponent q) (hj2 : max (floatExponent q - 23) (-149) ≤ j) :
    (2 : ℚ) ^ j ≤ roundMagnitude q := by
  obtain ⟨s1, _⟩ := floatExponent_spec q hq
  unfold roundMagnitude
  simp only
  set s := max (floatExponent q - 23) (-149) with hs
  rw [twoPow_eq]
  have hpos : (0 : ℚ) < (2 : ℚ) ^ s := by positivity
  obtain ⟨n, hn⟩ := Int.eq_ofNat_of_zero_le (show 0 ≤ j - s by omega)
  have hle : (((2 ^ n : Nat) : Int) : ℚ) ≤ q / (2 : ℚ) ^ s := by
    rw [le_div_iff₀ hpos]
    push_cast
    rw [← zpow_natCast (2 : ℚ) n, ← zpow_add₀ (by norm_num : (2 : ℚ) ≠ 0)]
    have : (n : Int) + s = j := by omega
    rw [this]
    exact (zpow_le_zpow_right₀ (by norm_num) hj1).trans s1
  have hr := le_roundHalfEven_of_le _ _ hle
  have hr2 : (2 : ℚ) ^ (n : Int) ≤ (roundHalfEven (q / (2 : ℚ) ^ s) : ℚ) := by
    have : (((2 ^ n : Nat) : Int) : ℚ) ≤ ((roundHalfEven (q / (2 : ℚ) ^ s) : Int) : ℚ) := by
      exact_mod_cast hr
    simpa using this
  calc (2 : ℚ) ^ j = (2 : ℚ) ^ (n : Int) * (2 : ℚ) ^ s := by
        rw [← zpow_add₀ (by norm_num : (2 : ℚ) ≠ 0)]
        congr 1; omega
    _ ≤ (roundHalfEven (q / (2 : ℚ) ^ s) : ℚ) * (2 : ℚ) ^ s :=
        mul_le_mul_of_nonneg_right hr2 hpos.le

theorem roundMagnitude_mono (a b : ℚ) (ha : 0 ≤ a) (hab : a ≤ b) :
    roundMagnitude a ≤ roundMagnitude b := by
  rcases eq_or_lt_of_le ha with h0 | hpos
  · rw [← h0, roundMagnitude_zero]
    exact roundMagnitude_nonneg b (ha.trans hab)
  · have hbpos : 0 < b := lt_of_lt_of_le hpos hab
    have he := floatExponent_mono a b hpos hab
    by_cases hs : max (floatExponent a - 23) (-149) = max (floatExponent b - 23) (-149)
    · unfold roundMagnitude
      simp only [hs]
      apply mul_le_mul_of_nonneg_right _ (twoPow_pos _).le
      have := roundHalfEven_mono (a / twoPow (max (floatExponent b - 23) (-149)))
        (b / twoPow (max (floatExponent b - 23) (-149)))
        (div_le_div_of_nonneg_right hab (twoPow_pos _).le)
      exact_mod_cast this
    · have h1 := roundMagnitude_le_pow a hpos (floatExponent b) (by omega) (by omega)
      have h2 := pow_le_roundMagnitude b hbpos (floatExponent b) le_rfl (by omega)
      exact h1.trans h2


theorem roundMagnitude_of_scaled (q : ℚ) (z : Int)
    (h : q / twoPow (max (floatExponent q - 23) (-149)) = (z : ℚ)) : roundMagnitude q = q := by
  unfold roundMagnitude
  simp only
  rw [h, roundHalfEven_intCast, ← h]
  exact div_mul_cancel₀ _ (twoPow_pos _).ne'

theorem roundMagnitude_representable (m : Nat) (k : Int) (hm0 : 0 < m) (hm : m < 2 ^ 24)
    (hk : -149 ≤ k) : roundMagnitude ((m : ℚ) * (2 : ℚ) ^ k) = (m : ℚ) * (2 : ℚ) ^ k := by
  have hq : (0 : ℚ) < (m : ℚ) * (2 : ℚ) ^ k := by positivity
  obtain ⟨s1, _⟩ := floatExponent_spec _ hq
  set e := floatExponent ((m : ℚ) * (2 : ℚ) ^ k) with he
  have hlt : (2 : ℚ) ^ e < (2 : ℚ) ^ (24 + k) := by
    calc (2 : ℚ) ^ e ≤ (m : ℚ) * (2 : ℚ) ^ k := s1
      _ < (2 : ℚ) ^ (24 : Int) * (2 : ℚ) ^ k := by
          apply mul_lt_mul_of_pos_right _ (by positivity)
          have h24 : (2 : ℚ) ^ (24 : Int) = ((2 ^ 24 : Nat) : ℚ) := by norm_num
          rw [h24]
          exact_mod_cast hm
      _ = (2 : ℚ) ^ (24 + k) := by rw [← zpow_add₀ (by norm_num : (2 : ℚ) ≠ 0)]
  have hek := (zpow_lt_zpow_iff_right₀ (by norm_num : (1 : ℚ) < 2)).mp hlt
  obtain ⟨n, hn⟩ := Int.eq_ofNat_of_zero_le (show 0 ≤ k - max (e - 23) (-149) by omega)
  apply roundMagnitude_of_scaled _ ((m * 2 ^ n : Nat) : Int)
  rw [← he, twoPow_eq, div_eq_iff (by positivity)]
  push_cast
  rw [mul_assoc, ← zpow_natCast (2 : ℚ) n, ← zpow_add₀ (by norm_num : (2 : ℚ) ≠ 0)]
  congr 2
  omega

theorem roundMagnitude_two_pow (j : Int) (hj : -149 ≤ j) :
    roundMagnitude ((2 : ℚ) ^ j) = (2 : ℚ) ^ j := by
  have := roundMagnitude_representable 1 j (by norm_num) (by norm_num) hj
  simpa using this

theorem roundMagnitude_idem (q : ℚ) (hq : 0 ≤ q) :
    roundMagnitude (roundMagnitude q) = roundMagnitude q := by
  rcases eq_or_lt_of_le hq with h0 | hpos
  · rw [← h0, roundMagnitude_zero, roundMagnitude_zero]
  · obtain ⟨_, s2⟩ := floatExponent_spec q hpos
    have hnn := roundMagnitude_nonneg q hq
    set s := max (floatExponent q - 23) (-149) with hs
    have hsp : (0 : ℚ) < (2 : ℚ) ^ s := by positivity
    have hM0 : (0 : Int) ≤ roundHalfEven (q / twoPow s) := by
      apply le_roundHalfEven_of_le
      simpa using div_nonneg hq (twoPow_pos _).le
    have hM24 : roundHalfEven (q / twoPow s) ≤ ((2 ^ 24 : Nat) : Int) := by
      apply roundHalfEven_le_of_le
      rw [twoPow_eq, div_le_iff₀ hsp]
      push_cast
      calc q ≤ (2 : ℚ) ^ (floatExponent q + 1) := s2.le
        _ ≤ (2 : ℚ) ^ (24 + s) := zpow_le_zpow_right₀ (by norm_num) (by omega)
        _ = (2 : ℚ) ^ 24 * (2 : ℚ) ^ s := by
            rw [zpow_add₀ (by norm_num : (2 : ℚ) ≠ 0)]; norm_num
    obtain ⟨M, hM⟩ := Int.eq_ofNat_of_zero_le hM0
    have hval : roundMagnitude q = (M : ℚ) * (2 : ℚ) ^ s := by
      unfold roundMagnitude
      simp only [← hs, twoPow_eq]
      rw [← twoPow_eq, hM, twoPow_eq]
      norm_cast
    rw [hval]
    have hMle : M ≤ 2 ^ 24 := by
      rw [hM] at hM24
      exact_mod_cast hM24
    rcases Nat.eq_zero_or_pos M with hz | hMpos
    · subst hz
      simp [roundMagnitude_zero]
    · rcases eq_or_lt_of_le hMle with h24 | hlt
      · subst h24
        have : ((2 ^ 24 : Nat) : ℚ) * (2 : ℚ) ^ s = (2 : ℚ) ^ (24 + s) := by
          rw [zpow_add₀ (by norm_num : (2 : ℚ) ≠ 0)]; norm_num
        rw [this]
        exact roundMagnitude_two_pow _ (by omega)
      · exact roundMagnitude_representable M s hMpos hlt (by omega)

theorem roundMagnitude_error (q : ℚ) (hq : 0 ≤ q) (h1 : q < 1) :
    roundMagnitude q - q ≤ 1 / 2 ^ 25 ∧ q - roundMagnitude q ≤ 1 / 2 ^ 25 := by
  rcases eq_or_lt_of_le hq with h0 | hpos
  · rw [← h0, roundMagnitude_zero]; norm_num
  · obtain ⟨s1, _⟩ := floatExponent_spec q hpos
    have he : floatExponent q < 0 := by
      have : (2 : ℚ) ^ floatExponent q < (2 : ℚ) ^ (0 : Int) := by
        simpa using lt_of_le_of_lt s1 h1
      exact (zpow_lt_zpow_iff_right₀ (by norm_num : (1 : ℚ) < 2)).mp this
    set s := max (floatExponent q - 23) (-149) with hs
    have hsle : s ≤ -24 := by omega
    have hsp : (0 : ℚ) < (2 : ℚ) ^ s := by positivity
    have hulp : (2 : ℚ) ^ s ≤ 1 / 2 ^ 24 := by
      calc (2 : ℚ) ^ s ≤ (2 : ℚ) ^ (-24 : Int) := zpow_le_zpow_right₀ (by norm_num) hsle
        _ = 1 / 2 ^ 24 := by norm_num
    obtain ⟨e1, e2⟩ := roundHalfEven_error (q / (2 : ℚ) ^ s)
    have hq2 : q = q / (2 : ℚ) ^ s * (2 : ℚ) ^ s := (div_mul_cancel₀ _ hsp.ne').symm
    unfold roundMagnitude
    simp only [← hs, twoPow_eq]
    constructor
    · have : (roundHalfEven (q / (2 : ℚ) ^ s) : ℚ) * (2 : ℚ) ^ s - q
          = ((roundHalfEven (q / (2 : ℚ) ^ s) : ℚ) - q / (2 : ℚ) ^ s) * (2 : ℚ) ^ s := by
        rw [sub_mul, ← hq2]
      rw [this]
      calc ((roundHalfEven (q / (2 : ℚ) ^ s) : ℚ) - q / (2 : ℚ) ^ s) * (2 : ℚ) ^ s
          ≤ 1 / 2 * (2 : ℚ) ^ s := mul_le_mul_of_nonneg_right e1 hsp.le
        _ ≤ 1 / 2 * (1 / 2 ^ 24) := by linarith
        _ = 1 / 2 ^ 25 := by norm_num
    · have : q - (roundHalfEven (q / (2 : ℚ) ^ s) : ℚ) * (2 : ℚ) ^ s
          = (q / (2 : ℚ) ^ s - (roundHalfEven (q / (2 : ℚ) ^ s) : ℚ)) * (2 : ℚ) ^ s := by
        rw [sub_mul, ← hq2]
      rw [this]
      calc (q / (2 : ℚ) ^ s - (roundHalfEven (q / (2 : ℚ) ^ s) : ℚ)) * (2 : ℚ) ^ s
          ≤ 1 / 2 * (2 : ℚ) ^ s := mul_le_mul_of_nonneg_right e2 hsp.le
        _ ≤ 1 / 2 * (1 / 2 ^ 24) := by linarith
        _ = 1 / 2 ^ 25 := by norm_num

theorem roundToFloat_zero : roundToFloat 0 = 0 := by decide!

theorem roundToFloat_one : roundToFloat 1 = 1 := by decide!

theorem roundToFloat_half : roundToFloat (1 / 2) = 1 / 2 := by decide!

theorem roundToFloat_neg (q : ℚ) : roundToFloat (-q) = -roundToFloat q := by
  unfold roundToFloat
  rcases lt_trichotomy q 0 with h | h | h
  · rw [if_pos (by linarith : (0 : ℚ) ≤ -q), if_neg (by linarith : ¬ (0 : ℚ) ≤ q)]; simp
  · subst h; simp [roundMagnitude_zero]
  · rw [if_neg (by linarith : ¬ (0 : ℚ) ≤ -q), if_pos h.le]; simp

theorem roundToFloat_nonneg (q : ℚ) (hq : 0 ≤ q) : 0 ≤ roundToFloat q := by
  unfold roundToFloat
  rw [if_pos hq]
  exact roundMagnitude_nonneg q hq

theorem roundToFloat_nonpos (q : ℚ) (hq : q ≤ 0) : roundToFloat q ≤ 0 := by
  have := roundToFloat_nonneg (-q) (by linarith)
  rw [roundToFloat_neg] at this
  linarith

theorem roundToFloat_mono (a b : ℚ) (hab : a ≤ b) : roundToFloat a ≤ roundToFloat b := by
  rcases le_or_lt 0 a with ha | ha
  · unfold roundToFloat
    rw [if_pos ha, if_pos (ha.trans hab)]
    exact roundMagnitude_mono a b ha hab
  · rcases le_or_lt 0 b with hb | hb
    · exact (roundToFloat_nonpos a ha.le).trans (roundToFloat_nonneg b hb)
    · unfold roundToFloat
      rw [if_neg (by linarith), if_neg (by linarith)]
      have := roundMagnitude_mono (-b) (-a) (by linarith) (by linarith)
      linarith

theorem roundToFloat_idem (q : ℚ) : roundToFloat (roundToFloat q) = roundToFloat q := by
  rcases le_or_lt 0 q with hq | hq
  · have h1 : roundToFloat q = roundMagnitude q := by unfold roundToFloat; rw [if_pos hq]
    rw [h1]
    unfold roundToFloat
    rw [if_pos (roundMagnitude_nonneg q hq), roundMagnitude_idem q hq]
  · have h1 : roundToFloat q = -roundMagnitude (-q) := by
      unfold roundToFloat; rw [if_neg (by linarith)]
    rw [h1, roundToFloat_neg]
    unfold roundToFloat
    rw [if_pos (roundMagnitude_nonneg (-q) (by linarith)), roundMagnitude_idem (-q) (by linarith)]

theorem roundToFloat_natCast (n : Nat) (hn : n ≤ 2 ^ 24) : roundToFloat (n : ℚ) = (n : ℚ) := by
  unfold roundToFloat
  rw [if_pos (by positivity)]
  rcases Nat.eq_zero_or_pos n with hz | hpos
  · subst hz; simpa using roundMagnitude_zero
  · rcases eq_or_lt_of_le hn with h24 | hlt
    · subst h24
      have := roundMagnitude_two_pow 24 (by norm_num)
      norm_num at this ⊢
      exact this
    · have := roundMagnitude_representable n 0 hpos hlt (by norm_num)
      simpa using this

theorem roundToFloat_intCast (z : Int) (h1 : -2 ^ 24 ≤ z) (h2 : z ≤ 2 ^ 24) :
    roundToFloat (z : ℚ) = (z : ℚ) := by
  rcases le_or_lt 0 z with hz | hz
  · obtain ⟨n, rfl⟩ := Int.eq_ofNat_of_zero_le hz
    have := roundToFloat_natCast n (by exact_mod_cast h2)
    simpa using this
  · obtain ⟨n, hn⟩ := Int.exists_eq_neg_ofNat hz.le
    subst hn
    have := roundToFloat_natCast n (by omega)
    push_cast
    rw [roundToFloat_neg, this]

theorem roundToFloat_error (q : ℚ) (hq : 0 ≤ q) (h1 : q ≤ 1) :
    roundToFloat q ≤ q + 1 / 2 ^ 25 ∧ q - 1 / 2 ^ 25 ≤ roundToFloat q := by
  rcases eq_or_lt_of_le h1 with h | h
  · subst h; rw [roundToFloat_one]; norm_num
  · obtain ⟨e1, e2⟩ := roundMagnitude_error q hq h
    unfold roundToFloat
    rw [if_pos hq]
    constructor <;> linarith

/-! The frustum test -/

theorem Intersects_eq_true_iff (b : BoundingBoxAABB) (planeSet : PlaneSet) :
    b.Intersects planeSet = true ↔
      ∀ idx, 0 ≤ planeDistance (planeSet idx) (b.vertexFor (planeSet idx)) := by
  simp [BoundingBoxAABB.Intersects, List.all_eq_true]

theorem vertexFor_mem_corners (b : BoundingBoxAABB) (plane : XMFLOAT4) :
    b.vertexFor plane ∈ b.corners := by
  unfold BoundingBoxAABB.vertexFor BoundingBoxAABB.corners
  by_cases hx : plane.x ≥ 0 <;> by_cases hy : plane.y ≥ 0 <;> by_cases hz : plane.z ≥ 0 <;>
    simp [hx, hy, hz]

theorem planeDistance_le_vertexFor (b : BoundingBoxAABB) (plane : XMFLOAT4) (p : XMFLOAT3)
    (hp : b.Contains p) :
    planeDistance plane p ≤ planeDistance plane (b.vertexFor plane) := by
  obtain ⟨⟨hx1, hx2⟩, ⟨hy1, hy2⟩, ⟨hz1, hz2⟩⟩ := hp
  have ex : plane.x * p.x ≤ plane.x * (b.vertexFor plane).x := by
    unfold BoundingBoxAABB.vertexFor
    by_cases h : plane.x ≥ 0
    · simp only [h, if_true]; exact mul_le_mul_of_nonneg_left hx2 h
    · simp only [h, if_false]; exact mul_le_mul_of_nonpos_left hx1 (le_of_lt (not_le.mp h))
  have ey : plane.y * p.y ≤ plane.y * (b.vertexFor plane).y := by
    unfold BoundingBoxAABB.vertexFor
    by_cases h : plane.y ≥ 0
    · simp only [h, if_true]; exact mul_le_mul_of_nonneg_left hy2 h
    · simp only [h, if_false]; exact mul_le_mul_of_nonpos_left hy1 (le_of_lt (not_le.mp h))
  have ez : plane.z * p.z ≤ plane.z * (b.vertexFor plane).z := by
    unfold BoundingBoxAABB.vertexFor
    by_cases h : plane.z ≥ 0
    · simp only [h, if_true]; exact mul_le_mul_of_nonneg_left hz2 h
    · simp only [h, if_false]; exact mul_le_mul_of_nonpos_left hz1 (le_of_lt (not_le.mp h))
  unfold planeDistance
  apply roundToFloat_mono
  apply add_le_add_right
  apply roundToFloat_mono
  apply add_le_add _ (roundToFloat_mono _ _ ez)
  apply roundToFloat_mono
  exact add_le_add (roundToFloat_mono _ _ ex) (roundToFloat_mono _ _ ey)

theorem corners_contained (b : BoundingBoxAABB) (hx : 0 ≤ b.m_halfDimensions.x)
    (hy : 0 ≤ b.m_halfDimensions.y) (hz : 0 ≤ b.m_halfDimensions.z) :
    ∀ v ∈ b.corners, b.Contains v := by
  intro v hv
  have mx : roundToFloat (b.m_center.x - b.m_halfDimensions.x)
      ≤ roundToFloat (b.m_center.x + b.m_halfDimensions.x) :=
    roundToFloat_mono _ _ (by linarith)
  have my : roundToFloat (b.m_center.y - b.m_halfDimensions.y)
      ≤ roundToFloat (b.m_center.y + b.m_halfDimensions.y) :=
    roundToFloat_mono _ _ (by linarith)
  have mz : roundToFloat (b.m_center.z - b.m_halfDimensions.z)
      ≤ roundToFloat (b.m_center.z + b.m_halfDimensions.z) :=
    roundToFloat_mono _ _ (by linarith)
  simp only [BoundingBoxAABB.corners, List.mem_cons, List.mem_singleton, List.not_mem_nil,
    or_false] at hv
  rcases hv with h | h | h | h | h | h | h | h <;> subst h <;>
    (unfold BoundingBoxAABB.Contains; refine ⟨⟨?_, ?_⟩, ⟨?_, ?_⟩, ⟨?_, ?_⟩⟩ <;> dsimp only <;>
      first | exact le_rfl | assumption)

/-- Claim C8, amended: for a box with non-negative half-extents, `Intersects`
returns `false` exactly when for some plane the expression
`a*x + b*y + c*z + d`, as the code evaluates it in `float` arithmetic
(`planeDistance`), is negative at all eight corners of the box; hence it returns
`true` whenever that evaluation is non-negative for all six planes at some point
of the box. -/
theorem Intersects_false_iff_corners_outside (b : BoundingBoxAABB) (planeSet : PlaneSet)
    (hx : 0 ≤ b.m_halfDimensions.x) (hy : 0 ≤ b.m_halfDimensions.y)
    (hz : 0 ≤ b.m_halfDimensions.z) :
    (b.Intersects planeSet = false ↔
        ∃ idx, ∀ v ∈ b.corners, planeDistance (planeSet idx) v < 0) ∧
      ((∃ p, b.Contains p ∧ ∀ idx, 0 ≤ planeDistance (planeSet idx) p) →
        b.Intersects planeSet = true) := by
  constructor
  · rw [← Bool.not_eq_true, Intersects_eq_true_iff]
    push_neg
    constructor
    · rintro ⟨idx, hidx⟩
      refine ⟨idx, fun v hv => ?_⟩
      have := planeDistance_le_vertexFor b (planeSet idx) v (corners_contained b hx hy hz v hv)
      linarith
    · rintro ⟨idx, hidx⟩
      exact ⟨idx, hidx _ (vertexFor_mem_corners b (planeSet idx))⟩
  · rintro ⟨p, hp, hall⟩
    rw [Intersects_eq_true_iff]
    intro idx
    have h1 := planeDistance_le_vertexFor b (planeSet idx) p hp
    have h2 := hall idx
    linarith

/-- Witness of C8: the box of centre `(0, 50, 0)` and half-extents `(4, 60, 4)`
against a view volume high above it. -/
theorem Intersects_false_iff_corners_outside_witness :
    ((0 : ℚ) ≤ 4 ∧ (0 : ℚ) ≤ 60) ∧
    ((⟨⟨0, 50, 0⟩, ⟨4, 60, 4⟩⟩ : BoundingBoxAABB).Intersects terrainOutOfView = false ↔
        ∃ idx, ∀ v ∈ (⟨⟨0, 50, 0⟩, ⟨4, 60, 4⟩⟩ : BoundingBoxAABB).corners,
          planeDistance (terrainOutOfView idx) v < 0) ∧
      ((∃ p, (⟨⟨0, 50, 0⟩, ⟨4, 60, 4⟩⟩ : BoundingBoxAABB).Contains p ∧
          ∀ idx, 0 ≤ planeDistance (terrainOutOfView idx) p) →
        (⟨⟨0, 50, 0⟩, ⟨4, 60, 4⟩⟩ : BoundingBoxAABB).Intersects terrainOutOfView = true) :=
  ⟨⟨by norm_num, by norm_num⟩,
    Intersects_false_iff_corners_outside ⟨⟨0, 50, 0⟩, ⟨4, 60, 4⟩⟩ terrainOutOfView
      (by norm_num) (by norm_num) (by norm_num)⟩

/-- Counterexample to C8 as stated: the box of centre `(-1, 2, -2)` and
half-extents `(3, 1, 1)` against the plane `(0.8f, 0.9f, 0.7f, -3.6f)`.  At the
corner `(2, 3, -1)` the exact value of `a*x + b*y + c*z + d` is `1/16777216`, and
the five other planes have the value `1` everywhere, so no plane has all eight
corners outside and the corner is a point of the box inside all six planes; the
`float` sum of the code is `-1/4194304` and `Intersects` returns `false`. -/
theorem Intersects_rejects_box_reaching_inside :
    (⟨⟨-1, 2, -2⟩, ⟨3, 1, 1⟩⟩ : BoundingBoxAABB).Intersects grazingPlanes = false ∧
    planeDistance (grazingPlanes 0) ⟨2, 3, -1⟩ = -1 / 4194304 ∧
    (⟨2, 3, -1⟩ : XMFLOAT3) ∈ (⟨⟨-1, 2, -2⟩, ⟨3, 1, 1⟩⟩ : BoundingBoxAABB).corners ∧
    (grazingPlanes 0).x * 2 + (grazingPlanes 0).y * 3 + (grazingPlanes 0).z * (-1)
      + (grazingPlanes 0).w = 1 / 16777216 ∧
    (∀ idx, 0 ≤ (grazingPlanes idx).x * 2 + (grazingPlanes idx).y * 3
      + (grazingPlanes idx).z * (-1) + (grazingPlanes idx).w) ∧
    ¬ ∃ idx, ∀ v ∈ (⟨⟨-1, 2, -2⟩, ⟨3, 1, 1⟩⟩ : BoundingBoxAABB).corners,
      (grazingPlanes idx).x * v.x + (grazingPlanes idx).y * v.y + (grazingPlanes idx).z * v.z
        + (grazingPlanes idx).w < 0 := by
  decide!

/-! Level-of-detail selection -/

theorem DetermineLOD_scan_mono (d1 d2 : ℚ) (maxLv : Int) (hd : d1 ≤ d2) :
    ∀ (th : List ℚ) (i0 : Nat), ((i0 + th.length : Nat) : Int) ≤ maxLv →
      DetermineLOD.scan d1 maxLv th i0 ≤ DetermineLOD.scan d2 maxLv th i0 := by
  intro th
  induction th with
  | nil => intro i0 _; simp [DetermineLOD.scan]
  | cons t rest ih =>
    intro i0 hlen
    have hlen2 : ((i0 + 1 + rest.length : Nat) : Int) ≤ maxLv := by
      simp only [List.length_cons] at hlen
      have : i0 + 1 + rest.length = i0 + (rest.length + 1) := by omega
      rw [this]; exact hlen
    by_cases h1 : d1 < t
    · by_cases h2 : d2 < t
      · simp [DetermineLOD.scan, h1, h2]
      · simp only [DetermineLOD.scan, h1, h2, if_true, if_false]
        -- the scan for `d2` goes on and ends at an index above `i0` or at `maxLv - 1`
        have key : ∀ (l : List ℚ) (k : Nat), ((k + l.length : Nat) : Int) ≤ maxLv → i0 < k →
            (i0 : Int) ≤ DetermineLOD.scan d2 maxLv l k := by
          intro l
          induction l with
          | nil =>
            intro k hk hlt
            simp only [DetermineLOD.scan, List.length_nil, Nat.add_zero] at hk ⊢
            omega
          | cons u l ihl =>
            intro k hk hlt
            simp only [DetermineLOD.scan]
            split
            · exact_mod_cast hlt.le
            · apply ihl (k + 1) _ (by omega)
              simp only [List.length_cons] at hk
              have : k + 1 + l.length = k + (l.length + 1) := by omega
              rw [this]; exact hk
        exact key rest (i0 + 1) hlen2 (by omega)
    · have h2 : ¬ d2 < t := fun h => h1 (lt_of_le_of_lt hd h)
      simp only [DetermineLOD.scan, h1, h2, if_false]
      exact ih (i0 + 1) hlen2

/-- Counterexample to C10 as stated: with the non-decreasing table `[1, 2, 4]`
installed by `SetLODDistances` and `Initialize(16, 1, 2)`, the depth-1 nodes
`[1]` (centre `(4, 4)`) and `[3]` (centre `(4, -4)`) lie at distances `3` and `5`
from the viewer `(4, 50, 1)`, and get the levels `2` and `1`: the nearer node gets
the larger level. -/
theorem DetermineLOD_not_monotone_long_table :
    List.Pairwise (fun a b : ℚ => a ≤ b) longTableTree.m_lodThresholds ∧
      (longTableTree.m_rootPatch.nodeAt [1]).map (fun n =>
          (n.m_xCoordinate, n.m_zCoordinate, lodDistance sqrtQ n ⟨4, 50, 1⟩,
            DetermineLOD sqrtQ longTableTree.m_lodThresholds
              longTableTree.m_maximumDetailLevels n ⟨4, 50, 1⟩))
        = some (4, 4, 3, 2) ∧
      (longTableTree.m_rootPatch.nodeAt [3]).map (fun n =>
          (n.m_xCoordinate, n.m_zCoordinate, lodDistance sqrtQ n ⟨4, 50, 1⟩,
            DetermineLOD sqrtQ longTableTree.m_lodThresholds
              longTableTree.m_maximumDetailLevels n ⟨4, 50, 1⟩))
        = some (4, -4, 5, 1) := by
  refine ⟨?_, ?_, ?_⟩ <;> decide!

/-- Claim C10, amended: for every non-decreasing threshold table that has at most
`maxDetailLevels` entries and every two nodes whose distances to the viewer
satisfy `d1 ≤ d2`, the level `DetermineLOD` gives the first node is at most the
level it gives the second. -/
theorem DetermineLOD_monotone_in_distance (sqrtf : ℚ → ℚ) (th : List ℚ) (maxLv : Int)
    (n1 n2 : TerrainNode) (viewer : XMFLOAT3)
    (_hsorted : List.Pairwise (fun a b : ℚ => a ≤ b) th)
    (hlen : (th.length : Int) ≤ maxLv)
    (hd : lodDistance sqrtf n1 viewer ≤ lodDistance sqrtf n2 viewer) :
    DetermineLOD sqrtf th maxLv n1 viewer ≤ DetermineLOD sqrtf th maxLv n2 viewer := by
  unfold DetermineLOD
  exact DetermineLOD_scan_mono _ _ maxLv hd th 0 (by simpa using hlen)

/-- Witness of the amended C10: the table `[1, 2]` with two levels and the same
two nodes and viewer as in the counterexample. -/
theorem DetermineLOD_monotone_in_distance_witness :
    DetermineLOD sqrtQ [1, 2] 2
        { TerrainNode.fresh with m_xCoordinate := 4, m_zCoordinate := 4,
                                 m_maximumElevation := 100 } ⟨4, 50, 1⟩
      ≤ DetermineLOD sqrtQ [1, 2] 2
        { TerrainNode.fresh with m_xCoordinate := 4, m_zCoordinate := -4,
                                 m_maximumElevation := 100 } ⟨4, 50, 1⟩ :=
  DetermineLOD_monotone_in_distance sqrtQ [1, 2] 2 _ _ ⟨4, 50, 1⟩
    (by decide!) (by decide!) (by decide!)

/-! Tree construction -/

theorem subtreeAt_null (path : NodePath) : NodePtr.null.subtreeAt path = .null := by
  cases path <;> rfl

theorem subtreeAt_nil (t : NodePtr) : t.subtreeAt [] = t := by
  cases t <;> rfl

theorem subtreeAt_append (t : NodePtr) (p q : NodePath) :
    t.subtreeAt (p ++ q) = (t.subtreeAt p).subtreeAt q := by
  induction p generalizing t with
  | nil => simp [subtreeAt_nil]
  | cons i rest ih =>
    cases t with
    | null => simp [NodePtr.subtreeAt, subtreeAt_null]
    | node n c0 c1 c2 c3 =>
      fin_cases i <;> exact ih _

theorem ConstructTree_eq_leaf (mp : ℚ) (md : Int) (x z s : ℚ) (d total : Int)
    (h : ¬ (s > mp ∧ d < md - 1)) :
    ConstructTree mp md x z s d total =
      (.node { ConstructTree.init md x z s d with m_isLeaf := true } .null .null .null .null,
        total + 1) := by
  rw [ConstructTree]
  simp only [h, not_false_eq_true, dite_true]

theorem ConstructTree_eq_inner (mp : ℚ) (md : Int) (x z s : ℚ) (d total : Int)
    (h : s > mp ∧ d < md - 1) :
    ConstructTree mp md x z s d total =
      (.node { ConstructTree.init md x z s d with m_isLeaf := false }
        (ConstructTree mp md (roundToFloat (x - s * (1 / 4))) (roundToFloat (z + s * (1 / 4))) (s * (1 / 2)) (d + 1)
          (total + 1)).1
        (ConstructTree mp md (roundToFloat (x + s * (1 / 4))) (roundToFloat (z + s * (1 / 4))) (s * (1 / 2)) (d + 1)
          (ConstructTree mp md (roundToFloat (x - s * (1 / 4))) (roundToFloat (z + s * (1 / 4))) (s * (1 / 2)) (d + 1)
            (total + 1)).2).1
        (ConstructTree mp md (roundToFloat (x - s * (1 / 4))) (roundToFloat (z - s * (1 / 4))) (s * (1 / 2)) (d + 1)
          (ConstructTree mp md (roundToFloat (x + s * (1 / 4))) (roundToFloat (z + s * (1 / 4))) (s * (1 / 2)) (d + 1)
            (ConstructTree mp md (roundToFloat (x - s * (1 / 4))) (roundToFloat (z + s * (1 / 4))) (s * (1 / 2)) (d + 1)
              (total + 1)).2).2).1
        (ConstructTree mp md (roundToFloat (x + s * (1 / 4))) (roundToFloat (z - s * (1 / 4))) (s * (1 / 2)) (d + 1)
          (ConstructTree mp md (roundToFloat (x - s * (1 / 4))) (roundToFloat (z - s * (1 / 4))) (s * (1 / 2)) (d + 1)
            (ConstructTree mp md (roundToFloat (x + s * (1 / 4))) (roundToFloat (z + s * (1 / 4))) (s * (1 / 2)) (d + 1)
              (ConstructTree mp md (roundToFloat (x - s * (1 / 4))) (roundToFloat (z + s * (1 / 4))) (s * (1 / 2)) (d + 1)
                (total + 1)).2).2).2).1,
        (ConstructTree mp md (roundToFloat (x + s * (1 / 4))) (roundToFloat (z - s * (1 / 4))) (s * (1 / 2)) (d + 1)
          (ConstructTree mp md (roundToFloat (x - s * (1 / 4))) (roundToFloat (z - s * (1 / 4))) (s * (1 / 2)) (d + 1)
            (ConstructTree mp md (roundToFloat (x + s * (1 / 4))) (roundToFloat (z + s * (1 / 4))) (s * (1 / 2)) (d + 1)
              (ConstructTree mp md (roundToFloat (x - s * (1 / 4))) (roundToFloat (z + s * (1 / 4))) (s * (1 / 2)) (d + 1)
                (total + 1)).2).2).2).2) := by
  rw [ConstructTree]
  simp only [h, and_self, not_true_eq_false, dite_false]

/-- Induction along the recursion of `ConstructTree`. -/
theorem ConstructTree_induction (mp : ℚ) (md : Int) (P : ℚ → ℚ → ℚ → Int → Int → Prop)
    (hleaf : ∀ x z s d total, ¬ (s > mp ∧ d < md - 1) → P x z s d total)
    (hinner : ∀ x z s d total, (s > mp ∧ d < md - 1) →
      (∀ x' z' total', P x' z' (s * (1 / 2)) (d + 1) total') → P x z s d total) :
    ∀ x z s d total, P x z s d total := by
  have main : ∀ (k : Nat) x z s d total, (md - 1 - d).toNat = k → P x z s d total := by
    intro k
    induction k with
    | zero =>
      intro x z s d total hk
      apply hleaf
      rintro ⟨_, hd⟩
      omega
    | succ k ih =>
      intro x z s d total hk
      by_cases h : s > mp ∧ d < md - 1
      · apply hinner _ _ _ _ _ h
        intro x' z' total'
        apply ih
        omega
      · exact hleaf _ _ _ _ _ h
  intro x z s d total
  exact main _ x z s d total rfl

theorem ConstructTree_fst_indep (mp : ℚ) (md : Int) :
    ∀ x z s d total, (ConstructTree mp md x z s d total).1 = (ConstructTree mp md x z s d 0).1 := by
  apply ConstructTree_induction mp md
  · intro x z s d total h
    rw [ConstructTree_eq_leaf _ _ _ _ _ _ _ h, ConstructTree_eq_leaf _ _ _ _ _ _ _ h]
  · intro x z s d total h ih
    rw [ConstructTree_eq_inner _ _ _ _ _ _ _ h, ConstructTree_eq_inner _ _ _ _ _ _ 0 h]
    simp only
    rw [ih _ _ (total + 1), ih (roundToFloat (x + _)) (roundToFloat (z + _)) (ConstructTree _ _ _ _ _ _ (total + 1)).2,
      ih (roundToFloat (x - _)) (roundToFloat (z - _)) (ConstructTree _ _ _ _ _ _ (ConstructTree _ _ _ _ _ _ (total + 1)).2).2,
      ih (roundToFloat (x + _)) (roundToFloat (z - _)) (ConstructTree _ _ _ _ _ _
        (ConstructTree _ _ _ _ _ _ (ConstructTree _ _ _ _ _ _ (total + 1)).2).2).2]
    rw [ih _ _ (0 + 1), ih (roundToFloat (x + _)) (roundToFloat (z + _)) (ConstructTree _ _ _ _ _ _ (0 + 1)).2,
      ih (roundToFloat (x - _)) (roundToFloat (z - _)) (ConstructTree _ _ _ _ _ _ (ConstructTree _ _ _ _ _ _ (0 + 1)).2).2,
      ih (roundToFloat (x + _)) (roundToFloat (z - _)) (ConstructTree _ _ _ _ _ _
        (ConstructTree _ _ _ _ _ _ (ConstructTree _ _ _ _ _ _ (0 + 1)).2).2).2]

/-- The counter `ConstructTree` returns is the counter it was given plus the
number of nodes it built. -/
theorem ConstructTree_snd (mp : ℚ) (md : Int) :
    ∀ x z s d total, (ConstructTree mp md x z s d total).2
      = total + ((ConstructTree mp md x z s d total).1.size : Int) := by
  apply ConstructTree_induction mp md
  · intro x z s d total h
    rw [ConstructTree_eq_leaf _ _ _ _ _ _ _ h]
    simp [NodePtr.size]
  · intro x z s d total h ih
    rw [ConstructTree_eq_inner _ _ _ _ _ _ _ h]
    simp only [NodePtr.size]
    rw [ih (roundToFloat (x + _)) (roundToFloat (z - _)), ih (roundToFloat (x - _)) (roundToFloat (z - _)), ih (roundToFloat (x + _)) (roundToFloat (z + _)), ih (roundToFloat (x - _)) (roundToFloat (z + _))]
    push_cast
    ring

theorem half_div_pow (s : ℚ) (k : ℕ) : s * (1 / 2) / 2 ^ k = s / 2 ^ (k + 1) := by
  rw [div_eq_div_iff (by positivity) (by positivity), pow_succ]
  ring

theorem ConstructTree_ne_null (mp : ℚ) (md : Int) (x z s : ℚ) (d total : Int) :
    (ConstructTree mp md x z s d total).1 ≠ .null := by
  by_cases h : s > mp ∧ d < md - 1
  · rw [ConstructTree_eq_inner _ _ _ _ _ _ _ h]; simp
  · rw [ConstructTree_eq_leaf _ _ _ _ _ _ _ h]; simp

/-- The root that `ConstructTree` builds: its data, and its children, which are
four null pointers or four trees built by `ConstructTree` one level down. -/
theorem ConstructTree_root (mp : ℚ) (md : Int) (x z s : ℚ) (d total : Int) :
    ∃ c0 c1 c2 c3,
      (ConstructTree mp md x z s d total).1 =
        .node { ConstructTree.init md x z s d with
                m_isLeaf := decide (¬ (s > mp ∧ d < md - 1)) } c0 c1 c2 c3 ∧
      (¬ (s > mp ∧ d < md - 1) → c0 = .null ∧ c1 = .null ∧ c2 = .null ∧ c3 = .null) ∧
      ((s > mp ∧ d < md - 1) →
        c0 = (ConstructTree mp md (roundToFloat (x - s * (1 / 4))) (roundToFloat (z + s * (1 / 4))) (s * (1 / 2)) (d + 1) 0).1 ∧
        c1 = (ConstructTree mp md (roundToFloat (x + s * (1 / 4))) (roundToFloat (z + s * (1 / 4))) (s * (1 / 2)) (d + 1) 0).1 ∧
        c2 = (ConstructTree mp md (roundToFloat (x - s * (1 / 4))) (roundToFloat (z - s * (1 / 4))) (s * (1 / 2)) (d + 1) 0).1 ∧
        c3 = (ConstructTree mp md (roundToFloat (x + s * (1 / 4))) (roundToFloat (z - s * (1 / 4))) (s * (1 / 2)) (d + 1) 0).1) := by
  by_cases h : s > mp ∧ d < md - 1
  · refine ⟨(ConstructTree mp md (roundToFloat (x - s * (1 / 4))) (roundToFloat (z + s * (1 / 4))) (s * (1 / 2)) (d + 1) 0).1,
      (ConstructTree mp md (roundToFloat (x + s * (1 / 4))) (roundToFloat (z + s * (1 / 4))) (s * (1 / 2)) (d + 1) 0).1,
      (ConstructTree mp md (roundToFloat (x - s * (1 / 4))) (roundToFloat (z - s * (1 / 4))) (s * (1 / 2)) (d + 1) 0).1,
      (ConstructTree mp md (roundToFloat (x + s * (1 / 4))) (roundToFloat (z - s * (1 / 4))) (s * (1 / 2)) (d + 1) 0).1,
      ?_, fun h' => absurd h h', fun _ => ⟨rfl, rfl, rfl, rfl⟩⟩
    rw [ConstructTree_eq_inner _ _ _ _ _ _ _ h]
    simp only [h, and_self, not_true_eq_false, decide_False]
    congr 1 <;> exact ConstructTree_fst_indep _ _ _ _ _ _ _
  · refine ⟨.null, .null, .null, .null, ?_, fun _ => ⟨rfl, rfl, rfl, rfl⟩, fun h' => absurd h' h⟩
    rw [ConstructTree_eq_leaf _ _ _ _ _ _ _ h]
    simp only [h, not_false_eq_true, decide_True]

/-- Every non-null pointer below a tree built by `ConstructTree` is itself a tree
built by `ConstructTree`, with the size halved and the depth advanced once per
level. -/
theorem ConstructTree_subtreeAt (mp : ℚ) (md : Int) :
    ∀ (path : NodePath) (x z s : ℚ) (d total : Int),
      (ConstructTree mp md x z s d total).1.subtreeAt path = .null ∨
      ∃ x' z', (ConstructTree mp md x z s d total).1.subtreeAt path =
        (ConstructTree mp md x' z' (s / 2 ^ path.length) (d + (path.length : Int)) 0).1 := by
  intro path
  induction path with
  | nil =>
    intro x z s d total
    right
    refine ⟨x, z, ?_⟩
    rw [subtreeAt_nil, ConstructTree_fst_indep]
    simp
  | cons i rest ih =>
    intro x z s d total
    by_cases h : s > mp ∧ d < md - 1
    · have key : ∀ (x' z' : ℚ) (t' : Int),
          (ConstructTree mp md x' z' (s * (1 / 2)) (d + 1) t').1.subtreeAt rest = .null ∨
          ∃ x'' z'', (ConstructTree mp md x' z' (s * (1 / 2)) (d + 1) t').1.subtreeAt rest =
            (ConstructTree mp md x'' z'' (s / 2 ^ (i :: rest).length)
              (d + ((i :: rest).length : Int)) 0).1 := by
        intro x' z' t'
        rcases ih x' z' (s * (1 / 2)) (d + 1) t' with h0 | ⟨x'', z'', h1⟩
        · exact Or.inl h0
        · right
          refine ⟨x'', z'', ?_⟩
          rw [h1]
          have e1 : s * (1 / 2) / 2 ^ rest.length = s / 2 ^ (i :: rest).length :=
            half_div_pow s rest.length
          have e2 : d + 1 + (rest.length : Int) = d + ((i :: rest).length : Int) := by
            simp only [List.length_cons]
            push_cast
            ring
          rw [e1, e2]
      rw [ConstructTree_eq_inner _ _ _ _ _ _ _ h]
      fin_cases i <;> exact key _ _ _
    · left
      rw [ConstructTree_eq_leaf _ _ _ _ _ _ _ h]
      fin_cases i <;> simp [NodePtr.subtreeAt, subtreeAt_null]

/-- The nodes of a tree built by `ConstructTree` from depth `0`: the node at a
path is the root of a tree built for the size `s / 2 ^ length` at the depth
`length`. -/
theorem ConstructTree_nodeAt (mp : ℚ) (md : Int) (x z s : ℚ) (total : Int) (path : NodePath)
    (n : TerrainNode) (hn : (ConstructTree mp md x z s 0 total).1.nodeAt path = some n) :
    ∃ x' z' c0 c1 c2 c3,
      (ConstructTree mp md x z s 0 total).1.subtreeAt path = .node n c0 c1 c2 c3 ∧
      n = { ConstructTree.init md x' z' (s / 2 ^ path.length) (path.length : Int) with
            m_isLeaf := decide (¬ (s / 2 ^ path.length > mp ∧ (path.length : Int) < md - 1)) } ∧
      (¬ (s / 2 ^ path.length > mp ∧ (path.length : Int) < md - 1) →
        c0 = .null ∧ c1 = .null ∧ c2 = .null ∧ c3 = .null) ∧
      ((s / 2 ^ path.length > mp ∧ (path.length : Int) < md - 1) →
        c0 = (ConstructTree mp md (roundToFloat (x' - s / 2 ^ path.length * (1 / 4)))
          (roundToFloat (z' + s / 2 ^ path.length * (1 / 4))) (s / 2 ^ path.length * (1 / 2))
          ((path.length : Int) + 1) 0).1 ∧
        c1 = (ConstructTree mp md (roundToFloat (x' + s / 2 ^ path.length * (1 / 4)))
          (roundToFloat (z' + s / 2 ^ path.length * (1 / 4))) (s / 2 ^ path.length * (1 / 2))
          ((path.length : Int) + 1) 0).1 ∧
        c2 = (ConstructTree mp md (roundToFloat (x' - s / 2 ^ path.length * (1 / 4)))
          (roundToFloat (z' - s / 2 ^ path.length * (1 / 4))) (s / 2 ^ path.length * (1 / 2))
          ((path.length : Int) + 1) 0).1 ∧
        c3 = (ConstructTree mp md (roundToFloat (x' + s / 2 ^ path.length * (1 / 4)))
          (roundToFloat (z' - s / 2 ^ path.length * (1 / 4))) (s / 2 ^ path.length * (1 / 2))
          ((path.length : Int) + 1) 0).1) := by
  unfold NodePtr.nodeAt at hn
  rcases ConstructTree_subtreeAt mp md path x z s 0 total with h0 | ⟨x', z', h1⟩
  · rw [h0] at hn; simp [NodePtr.data?] at hn
  · obtain ⟨c0, c1, c2, c3, hroot, hl, hi⟩ :=
      ConstructTree_root mp md x' z' (s / 2 ^ path.length) (0 + (path.length : Int)) 0
    rw [h1, hroot] at hn
    simp only [NodePtr.data?, Option.some.injEq] at hn
    refine ⟨x', z', c0, c1, c2, c3, ?_, ?_, ?_, ?_⟩
    · rw [h1, hroot, hn]
    · rw [← hn]; simp only [zero_add]
    · simpa only [zero_add] using hl
    · simpa only [zero_add] using hi

theorem Initialize_rootPatch (q : QuadTree) (we mp : ℚ) (md : Int) :
    (q.Initialize we mp md).m_rootPatch = (ConstructTree mp md 0 0 we 0 0).1 := rfl

theorem subtreeAt_singleton (n : TerrainNode) (c0 c1 c2 c3 : NodePtr) (i : Fin 4) :
    (NodePtr.node n c0 c1 c2 c3).subtreeAt [i] =
      match i with
      | 0 => c0
      | 1 => c1
      | 2 => c2
      | 3 => c3 := by
  fin_cases i <;> simp [NodePtr.subtreeAt, subtreeAt_nil]

/-- Claim C5: every node of the tree built by `Initialize` is a leaf exactly when
its patch size is at most `minPatchSize` or its depth (the length of the path
from the root) is at least `maxDetailLevels - 1`; the four child pointers of a
leaf are null and the four child pointers of a non-leaf are not. -/
theorem Initialize_leaf_criterion (q : QuadTree) (we mp : ℚ) (md : Int) (path : NodePath)
    (n : TerrainNode) (hn : (q.Initialize we mp md).m_rootPatch.nodeAt path = some n) :
    (n.m_isLeaf = true ↔ (n.m_patchSize ≤ mp ∨ (path.length : Int) ≥ md - 1)) ∧
      (n.m_isLeaf = true →
        ∀ i : Fin 4, (q.Initialize we mp md).m_rootPatch.subtreeAt (path ++ [i]) = .null) ∧
      (n.m_isLeaf = false →
        ∀ i : Fin 4, (q.Initialize we mp md).m_rootPatch.subtreeAt (path ++ [i]) ≠ .null) := by
  rw [Initialize_rootPatch] at hn ⊢
  obtain ⟨x', z', c0, c1, c2, c3, hsub, hdata, hl, hi⟩ :=
    ConstructTree_nodeAt mp md 0 0 we 0 path n hn
  have hleaf : n.m_isLeaf = decide (¬ (we / 2 ^ path.length > mp ∧ (path.length : Int) < md - 1)) := by
    rw [hdata]
  have hsize : n.m_patchSize = we / 2 ^ path.length := by
    rw [hdata]; rfl
  refine ⟨?_, ?_, ?_⟩
  · rw [hleaf, hsize, decide_eq_true_iff, not_and_or, not_lt, not_lt]
  · intro h i
    rw [hleaf, decide_eq_true_iff] at h
    obtain ⟨h0, h1, h2, h3⟩ := hl h
    rw [subtreeAt_append, hsub, subtreeAt_singleton, h0, h1, h2, h3]
    fin_cases i <;> rfl
  · intro h i
    rw [hleaf, decide_eq_false_iff_not, not_not] at h
    obtain ⟨h0, h1, h2, h3⟩ := hi h
    rw [subtreeAt_append, hsub, subtreeAt_singleton, h0, h1, h2, h3]
    fin_cases i <;> exact ConstructTree_ne_null _ _ _ _ _ _ _

/-- Witness of C5: the child `[0]` of the tree of `Initialize(8, 4, 2)`. -/
theorem Initialize_leaf_criterion_witness :
    ((4 : ℚ) ≤ 4 ∨ (([0] : NodePath).length : Int) ≥ 2 - 1) ∧
      ∀ i : Fin 4, (QuadTree.new.Initialize 8 4 2).m_rootPatch.subtreeAt ([0] ++ [i]) = .null :=
  have h := Initialize_leaf_criterion QuadTree.new 8 4 2 [0]
    { m_xCoordinate := -2, m_zCoordinate := 2, m_patchSize := 4, m_detailLevel := 1,
      m_maximumDetail := 1, m_bounds := ⟨⟨-2, 50, 2⟩, ⟨2, 60, 2⟩⟩, m_minimumElevation := 0,
      m_maximumElevation := 100, m_isLeaf := true, m_isVisible := false, m_bufferIndex := 0 }
    (by decide!)
  ⟨h.1.mp rfl, h.2.1 rfl⟩

theorem ConstructTree_data (mp : ℚ) (md : Int) (x z s : ℚ) (d total : Int) :
    (ConstructTree mp md x z s d total).1.data? =
      some { ConstructTree.init md x z s d with
             m_isLeaf := decide (¬ (s > mp ∧ d < md - 1)) } := by
  obtain ⟨c0, c1, c2, c3, hroot, -, -⟩ := ConstructTree_root mp md x z s d total
  rw [hroot]
  rfl

/-- Claim C6, amended: after a call of `Initialize` that returns, the root has
centre `(0, 0)`, size `worldExtent` and depth `0`; every non-leaf node of centre
`(x, z)`, size `s` and depth `d` (its distance from the root) has the children
`0..3` of size `s / 2` and depth `d + 1`, centred at the `float` results of
`(x - s/4, z + s/4)`, `(x + s/4, z + s/4)`, `(x - s/4, z - s/4)` and
`(x + s/4, z - s/4)`: each sum is rounded to the nearest `float`.  The square of a
child whose two sums are computed without rounding error is the corresponding
quadrant of the square of the parent. -/
theorem Initialize_child_geometry (q : QuadTree) (we mp : ℚ) (md : Int)
    (_hret : QuadTree.Initialize.throws q md = false) :
    ((q.Initialize we mp md).m_rootPatch.nodeAt []).map TerrainNode.geometry
        = some (0, 0, we, 0) ∧
      ∀ (path : NodePath) (n : TerrainNode),
        (q.Initialize we mp md).m_rootPatch.nodeAt path = some n → n.m_isLeaf = false →
        n.m_detailLevel = (path.length : Int) ∧
        (((q.Initialize we mp md).m_rootPatch.nodeAt (path ++ [0])).map TerrainNode.geometry
          = some (roundToFloat (n.m_xCoordinate - n.m_patchSize / 4),
              roundToFloat (n.m_zCoordinate + n.m_patchSize / 4),
              n.m_patchSize / 2, n.m_detailLevel + 1) ∧
        ((q.Initialize we mp md).m_rootPatch.nodeAt (path ++ [1])).map TerrainNode.geometry
          = some (roundToFloat (n.m_xCoordinate + n.m_patchSize / 4),
              roundToFloat (n.m_zCoordinate + n.m_patchSize / 4),
              n.m_patchSize / 2, n.m_detailLevel + 1) ∧
        ((q.Initialize we mp md).m_rootPatch.nodeAt (path ++ [2])).map TerrainNode.geometry
          = some (roundToFloat (n.m_xCoordinate - n.m_patchSize / 4),
              roundToFloat (n.m_zCoordinate - n.m_patchSize / 4),
              n.m_patchSize / 2, n.m_detailLevel + 1) ∧
        ((q.Initialize we mp md).m_rootPatch.nodeAt (path ++ [3])).map TerrainNode.geometry
          = some (roundToFloat (n.m_xCoordinate + n.m_patchSize / 4),
              roundToFloat (n.m_zCoordinate - n.m_patchSize / 4),
              n.m_patchSize / 2, n.m_detailLevel + 1)) ∧
        ((roundToFloat (n.m_xCoordinate - n.m_patchSize / 4)
              = n.m_xCoordinate - n.m_patchSize / 4 →
          roundToFloat (n.m_zCoordinate + n.m_patchSize / 4)
              = n.m_zCoordinate + n.m_patchSize / 4 →
          ((q.Initialize we mp md).m_rootPatch.nodeAt (path ++ [0])).map TerrainNode.square
            = some ((n.m_xCoordinate - n.m_patchSize / 2, n.m_xCoordinate),
                (n.m_zCoordinate, n.m_zCoordinate + n.m_patchSize / 2))) ∧
        (roundToFloat (n.m_xCoordinate + n.m_patchSize / 4)
              = n.m_xCoordinate + n.m_patchSize / 4 →
          roundToFloat (n.m_zCoordinate + n.m_patchSize / 4)
              = n.m_zCoordinate + n.m_patchSize / 4 →
          ((q.Initialize we mp md).m_rootPatch.nodeAt (path ++ [1])).map TerrainNode.square
            = some ((n.m_xCoordinate, n.m_xCoordinate + n.m_patchSize / 2),
                (n.m_zCoordinate, n.m_zCoordinate + n.m_patchSize / 2))) ∧
        (roundToFloat (n.m_xCoordinate - n.m_patchSize / 4)
              = n.m_xCoordinate - n.m_patchSize / 4 →
          roundToFloat (n.m_zCoordinate - n.m_patchSize / 4)
              = n.m_zCoordinate - n.m_patchSize / 4 →
          ((q.Initialize we mp md).m_rootPatch.nodeAt (path ++ [2])).map TerrainNode.square
            = some ((n.m_xCoordinate - n.m_patchSize / 2, n.m_xCoordinate),
                (n.m_zCoordinate - n.m_patchSize / 2, n.m_zCoordinate))) ∧
        (roundToFloat (n.m_xCoordinate + n.m_patchSize / 4)
              = n.m_xCoordinate + n.m_patchSize / 4 →
          roundToFloat (n.m_zCoordinate - n.m_patchSize / 4)
              = n.m_zCoordinate - n.m_patchSize / 4 →
          ((q.Initialize we mp md).m_rootPatch.nodeAt (path ++ [3])).map TerrainNode.square
            = some ((n.m_xCoordinate, n.m_xCoordinate + n.m_patchSize / 2),
                (n.m_zCoordinate - n.m_patchSize / 2, n.m_zCoordinate)))) := by
  rw [Initialize_rootPatch]
  constructor
  · unfold NodePtr.nodeAt
    rw [subtreeAt_nil, ConstructTree_data]
    rfl
  · intro path n hn hnl
    obtain ⟨x', z', c0, c1, c2, c3, hsub, hdata, -, hi⟩ :=
      ConstructTree_nodeAt mp md 0 0 we 0 path n hn
    have hleaf : n.m_isLeaf
        = decide (¬ (we / 2 ^ path.length > mp ∧ (path.length : Int) < md - 1)) := by
      rw [hdata]
    rw [hleaf, decide_eq_false_iff_not, not_not] at hnl
    obtain ⟨h0, h1, h2, h3⟩ := hi hnl
    have hx : n.m_xCoordinate = x' := by rw [hdata]; rfl
    have hz : n.m_zCoordinate = z' := by rw [hdata]; rfl
    have hs : n.m_patchSize = we / 2 ^ path.length := by rw [hdata]; rfl
    have hd : n.m_detailLevel = (path.length : Int) := by rw [hdata]; rfl
    have child : ∀ i : Fin 4, (ConstructTree mp md 0 0 we 0 0).1.nodeAt (path ++ [i]) =
        (match i with
          | 0 => c0
          | 1 => c1
          | 2 => c2
          | 3 => c3).data? := by
      intro i
      unfold NodePtr.nodeAt
      rw [subtreeAt_append, hsub, subtreeAt_singleton]
    have e4 : we / 2 ^ path.length * (1 / 4) = we / 2 ^ path.length / 4 := by ring
    refine ⟨hd, ⟨?_, ?_, ?_, ?_⟩, ⟨?_, ?_, ?_, ?_⟩⟩
    all_goals first
      | rw [child 0, h0, ConstructTree_data]
      | rw [child 1, h1, ConstructTree_data]
      | rw [child 2, h2, ConstructTree_data]
      | rw [child 3, h3, ConstructTree_data]
    all_goals
      simp only [hx, hz, hs, hd, e4, Option.map_some', TerrainNode.geometry, TerrainNode.square,
        ConstructTree.init, Option.some.injEq, Prod.mk.injEq]
      first
        | (intro ex ez
           rw [ex, ez]
           refine ⟨⟨?_, ?_⟩, ?_, ?_⟩ <;> ring1)
        | (refine ⟨?_, ?_, ?_, ?_⟩ <;> first | ring1 | trivial)

/-- Witness of C6: the root of the tree of `Initialize(8, 4, 2)` and its child `0`. -/
theorem Initialize_child_geometry_witness :
    QuadTree.Initialize.throws QuadTree.new 2 = false ∧
    ((QuadTree.new.Initialize 8 4 2).m_rootPatch.nodeAt ([] ++ [0])).map TerrainNode.geometry
      = some (roundToFloat ((0 : ℚ) - 8 / 4), roundToFloat ((0 : ℚ) + 8 / 4), (8 : ℚ) / 2,
          (0 : Int) + 1) :=
  ⟨rfl, ((Initialize_child_geometry QuadTree.new 8 4 2 rfl).2 []
    { m_xCoordinate := 0, m_zCoordinate := 0, m_patchSize := 8, m_detailLevel := 0,
      m_maximumDetail := 1, m_bounds := ⟨⟨0, 50, 0⟩, ⟨4, 60, 4⟩⟩, m_minimumElevation := 0,
      m_maximumElevation := 100, m_isLeaf := false, m_isVisible := false, m_bufferIndex := 0 }
    (by decide!) rfl).2.1.1⟩

/-- Counterexample to C6 as stated: `Initialize(0.1f, 0.01f, 3)`.  The node `[1]`
has centre `x = z = 13421773/536870912` and size `s = 13421773/268435456`; its
child `[1, 1]` has the centre coordinate `5033165/134217728`, the `float` nearest
to `x + s/4 = 40265319/1073741824`, and not `x + s/4`. -/
theorem Initialize_child_centre_is_rounded :
    ((QuadTree.new.Initialize (13421773 / 134217728) (5368709 / 536870912) 3).m_rootPatch.nodeAt
        [1]).map TerrainNode.geometry
      = some (13421773 / 536870912, 13421773 / 536870912, 13421773 / 268435456, 1) ∧
    ((QuadTree.new.Initialize (13421773 / 134217728) (5368709 / 536870912) 3).m_rootPatch.nodeAt
        [1, 1]).map TerrainNode.geometry
      = some (5033165 / 134217728, 5033165 / 134217728, 13421773 / 536870912, 2) ∧
    (5033165 / 134217728 : ℚ) ≠ 13421773 / 536870912 + 13421773 / 268435456 / 4 := by
  decide!

/-- Number of nodes of a tree built by `ConstructTree` that is cut off `L` levels
below its root, by the depth bound or by the patch size, and not earlier. -/
theorem ConstructTree_size_levels (mp : ℚ) (md : Int) :
    ∀ (L : Nat) (x z s : ℚ) (d total : Int), d + (L : Int) ≤ md - 1 →
      (d + (L : Int) = md - 1 ∨ s / 2 ^ L ≤ mp) → (∀ k < L, ¬ s / 2 ^ k ≤ mp) →
      (ConstructTree mp md x z s d total).1.size = ∑ i ∈ Finset.range (L + 1), 4 ^ i := by
  intro L
  induction L with
  | zero =>
    intro x z s d total h1 h2 _
    have h : ¬ (s > mp ∧ d < md - 1) := by
      rintro ⟨hs, hd⟩
      rcases h2 with h2 | h2
      · simp at h2; omega
      · simp at h2; exact absurd hs (not_lt.mpr h2)
    rw [ConstructTree_eq_leaf _ _ _ _ _ _ _ h]
    simp [NodePtr.size]
  | succ L ih =>
    intro x z s d total h1 h2 h3
    have hs : s > mp := by
      have := h3 0 (Nat.succ_pos L)
      simpa using this
    have hd : d < md - 1 := by push_cast at h1; omega
    have hchild : ∀ x' z' t', (ConstructTree mp md x' z' (s * (1 / 2)) (d + 1) t').1.size
        = ∑ i ∈ Finset.range (L + 1), 4 ^ i := by
      intro x' z' t'
      apply ih
      · push_cast at h1; omega
      · rcases h2 with h2 | h2
        · left; push_cast at h2; omega
        · right
          rw [half_div_pow]; exact h2
      · intro k hk
        have := h3 (k + 1) (by omega)
        rw [half_div_pow]; exact this
    rw [ConstructTree_eq_inner _ _ _ _ _ _ _ ⟨hs, hd⟩]
    simp only [NodePtr.size]
    rw [hchild, hchild, hchild, hchild, Finset.sum_range_succ' _ (L + 1)]
    simp only [pow_succ, ← Finset.sum_mul]
    ring

theorem exists_halving_below (we mp : ℚ) (hmp : 0 < mp) : ∃ k : ℕ, we / 2 ^ k ≤ mp := by
  obtain ⟨k, hk⟩ := pow_unbounded_of_one_lt (we / mp) (by norm_num : (1 : ℚ) < 2)
  refine ⟨k, ?_⟩
  have h2 : (0 : ℚ) < 2 ^ k := by positivity
  rw [div_le_iff₀ h2]
  rw [div_lt_iff₀ hmp] at hk
  linarith

/-- Claim C7: whatever the prior state, after `Initialize(worldExtent,
minPatchSize, maxDetailLevels)` with positive extent and patch size and
`maxDetailLevels ≥ 1`, `GetTotalNodeCount()` is `1 + 4 + ... + 4 ^ L` with `L` the
smaller of `maxDetailLevels - 1` and the least `k` with
`worldExtent / 2 ^ k ≤ minPatchSize`; for `(512, 64, 5)` the count is `85`. -/
theorem Initialize_total_node_count (q : QuadTree) (we mp : ℚ) (md : Int)
    (_hwe : 0 < we) (hmp : 0 < mp) (hmd : 1 ≤ md) :
    (∃ k0 : ℕ, IsLeast {k : ℕ | we / 2 ^ k ≤ mp} k0 ∧
        (q.Initialize we mp md).GetTotalNodeCount
          = ∑ i ∈ Finset.range (min (md - 1).toNat k0 + 1), (4 : Int) ^ i) ∧
      (q.Initialize 512 64 5).GetTotalNodeCount = 85 := by
  classical
  constructor
  · have hex := exists_halving_below we mp hmp
    refine ⟨Nat.find hex, ⟨Nat.find_spec hex, fun k hk => Nat.find_min' hex hk⟩, ?_⟩
    show (ConstructTree mp md 0 0 we 0 0).2 = _
    rw [ConstructTree_snd, ConstructTree_size_levels mp md (min (md - 1).toNat (Nat.find hex))]
    · push_cast; ring
    · have : min (md - 1).toNat (Nat.find hex) ≤ (md - 1).toNat := min_le_left _ _
      omega
    · rcases le_total (md - 1).toNat (Nat.find hex) with h | h
      · left; rw [min_eq_left h]; omega
      · right; rw [min_eq_right h]; exact Nat.find_spec hex
    · intro k hk
      exact Nat.find_min hex (lt_of_lt_of_le hk (min_le_right _ _))
  · show (ConstructTree 64 5 0 0 512 0 0).2 = 85
    decide!

/-- Witness of C7: `Initialize(512, 64, 5)` on a new `QuadTree`. -/
theorem Initialize_total_node_count_witness :
    (∃ k0 : ℕ, IsLeast {k : ℕ | (512 : ℚ) / 2 ^ k ≤ 64} k0 ∧
        (QuadTree.new.Initialize 512 64 5).GetTotalNodeCount
          = ∑ i ∈ Finset.range (min ((5 : Int) - 1).toNat k0 + 1), (4 : Int) ^ i) ∧
      (QuadTree.new.Initialize 512 64 5).GetTotalNodeCount = 85 :=
  Initialize_total_node_count QuadTree.new 512 64 5 (by norm_num) (by norm_num) (by norm_num)

/-! The per-frame traversal -/

theorem GatherVisible_eq (t : NodePtr) :
    ∀ (path : NodePath) (out : List NodePath),
      GatherVisible t path out = out ++ (visiblePaths t).map (fun p => path ++ p) := by
  induction t with
  | null => intro path out; simp [GatherVisible, visiblePaths]
  | node n c0 c1 c2 c3 ih0 ih1 ih2 ih3 =>
    intro path out
    simp only [GatherVisible, visiblePaths]
    split_ifs
    · simp
    · simp
    · rw [ih3, ih2, ih1, ih0]
      simp [List.map_append, List.map_map, Function.comp_def, List.append_assoc]

theorem GetVisibleNodes_eq (q : QuadTree) : q.GetVisibleNodes = visiblePaths q.m_rootPatch := by
  unfold QuadTree.GetVisibleNodes
  rw [GatherVisible_eq]
  simp

theorem nodeAt_cons (n : TerrainNode) (c0 c1 c2 c3 : NodePtr) (i : Fin 4) (rest : NodePath) :
    (NodePtr.node n c0 c1 c2 c3).nodeAt (i :: rest) =
      (match i with
        | 0 => c0
        | 1 => c1
        | 2 => c2
        | 3 => c3).nodeAt rest := by
  fin_cases i <;> rfl

theorem nodeAt_nil (n : TerrainNode) (c0 c1 c2 c3 : NodePtr) :
    (NodePtr.node n c0 c1 c2 c3).nodeAt [] = some n := rfl

theorem nodeAt_null (path : NodePath) : NodePtr.null.nodeAt path = none := by
  unfold NodePtr.nodeAt
  rw [subtreeAt_null]
  rfl

/-- `ProcessNode` on a node the frustum test rejects. -/
theorem ProcessNode_culled (sqrtf : ℚ → ℚ) (th : List ℚ) (maxLv : Int) (viewer : XMFLOAT3)
    (planes : PlaneSet) (n : TerrainNode) (c0 c1 c2 c3 : NodePtr) (c : FrameCounters)
    (h : n.m_bounds.Intersects planes = false) :
    ProcessNode sqrtf th maxLv viewer planes (.node n c0 c1 c2 c3) c =
      (.node { n with m_isVisible := false } c0 c1 c2 c3, c) := by
  simp [ProcessNode, h]

/-- `ProcessNode` on a node that passes the frustum test and is not subdivided. -/
theorem ProcessNode_rendered (sqrtf : ℚ → ℚ) (th : List ℚ) (maxLv : Int) (viewer : XMFLOAT3)
    (planes : PlaneSet) (n : TerrainNode) (c0 c1 c2 c3 : NodePtr) (c : FrameCounters)
    (h : n.m_bounds.Intersects planes = true)
    (h2 : (!n.m_isLeaf && ShouldFragment sqrtf n viewer) = false) :
    ProcessNode sqrtf th maxLv viewer planes (.node n c0 c1 c2 c3) c =
      (.node { n with m_isVisible := true
                      m_detailLevel := DetermineLOD sqrtf th maxLv n viewer
                      m_bufferIndex := c.m_nextBufferIndex } c0 c1 c2 c3,
        { m_visiblePatchCount := c.m_visiblePatchCount + 1
          m_nextBufferIndex := (c.m_nextBufferIndex + 1) % 2 ^ 32 }) := by
  have e : ShouldFragment sqrtf
      { n with m_isVisible := true, m_detailLevel := DetermineLOD sqrtf th maxLv n viewer } viewer
      = ShouldFragment sqrtf n viewer := rfl
  have e2 : DetermineLOD sqrtf th maxLv { n with m_isVisible := true } viewer
      = DetermineLOD sqrtf th maxLv n viewer := rfl
  simp only [ProcessNode, h, Bool.not_true, Bool.false_eq_true, if_false, e2, e, h2]

/-- `ProcessNode` on a node that passes the frustum test and is subdivided. -/
theorem ProcessNode_split (sqrtf : ℚ → ℚ) (th : List ℚ) (maxLv : Int) (viewer : XMFLOAT3)
    (planes : PlaneSet) (n : TerrainNode) (c0 c1 c2 c3 : NodePtr) (c : FrameCounters)
    (h : n.m_bounds.Intersects planes = true)
    (h2 : (!n.m_isLeaf && ShouldFragment sqrtf n viewer) = true) :
    ProcessNode sqrtf th maxLv viewer planes (.node n c0 c1 c2 c3) c =
      (.node { n with m_isVisible := false
                      m_detailLevel := DetermineLOD sqrtf th maxLv n viewer }
        (ProcessNode sqrtf th maxLv viewer planes c0 c).1
        (ProcessNode sqrtf th maxLv viewer planes c1
          (ProcessNode sqrtf th maxLv viewer planes c0 c).2).1
        (ProcessNode sqrtf th maxLv viewer planes c2
          (ProcessNode sqrtf th maxLv viewer planes c1
            (ProcessNode sqrtf th maxLv viewer planes c0 c).2).2).1
        (ProcessNode sqrtf th maxLv viewer planes c3
          (ProcessNode sqrtf th maxLv viewer planes c2
            (ProcessNode sqrtf th maxLv viewer planes c1
              (ProcessNode sqrtf th maxLv viewer planes c0 c).2).2).2).1,
        (ProcessNode sqrtf th maxLv viewer planes c3
          (ProcessNode sqrtf th maxLv viewer planes c2
            (ProcessNode sqrtf th maxLv viewer planes c1
              (ProcessNode sqrtf th maxLv viewer planes c0 c).2).2).2).2) := by
  have e : ShouldFragment sqrtf
      { n with m_isVisible := true, m_detailLevel := DetermineLOD sqrtf th maxLv n viewer } viewer
      = ShouldFragment sqrtf n viewer := rfl
  have e2 : DetermineLOD sqrtf th maxLv { n with m_isVisible := true } viewer
      = DetermineLOD sqrtf th maxLv n viewer := rfl
  simp only [ProcessNode, h, Bool.not_true, Bool.false_eq_true, if_false, e2, e, h2, if_true]

theorem all_node (p : TerrainNode → Bool) (n : TerrainNode) (c0 c1 c2 c3 : NodePtr) :
    (NodePtr.node n c0 c1 c2 c3).all p = true ↔
      p n = true ∧ c0.all p = true ∧ c1.all p = true ∧ c2.all p = true ∧ c3.all p = true := by
  simp only [NodePtr.all, Bool.and_eq_true]
  tauto

theorem clean_visiblePaths (t : NodePtr) (h : t.all (fun n => !n.m_isVisible) = true) :
    visiblePaths t = [] := by
  induction t with
  | null => rfl
  | node n c0 c1 c2 c3 ih0 ih1 ih2 ih3 =>
    rw [all_node] at h
    obtain ⟨hn, h0, h1, h2, h3⟩ := h
    simp only [Bool.not_eq_true'] at hn
    simp [visiblePaths, hn, ih0 h0, ih1 h1, ih2 h2, ih3 h3]

theorem clean_not_flagged (t : NodePtr) (h : t.all (fun n => !n.m_isVisible) = true) :
    ∀ path, ¬ t.FlaggedAt path := by
  induction t with
  | null =>
    rintro path ⟨n, hn, -⟩
    rw [nodeAt_null] at hn
    cases hn
  | node n c0 c1 c2 c3 ih0 ih1 ih2 ih3 =>
    rw [all_node] at h
    obtain ⟨hn, h0, h1, h2, h3⟩ := h
    simp only [Bool.not_eq_true'] at hn
    intro path
    cases path with
    | nil =>
      rintro ⟨m, hm, hv⟩
      rw [nodeAt_nil] at hm
      cases hm
      rw [hn] at hv
      cases hv
    | cons i rest =>
      rintro ⟨m, hm, hv⟩
      rw [nodeAt_cons] at hm
      fin_cases i
      · exact ih0 h0 rest ⟨m, hm, hv⟩
      · exact ih1 h1 rest ⟨m, hm, hv⟩
      · exact ih2 h2 rest ⟨m, hm, hv⟩
      · exact ih3 h3 rest ⟨m, hm, hv⟩

theorem slots_range_add (s a b : Nat) :
    (List.range (a + b)).map (fun k => some ((s + k) % 2 ^ 32)) =
      (List.range a).map (fun k => some ((s + k) % 2 ^ 32)) ++
        (List.range b).map (fun k => some (((s + a) % 2 ^ 32 + k) % 2 ^ 32)) := by
  rw [List.range_add, List.map_append, List.map_map]
  congr 1
  apply List.map_congr_left
  intro k _
  simp [Nat.add_assoc, Nat.mod_add_mod]

/-- Flags, slots and counters after `ProcessNode` on a subtree none of whose nodes
is flagged visible beforehand. -/
theorem ProcessNode_clean (sqrtf : ℚ → ℚ) (th : List ℚ) (maxLv : Int) (viewer : XMFLOAT3)
    (planes : PlaneSet) (t : NodePtr) :
    ∀ c : FrameCounters, t.all (fun n => !n.m_isVisible) = true →
      c.m_nextBufferIndex < 2 ^ 32 →
      (∀ path, (ProcessNode sqrtf th maxLv viewer planes t c).1.FlaggedAt path ↔
        path ∈ visiblePaths (ProcessNode sqrtf th maxLv viewer planes t c).1) ∧
      (visiblePaths (ProcessNode sqrtf th maxLv viewer planes t c).1).map
          (ProcessNode sqrtf th maxLv viewer planes t c).1.slotAt =
        (List.range (visiblePaths (ProcessNode sqrtf th maxLv viewer planes t c).1).length).map
          (fun k => some ((c.m_nextBufferIndex + k) % 2 ^ 32)) ∧
      (ProcessNode sqrtf th maxLv viewer planes t c).2.m_visiblePatchCount =
        c.m_visiblePatchCount
          + ((visiblePaths (ProcessNode sqrtf th maxLv viewer planes t c).1).length : Int) ∧
      (ProcessNode sqrtf th maxLv viewer planes t c).2.m_nextBufferIndex =
        (c.m_nextBufferIndex
          + (visiblePaths (ProcessNode sqrtf th maxLv viewer planes t c).1).length) % 2 ^ 32 := by
  induction t with
  | null =>
    intro c _ hc
    refine ⟨?_, ?_, ?_, ?_⟩
    · intro path
      simp only [ProcessNode, visiblePaths, List.not_mem_nil, iff_false]
      rintro ⟨n, hn, -⟩
      rw [nodeAt_null] at hn
      cases hn
    · simp [ProcessNode, visiblePaths]
    · simp [ProcessNode, visiblePaths]
    · simp only [ProcessNode, visiblePaths, List.length_nil, Nat.add_zero]
      exact (Nat.mod_eq_of_lt hc).symm
  | node n c0 c1 c2 c3 ih0 ih1 ih2 ih3 =>
    intro c hclean hc
    rw [all_node] at hclean
    obtain ⟨-, h0, h1, h2, h3⟩ := hclean
    have hchildren : ∀ (m : TerrainNode) (path : NodePath) (i : Fin 4),
        ¬ (NodePtr.node m c0 c1 c2 c3).FlaggedAt (i :: path) := by
      rintro m path i ⟨k, hk, hv⟩
      rw [nodeAt_cons] at hk
      fin_cases i
      · exact clean_not_flagged c0 h0 path ⟨k, hk, hv⟩
      · exact clean_not_flagged c1 h1 path ⟨k, hk, hv⟩
      · exact clean_not_flagged c2 h2 path ⟨k, hk, hv⟩
      · exact clean_not_flagged c3 h3 path ⟨k, hk, hv⟩
    by_cases hI : n.m_bounds.Intersects planes = true
    · by_cases hT : (!n.m_isLeaf && ShouldFragment sqrtf n viewer) = true
      · -- subdivided
        rw [ProcessNode_split sqrtf th maxLv viewer planes n c0 c1 c2 c3 c hI hT]
        have hleaf : n.m_isLeaf = false := by
          simp only [Bool.and_eq_true, Bool.not_eq_true'] at hT
          exact hT.1
        obtain ⟨A0, B0, C0, D0⟩ := ih0 c h0 hc
        have hc1 : (ProcessNode sqrtf th maxLv viewer planes c0 c).2.m_nextBufferIndex < 2 ^ 32 := by
          rw [D0]; exact Nat.mod_lt _ (by norm_num)
        obtain ⟨A1, B1, C1, D1⟩ := ih1 _ h1 hc1
        have hc2 : (ProcessNode sqrtf th maxLv viewer planes c1
            (ProcessNode sqrtf th maxLv viewer planes c0 c).2).2.m_nextBufferIndex < 2 ^ 32 := by
          rw [D1]; exact Nat.mod_lt _ (by norm_num)
        obtain ⟨A2, B2, C2, D2⟩ := ih2 _ h2 hc2
        have hc3 : (ProcessNode sqrtf th maxLv viewer planes c2
            (ProcessNode sqrtf th maxLv viewer planes c1
              (ProcessNode sqrtf th maxLv viewer planes c0 c).2).2).2.m_nextBufferIndex
              < 2 ^ 32 := by
          rw [D2]; exact Nat.mod_lt _ (by norm_num)
        obtain ⟨A3, B3, C3, D3⟩ := ih3 _ h3 hc3
        generalize ProcessNode sqrtf th maxLv viewer planes c0 c = r0 at *
        generalize ProcessNode sqrtf th maxLv viewer planes c1 r0.2 = r1 at *
        generalize ProcessNode sqrtf th maxLv viewer planes c2 r1.2 = r2 at *
        generalize ProcessNode sqrtf th maxLv viewer planes c3 r2.2 = r3 at *
        have hvp : visiblePaths (NodePtr.node
            { n with m_isVisible := false
                     m_detailLevel := DetermineLOD sqrtf th maxLv n viewer } r0.1 r1.1 r2.1 r3.1)
            = (visiblePaths r0.1).map (List.cons 0) ++ (visiblePaths r1.1).map (List.cons 1) ++
              (visiblePaths r2.1).map (List.cons 2) ++ (visiblePaths r3.1).map (List.cons 3) := by
          simp [visiblePaths, hleaf]
        simp only [hvp]
        refine ⟨?_, ?_, ?_, ?_⟩
        · intro path
          cases path with
          | nil =>
            simp only [List.mem_append, List.mem_map, and_false, exists_false, or_false,
              iff_false, reduceCtorEq]
            rintro ⟨m, hm, hv⟩
            rw [nodeAt_nil] at hm
            cases hm
            cases hv
          | cons i rest =>
            have e : (NodePtr.node
                { n with m_isVisible := false
                         m_detailLevel := DetermineLOD sqrtf th maxLv n viewer }
                r0.1 r1.1 r2.1 r3.1).FlaggedAt (i :: rest) ↔
                (match i with
                  | 0 => r0.1
                  | 1 => r1.1
                  | 2 => r2.1
                  | 3 => r3.1).FlaggedAt rest := by
              unfold NodePtr.FlaggedAt
              rw [nodeAt_cons]
            rw [e]
            fin_cases i
            · simpa using A0 rest
            · simpa using A1 rest
            · simpa using A2 rest
            · simpa using A3 rest
        · have es : ∀ (r : NodePtr) (i : Fin 4),
              (match i with
                | 0 => r0.1
                | 1 => r1.1
                | 2 => r2.1
                | 3 => r3.1) = r →
              (visiblePaths r).map ((NodePtr.node
                { n with m_isVisible := false
                         m_detailLevel := DetermineLOD sqrtf th maxLv n viewer }
                r0.1 r1.1 r2.1 r3.1).slotAt ∘ List.cons i) = (visiblePaths r).map r.slotAt := by
            intro r i hr
            apply List.map_congr_left
            intro path _
            simp only [Function.comp, NodePtr.slotAt, nodeAt_cons, hr]
          simp only [List.map_append, List.map_map, List.length_append, List.length_map]
          rw [es r0.1 0 rfl, es r1.1 1 rfl, es r2.1 2 rfl, es r3.1 3 rfl, B0, B1, B2, B3,
            slots_range_add, slots_range_add, slots_range_add, D2, D1, D0]
          simp only [Nat.mod_add_mod, Nat.add_assoc]
        · rw [C3, C2, C1, C0]
          simp only [List.length_append, List.length_map]
          push_cast
          ring
        · rw [D3, D2, D1, D0]
          simp only [List.length_append, List.length_map, Nat.mod_add_mod, Nat.add_assoc]
      · -- rendered
        have hT' : (!n.m_isLeaf && ShouldFragment sqrtf n viewer) = false := by
          simpa using hT
        rw [ProcessNode_rendered sqrtf th maxLv viewer planes n c0 c1 c2 c3 c hI hT']
        have hvp : visiblePaths (NodePtr.node
            { n with m_isVisible := true
                     m_detailLevel := DetermineLOD sqrtf th maxLv n viewer
                     m_bufferIndex := c.m_nextBufferIndex } c0 c1 c2 c3) = [[]] := by
          simp [visiblePaths]
        simp only [hvp]
        refine ⟨?_, ?_, ?_, ?_⟩
        · intro path
          cases path with
          | nil =>
            simp only [List.mem_singleton, iff_true]
            exact ⟨_, nodeAt_nil _ _ _ _ _, rfl⟩
          | cons i rest =>
            simp only [List.mem_singleton, reduceCtorEq, iff_false]
            exact hchildren _ rest i
        · have hc' : c.m_nextBufferIndex % 4294967296 = c.m_nextBufferIndex :=
            Nat.mod_eq_of_lt (by simpa using hc)
          simp [NodePtr.slotAt, nodeAt_nil, List.range_succ, hc']
        · simp
        · simp
    · -- culled
      have hI' : n.m_bounds.Intersects planes = false := by simpa using hI
      rw [ProcessNode_culled sqrtf th maxLv viewer planes n c0 c1 c2 c3 c hI']
      have hvp : visiblePaths (NodePtr.node { n with m_isVisible := false } c0 c1 c2 c3) = [] := by
        apply clean_visiblePaths
        rw [all_node]
        exact ⟨rfl, h0, h1, h2, h3⟩
      simp only [hvp]
      refine ⟨?_, ?_, ?_, ?_⟩
      · intro path
        simp only [List.not_mem_nil, iff_false]
        apply clean_not_flagged
        rw [all_node]
        exact ⟨rfl, h0, h1, h2, h3⟩
      · simp
      · simp
      · simp only [List.length_nil, Nat.add_zero]
        exact (Nat.mod_eq_of_lt hc).symm

theorem ConstructTree_clean (mp : ℚ) (md : Int) :
    ∀ x z s d total,
      (ConstructTree mp md x z s d total).1.all (fun n => !n.m_isVisible) = true := by
  apply ConstructTree_induction mp md
  · intro x z s d total h
    rw [ConstructTree_eq_leaf _ _ _ _ _ _ _ h]
    rfl
  · intro x z s d total h ih
    rw [ConstructTree_eq_inner _ _ _ _ _ _ _ h, all_node]
    exact ⟨rfl, ih _ _ _, ih _ _ _, ih _ _ _, ih _ _ _⟩

theorem visiblePaths_length_le_size (t : NodePtr) : (visiblePaths t).length ≤ t.size := by
  induction t with
  | null => simp [visiblePaths]
  | node n c0 c1 c2 c3 ih0 ih1 ih2 ih3 =>
    simp only [visiblePaths, NodePtr.size]
    split_ifs
    · simp only [List.length_singleton]
      omega
    · simp
    · simp only [List.length_append, List.length_map]
      omega

theorem ProcessNode_size (sqrtf : ℚ → ℚ) (th : List ℚ) (maxLv : Int) (viewer : XMFLOAT3)
    (planes : PlaneSet) (t : NodePtr) :
    ∀ c, (ProcessNode sqrtf th maxLv viewer planes t c).1.size = t.size := by
  induction t with
  | null => intro c; rfl
  | node n c0 c1 c2 c3 ih0 ih1 ih2 ih3 =>
    intro c
    by_cases hI : n.m_bounds.Intersects planes = true
    · by_cases hT : (!n.m_isLeaf && ShouldFragment sqrtf n viewer) = true
      · rw [ProcessNode_split sqrtf th maxLv viewer planes n c0 c1 c2 c3 c hI hT]
        simp only [NodePtr.size, ih0, ih1, ih2, ih3]
      · rw [ProcessNode_rendered sqrtf th maxLv viewer planes n c0 c1 c2 c3 c hI
          (by simpa using hT)]
        rfl
    · rw [ProcessNode_culled sqrtf th maxLv viewer planes n c0 c1 c2 c3 c (by simpa using hI)]
      rfl

/-- Claim C3: after one `Update` of a freshly initialised tree (whose node count
fits the `int` counter `m_totalPatchCount`), the nodes flagged visible are exactly
the nodes `GetVisibleNodes` returns, the `k`-th returned node carries the buffer
index `k`, and the number of returned nodes is `GetVisibleNodeCount()`; so the
assigned slots are `0, 1, ..., GetVisibleNodeCount() - 1` without duplicates. -/
theorem Update_fresh_tree_slots (sqrtf : ℚ → ℚ) (q0 : QuadTree) (we mp : ℚ) (md : Int)
    (viewer : XMFLOAT3) (planes : PlaneSet)
    (hfit : (q0.Initialize we mp md).GetTotalNodeCount < 2 ^ 31) :
    (∀ path : NodePath,
        (∃ n, (QuadTree.Update sqrtf (q0.Initialize we mp md) viewer planes).m_rootPatch.nodeAt path
            = some n ∧ n.m_isVisible = true) ↔
          path ∈ (QuadTree.Update sqrtf (q0.Initialize we mp md) viewer planes).GetVisibleNodes) ∧
      (QuadTree.Update sqrtf (q0.Initialize we mp md) viewer planes).GetVisibleNodes.map
          (fun path => ((QuadTree.Update sqrtf (q0.Initialize we mp md) viewer
            planes).m_rootPatch.nodeAt path).map (fun n => n.m_bufferIndex))
        = (List.range
            (QuadTree.Update sqrtf (q0.Initialize we mp md) viewer planes).GetVisibleNodes.length).map
          some ∧
      ((QuadTree.Update sqrtf (q0.Initialize we mp md) viewer planes).GetVisibleNodes.length : Int)
        = (QuadTree.Update sqrtf (q0.Initialize we mp md) viewer planes).GetVisibleNodeCount := by
  have hclean := ConstructTree_clean mp md 0 0 we 0 0
  obtain ⟨A, B, C, -⟩ := ProcessNode_clean sqrtf (q0.Initialize we mp md).m_lodThresholds
    (q0.Initialize we mp md).m_maximumDetailLevels viewer planes
    (ConstructTree mp md 0 0 we 0 0).1 ⟨0, 0⟩ hclean (by norm_num)
  have hsize : ((ConstructTree mp md 0 0 we 0 0).1.size : Int) < 2 ^ 31 := by
    have h := ConstructTree_snd mp md 0 0 we 0 0
    have h2 : (ConstructTree mp md 0 0 we 0 0).2 < 2 ^ 31 := hfit
    rw [h] at h2
    simpa using h2
  have hlen := visiblePaths_length_le_size
    (ProcessNode sqrtf (q0.Initialize we mp md).m_lodThresholds
      (q0.Initialize we mp md).m_maximumDetailLevels viewer planes
      (ConstructTree mp md 0 0 we 0 0).1 ⟨0, 0⟩).1
  rw [ProcessNode_size] at hlen
  rw [GetVisibleNodes_eq]
  have hroot : (QuadTree.Update sqrtf (q0.Initialize we mp md) viewer planes).m_rootPatch
      = (ProcessNode sqrtf (q0.Initialize we mp md).m_lodThresholds
        (q0.Initialize we mp md).m_maximumDetailLevels viewer planes
        (ConstructTree mp md 0 0 we 0 0).1 ⟨0, 0⟩).1 := rfl
  have hcnt : (QuadTree.Update sqrtf (q0.Initialize we mp md) viewer planes).GetVisibleNodeCount
      = (ProcessNode sqrtf (q0.Initialize we mp md).m_lodThresholds
        (q0.Initialize we mp md).m_maximumDetailLevels viewer planes
        (ConstructTree mp md 0 0 we 0 0).1 ⟨0, 0⟩).2.m_visiblePatchCount := rfl
  rw [hroot, hcnt]
  refine ⟨A, ?_, ?_⟩
  · have B' := B
    unfold NodePtr.slotAt at B'
    rw [B']
    apply List.map_congr_left
    intro k hk
    rw [List.mem_range] at hk
    have hk2 : k < 2 ^ 32 := by
      have : (k : Int) < 2 ^ 31 := by
        have := Int.ofNat_lt.mpr (lt_of_lt_of_le hk hlen)
        omega
      omega
    simp only [Nat.zero_add, Nat.mod_eq_of_lt hk2]
  · rw [C]
    simp

/-- Witness of C3: `Initialize(8, 4, 2)` on a new `QuadTree`, then one `Update`
with the viewer at `(0, 51, 0)` and a view volume that holds the whole terrain. -/
theorem Update_fresh_tree_slots_witness :
    (∀ path : NodePath,
        (∃ n, (QuadTree.Update sqrtQ (QuadTree.new.Initialize 8 4 2) ⟨0, 51, 0⟩
            terrainInView).m_rootPatch.nodeAt path = some n ∧ n.m_isVisible = true) ↔
          path ∈ (QuadTree.Update sqrtQ (QuadTree.new.Initialize 8 4 2) ⟨0, 51, 0⟩
            terrainInView).GetVisibleNodes) ∧
      (QuadTree.Update sqrtQ (QuadTree.new.Initialize 8 4 2) ⟨0, 51, 0⟩
          terrainInView).GetVisibleNodes.map
          (fun path => ((QuadTree.Update sqrtQ (QuadTree.new.Initialize 8 4 2) ⟨0, 51, 0⟩
            terrainInView).m_rootPatch.nodeAt path).map (fun n => n.m_bufferIndex))
        = (List.range
            (QuadTree.Update sqrtQ (QuadTree.new.Initialize 8 4 2) ⟨0, 51, 0⟩
              terrainInView).GetVisibleNodes.length).map some ∧
      ((QuadTree.Update sqrtQ (QuadTree.new.Initialize 8 4 2) ⟨0, 51, 0⟩
          terrainInView).GetVisibleNodes.length : Int)
        = (QuadTree.Update sqrtQ (QuadTree.new.Initialize 8 4 2) ⟨0, 51, 0⟩
            terrainInView).GetVisibleNodeCount :=
  Update_fresh_tree_slots sqrtQ QuadTree.new 8 4 2 ⟨0, 51, 0⟩ terrainInView (by decide!)

theorem ConstructTree_wellFormed (mp : ℚ) (md : Int) :
    ∀ x z s d total, (ConstructTree mp md x z s d total).1.WellFormed := by
  apply ConstructTree_induction mp md
  · intro x z s d total h
    rw [ConstructTree_eq_leaf _ _ _ _ _ _ _ h]
    simp [NodePtr.WellFormed]
  · intro x z s d total h ih
    rw [ConstructTree_eq_inner _ _ _ _ _ _ _ h]
    simp only [NodePtr.WellFormed]
    exact ⟨fun _ => ⟨ConstructTree_ne_null _ _ _ _ _ _ _, ConstructTree_ne_null _ _ _ _ _ _ _,
      ConstructTree_ne_null _ _ _ _ _ _ _, ConstructTree_ne_null _ _ _ _ _ _ _⟩,
      ih _ _ _, ih _ _ _, ih _ _ _, ih _ _ _⟩

theorem ProcessNode_ne_null (sqrtf : ℚ → ℚ) (th : List ℚ) (maxLv : Int) (viewer : XMFLOAT3)
    (planes : PlaneSet) (t : NodePtr) (c : FrameCounters) (ht : t ≠ .null) :
    (ProcessNode sqrtf th maxLv viewer planes t c).1 ≠ .null := by
  cases t with
  | null => exact absurd rfl ht
  | node n c0 c1 c2 c3 =>
    by_cases hI : n.m_bounds.Intersects planes = true
    · by_cases hT : (!n.m_isLeaf && ShouldFragment sqrtf n viewer) = true
      · rw [ProcessNode_split sqrtf th maxLv viewer planes n c0 c1 c2 c3 c hI hT]
        simp
      · rw [ProcessNode_rendered sqrtf th maxLv viewer planes n c0 c1 c2 c3 c hI
          (by simpa using hT)]
        simp
    · rw [ProcessNode_culled sqrtf th maxLv viewer planes n c0 c1 c2 c3 c (by simpa using hI)]
      simp

theorem ProcessNode_wellFormed (sqrtf : ℚ → ℚ) (th : List ℚ) (maxLv : Int) (viewer : XMFLOAT3)
    (planes : PlaneSet) (t : NodePtr) :
    ∀ c, t.WellFormed → (ProcessNode sqrtf th maxLv viewer planes t c).1.WellFormed := by
  induction t with
  | null => intro c _; simp [ProcessNode, NodePtr.WellFormed]
  | node n c0 c1 c2 c3 ih0 ih1 ih2 ih3 =>
    intro c hwf
    simp only [NodePtr.WellFormed] at hwf
    obtain ⟨hch, w0, w1, w2, w3⟩ := hwf
    by_cases hI : n.m_bounds.Intersects planes = true
    · by_cases hT : (!n.m_isLeaf && ShouldFragment sqrtf n viewer) = true
      · rw [ProcessNode_split sqrtf th maxLv viewer planes n c0 c1 c2 c3 c hI hT]
        simp only [NodePtr.WellFormed]
        refine ⟨fun hl => ?_, ih0 _ w0, ih1 _ w1, ih2 _ w2, ih3 _ w3⟩
        obtain ⟨n0, n1, n2, n3⟩ := hch hl
        exact ⟨ProcessNode_ne_null _ _ _ _ _ _ _ n0, ProcessNode_ne_null _ _ _ _ _ _ _ n1,
          ProcessNode_ne_null _ _ _ _ _ _ _ n2, ProcessNode_ne_null _ _ _ _ _ _ _ n3⟩
      · rw [ProcessNode_rendered sqrtf th maxLv viewer planes n c0 c1 c2 c3 c hI
          (by simpa using hT)]
        simp only [NodePtr.WellFormed]
        exact ⟨hch, w0, w1, w2, w3⟩
    · rw [ProcessNode_culled sqrtf th maxLv viewer planes n c0 c1 c2 c3 c (by simpa using hI)]
      simp only [NodePtr.WellFormed]
      exact ⟨hch, w0, w1, w2, w3⟩

/-- An initialised `QuadTree` has a root, and its inner nodes have four children. -/
theorem Initialised_wellFormed (sqrtf : ℚ → ℚ) (q : QuadTree) (hq : Initialised sqrtf q) :
    q.m_rootPatch ≠ .null ∧ q.m_rootPatch.WellFormed := by
  induction hq with
  | init q we mp md =>
    rw [Initialize_rootPatch]
    exact ⟨ConstructTree_ne_null _ _ _ _ _ _ _, ConstructTree_wellFormed _ _ _ _ _ _ _⟩
  | update viewer planes _ ih =>
    exact ⟨ProcessNode_ne_null _ _ _ _ _ _ _ ih.1, ProcessNode_wellFormed _ _ _ _ _ _ _ ih.2⟩
  | @setHeightRange q x z r minY maxY _ ih =>
    unfold QuadTree.SetHeightRange
    cases hroot : q.m_rootPatch with
    | null => exact absurd hroot ih.1
    | node n c0 c1 c2 c3 =>
      have hwf := ih.2
      rw [hroot] at hwf
      simp only [NodePtr.WellFormed] at hwf ⊢
      exact ⟨by simp, hwf⟩
  | setLODDistances th _ ih => exact ih

/-- Counter and returned nodes after `ProcessNode` on a subtree all of whose boxes
the planes accept, whatever flags earlier frames left in it. -/
theorem ProcessNode_all_accepted (sqrtf : ℚ → ℚ) (th : List ℚ) (maxLv : Int)
    (viewer : XMFLOAT3) (planes : PlaneSet) (t : NodePtr) :
    ∀ c : FrameCounters, t.WellFormed →
      t.all (fun n => n.m_bounds.Intersects planes) = true →
      (ProcessNode sqrtf th maxLv viewer planes t c).2.m_visiblePatchCount =
        c.m_visiblePatchCount
          + ((visiblePaths (ProcessNode sqrtf th maxLv viewer planes t c).1).length : Int) ∧
      (t ≠ .null → 1 ≤ (visiblePaths (ProcessNode sqrtf th maxLv viewer planes t c).1).length) := by
  induction t with
  | null =>
    intro c _ _
    simp [ProcessNode, visiblePaths]
  | node n c0 c1 c2 c3 ih0 ih1 ih2 ih3 =>
    intro c hwf hall
    simp only [NodePtr.WellFormed] at hwf
    obtain ⟨hch, w0, w1, w2, w3⟩ := hwf
    rw [all_node] at hall
    obtain ⟨hI, a0, a1, a2, a3⟩ := hall
    by_cases hT : (!n.m_isLeaf && ShouldFragment sqrtf n viewer) = true
    · rw [ProcessNode_split sqrtf th maxLv viewer planes n c0 c1 c2 c3 c hI hT]
      have hleaf : n.m_isLeaf = false := by
        simp only [Bool.and_eq_true, Bool.not_eq_true'] at hT
        exact hT.1
      obtain ⟨n0, -, -, -⟩ := hch hleaf
      obtain ⟨C0, L0⟩ := ih0 c w0 a0
      obtain ⟨C1, -⟩ := ih1 (ProcessNode sqrtf th maxLv viewer planes c0 c).2 w1 a1
      obtain ⟨C2, -⟩ := ih2 (ProcessNode sqrtf th maxLv viewer planes c1
        (ProcessNode sqrtf th maxLv viewer planes c0 c).2).2 w2 a2
      obtain ⟨C3, -⟩ := ih3 (ProcessNode sqrtf th maxLv viewer planes c2
        (ProcessNode sqrtf th maxLv viewer planes c1
          (ProcessNode sqrtf th maxLv viewer planes c0 c).2).2).2 w3 a3
      have L0' := L0 n0
      generalize ProcessNode sqrtf th maxLv viewer planes c0 c = r0 at *
      generalize ProcessNode sqrtf th maxLv viewer planes c1 r0.2 = r1 at *
      generalize ProcessNode sqrtf th maxLv viewer planes c2 r1.2 = r2 at *
      generalize ProcessNode sqrtf th maxLv viewer planes c3 r2.2 = r3 at *
      have hvp : visiblePaths (NodePtr.node
          { n with m_isVisible := false
                   m_detailLevel := DetermineLOD sqrtf th maxLv n viewer } r0.1 r1.1 r2.1 r3.1)
          = (visiblePaths r0.1).map (List.cons 0) ++ (visiblePaths r1.1).map (List.cons 1) ++
            (visiblePaths r2.1).map (List.cons 2) ++ (visiblePaths r3.1).map (List.cons 3) := by
        simp [visiblePaths, hleaf]
      simp only [hvp, List.length_append, List.length_map]
      refine ⟨?_, fun _ => by omega⟩
      rw [C3, C2, C1, C0]
      push_cast
      ring
    · rw [ProcessNode_rendered sqrtf th maxLv viewer planes n c0 c1 c2 c3 c hI
        (by simpa using hT)]
      have hvp : visiblePaths (NodePtr.node
          { n with m_isVisible := true
                   m_detailLevel := DetermineLOD sqrtf th maxLv n viewer
                   m_bufferIndex := c.m_nextBufferIndex } c0 c1 c2 c3) = [[]] := by
        simp [visiblePaths]
      simp only [hvp]
      simp

/-- Claim C4: if the six planes accept the bounding box of every node of an
initialised tree, then for every viewer position, after `Update` the value
`GetVisibleNodeCount()` is at least `1` and equals the number of nodes that
`GetVisibleNodes` returns. -/
theorem Update_all_accepted_count (sqrtf : ℚ → ℚ) (q : QuadTree) (hq : Initialised sqrtf q)
    (viewer : XMFLOAT3) (planes : PlaneSet)
    (hall : q.m_rootPatch.all (fun n => n.m_bounds.Intersects planes) = true) :
    1 ≤ (QuadTree.Update sqrtf q viewer planes).GetVisibleNodeCount ∧
      (QuadTree.Update sqrtf q viewer planes).GetVisibleNodeCount
        = ((QuadTree.Update sqrtf q viewer planes).GetVisibleNodes.length : Int) := by
  obtain ⟨hne, hwf⟩ := Initialised_wellFormed sqrtf q hq
  obtain ⟨C, L⟩ := ProcessNode_all_accepted sqrtf q.m_lodThresholds q.m_maximumDetailLevels
    viewer planes q.m_rootPatch ⟨0, 0⟩ hwf hall
  have hL := L hne
  rw [GetVisibleNodes_eq]
  have hroot : (QuadTree.Update sqrtf q viewer planes).m_rootPatch
      = (ProcessNode sqrtf q.m_lodThresholds q.m_maximumDetailLevels viewer planes
        q.m_rootPatch ⟨0, 0⟩).1 := rfl
  have hcnt : (QuadTree.Update sqrtf q viewer planes).GetVisibleNodeCount
      = (ProcessNode sqrtf q.m_lodThresholds q.m_maximumDetailLevels viewer planes
        q.m_rootPatch ⟨0, 0⟩).2.m_visiblePatchCount := rfl
  rw [hroot, hcnt, C]
  constructor
  · simp only [zero_add]
    exact_mod_cast hL
  · simp

/-- Witness of C4: the tree of `Initialize(8, 4, 2)` after a first `Update`, then
updated with a view volume that holds every box of the tree. -/
theorem Update_all_accepted_count_witness :
    1 ≤ (QuadTree.Update sqrtQ
          (QuadTree.Update sqrtQ (QuadTree.new.Initialize 8 4 2) ⟨0, 51, 0⟩ terrainOutOfView)
          ⟨3, 50, 4⟩ terrainInView).GetVisibleNodeCount ∧
      (QuadTree.Update sqrtQ
          (QuadTree.Update sqrtQ (QuadTree.new.Initialize 8 4 2) ⟨0, 51, 0⟩ terrainOutOfView)
          ⟨3, 50, 4⟩ terrainInView).GetVisibleNodeCount
        = ((QuadTree.Update sqrtQ
          (QuadTree.Update sqrtQ (QuadTree.new.Initialize 8 4 2) ⟨0, 51, 0⟩ terrainOutOfView)
          ⟨3, 50, 4⟩ terrainInView).GetVisibleNodes.length : Int) :=
  Update_all_accepted_count sqrtQ
    (QuadTree.Update sqrtQ (QuadTree.new.Initialize 8 4 2) ⟨0, 51, 0⟩ terrainOutOfView)
    (Initialised.update _ _ (Initialised.init _ _ _ _)) ⟨3, 50, 4⟩ terrainInView
    (by decide!)

/-! Flags left by earlier frames -/

/-- Claim C1, evaluated on the code: `Initialize(8, 4, 2)`, a first `Update` whose
view volume holds the whole terrain (the root is subdivided and its four children
are rendered), then an `Update` whose view volume lies above the terrain.  The
second `Update` rejects the root and reports no visible node, yet
`GetVisibleNodes` returns the four children of the rejected root. -/
theorem GetVisibleNodes_returns_children_of_rejected_root :
    ((QuadTree.Update sqrtQ
        (QuadTree.Update sqrtQ (QuadTree.new.Initialize 8 4 2) ⟨0, 51, 0⟩ terrainInView)
        ⟨0, 51, 0⟩ terrainOutOfView).m_rootPatch.nodeAt []).map
        (fun n => (n.m_bounds.Intersects terrainOutOfView, n.m_isVisible)) = some (false, false) ∧
      (QuadTree.Update sqrtQ
        (QuadTree.Update sqrtQ (QuadTree.new.Initialize 8 4 2) ⟨0, 51, 0⟩ terrainInView)
        ⟨0, 51, 0⟩ terrainOutOfView).GetVisibleNodes = [[0], [1], [2], [3]] ∧
      (QuadTree.Update sqrtQ
        (QuadTree.Update sqrtQ (QuadTree.new.Initialize 8 4 2) ⟨0, 51, 0⟩ terrainInView)
        ⟨0, 51, 0⟩ terrainOutOfView).GetVisibleNodeCount = 0 := by
  refine ⟨?_, ?_, ?_⟩ <;> decide!

/-- Claim C2, evaluated on the code: the same `Update` (viewer `(0, 51, 0)`, view
volume above the terrain) returns no node on the freshly initialised tree of
`Initialize(8, 4, 2)` and four nodes on the same tree after an earlier `Update`
that rendered the four children of the root. -/
theorem GetVisibleNodes_depends_on_earlier_Update :
    (QuadTree.Update sqrtQ (QuadTree.new.Initialize 8 4 2) ⟨0, 51, 0⟩
        terrainOutOfView).GetVisibleNodes = [] ∧
      (QuadTree.Update sqrtQ
        (QuadTree.Update sqrtQ (QuadTree.new.Initialize 8 4 2) ⟨0, 51, 0⟩ terrainInView)
        ⟨0, 51, 0⟩ terrainOutOfView).GetVisibleNodes = [[0], [1], [2], [3]] ∧
      (QuadTree.Update sqrtQ (QuadTree.new.Initialize 8 4 2) ⟨0, 51, 0⟩
        terrainInView).GetVisibleNodes = [[0], [1], [2], [3]] := by
  refine ⟨?_, ?_, ?_⟩ <;> decide!

/-! The default threshold table -/

theorem shiftLeftOne_small (k : Nat) (hk : k ≤ 30) : shiftLeftOne (k : Int) = 2 ^ k := by
  have h1 : (2 : Nat) ^ k < 2 ^ 31 := Nat.pow_lt_pow_right (by norm_num) (by omega)
  have h2 : (2 : Nat) ^ k % 2 ^ 32 = 2 ^ k :=
    Nat.mod_eq_of_lt (lt_trans h1 (by norm_num))
  simp only [shiftLeftOne, Int.toNat_ofNat, h2, h1, if_true]
  push_cast
  rfl

theorem defaultLodThresholds_length (mp : ℚ) (md : Int) :
    (defaultLodThresholds mp md).length = md.toNat := by
  simp [defaultLodThresholds]

theorem defaultLodThresholds_getElem? (mp : ℚ) (md : Int) (hmd : md ≤ 31) (i : Nat)
    (hi : i < md.toNat) :
    (defaultLodThresholds mp md)[i]? = some (mp * 2 ^ (md.toNat - i - 1) * 2) := by
  have hshift : md - (i : Int) - 1 = ((md.toNat - i - 1 : Nat) : Int) := by omega
  have hk : md.toNat - i - 1 ≤ 30 := by omega
  simp only [defaultLodThresholds, List.getElem?_map, List.getElem?_range hi, Option.map_some',
    hshift, shiftLeftOne_small _ hk]
  push_cast
  rfl

/-- Claim C11, evaluated on the code: the table that `Initialize(512, 64, 5)`
derives on a new `QuadTree` is `[2048, 1024, 512, 256, 128]`, which descends at
every index; with it `DetermineLOD` gives a node at distance `300` the level `0`
and a node at distance `2100` the level `4`, and never a level in between. -/
theorem Initialize_default_table_descends :
    (QuadTree.new.Initialize 512 64 5).m_lodThresholds = [2048, 1024, 512, 256, 128] ∧
      ¬ List.Pairwise (fun a b : ℚ => a ≤ b) (QuadTree.new.Initialize 512 64 5).m_lodThresholds ∧
      List.Pairwise (fun a b : ℚ => a > b) (QuadTree.new.Initialize 512 64 5).m_lodThresholds ∧
      DetermineLOD.scan 300 5 (QuadTree.new.Initialize 512 64 5).m_lodThresholds 0 = 0 ∧
      DetermineLOD.scan 2100 5 (QuadTree.new.Initialize 512 64 5).m_lodThresholds 0 = 4 := by
  refine ⟨?_, ?_, ?_, ?_, ?_⟩ <;> decide!

/-- Counterexample to C12 as stated: with `maxDetailLevels = 32` the shift of entry
`0` is `1 << 31`, which is `-2 ^ 31` as an `int`, so `Initialize(512, 64, 32)`
stores `64 * (-2 ^ 31) * 2 = -2 ^ 38` in entry `0` and not `64 * 2 ^ 31 * 2`. -/
theorem Initialize_default_table_overflows_at_32 :
    (QuadTree.new.Initialize 512 64 32).m_lodThresholds.length = 32 ∧
      (QuadTree.new.Initialize 512 64 32).m_lodThresholds[0]? = some (-(2 : ℚ) ^ 38) ∧
      (QuadTree.new.Initialize 512 64 32).m_lodThresholds[0]?
        ≠ some ((64 : ℚ) * 2 ^ (32 - 0 - 1) * 2) := by
  refine ⟨?_, ?_, ?_⟩ <;> decide!

/-- Claim C12, amended: when the threshold table is empty at the time of the call,
`Initialize(worldExtent, minPatchSize, maxDetailLevels)` with
`1 ≤ maxDetailLevels ≤ 31` sets it to exactly `maxDetailLevels` entries, entry `i`
being `minPatchSize * 2 ^ (maxDetailLevels - i - 1) * 2`. -/
theorem Initialize_default_table_entries (q : QuadTree) (we mp : ℚ) (md : Int)
    (hempty : q.m_lodThresholds = []) (hmd1 : 1 ≤ md) (hmd2 : md ≤ 31) :
    ((q.Initialize we mp md).m_lodThresholds.length : Int) = md ∧
      ∀ i : Nat, (i : Int) < md →
        (q.Initialize we mp md).m_lodThresholds[i]? = some (mp * 2 ^ (md.toNat - i - 1) * 2) := by
  have htab : (q.Initialize we mp md).m_lodThresholds = defaultLodThresholds mp md := by
    simp [QuadTree.Initialize, hempty]
  rw [htab, defaultLodThresholds_length]
  refine ⟨by omega, fun i hi => ?_⟩
  exact defaultLodThresholds_getElem? mp md hmd2 i (by omega)

/-- Witness of the amended C12: `Initialize(512, 64, 5)` on a new `QuadTree`. -/
theorem Initialize_default_table_entries_witness :
    ((QuadTree.new.Initialize 512 64 5).m_lodThresholds.length : Int) = 5 ∧
      ∀ i : Nat, (i : Int) < 5 →
        (QuadTree.new.Initialize 512 64 5).m_lodThresholds[i]?
          = some ((64 : ℚ) * 2 ^ ((5 : Int).toNat - i - 1) * 2) :=
  Initialize_default_table_entries QuadTree.new 512 64 5 rfl (by norm_num) (by norm_num)

/-- Claim C13: if the threshold table is non-empty when `Initialize` is called,
`Initialize` leaves it unchanged, whatever patch size and depth it is given. -/
theorem Initialize_keeps_nonempty_table (q : QuadTree) (we mp : ℚ) (md : Int)
    (hne : q.m_lodThresholds ≠ []) :
    (q.Initialize we mp md).m_lodThresholds = q.m_lodThresholds := by
  have h : q.m_lodThresholds.isEmpty = false := by
    cases hq : q.m_lodThresholds with
    | nil => exact absurd hq hne
    | cons a l => rfl
  simp [QuadTree.Initialize, h]

/-- Witness of C13: the table the application installs, then `Initialize(512, 64, 5)`. -/
theorem Initialize_keeps_nonempty_table_witness :
    ((QuadTree.new.SetLODDistances [100, 200, 400, 600, 1000]).Initialize 512 64 5).m_lodThresholds
      = (QuadTree.new.SetLODDistances [100, 200, 400, 600, 1000]).m_lodThresholds :=
  Initialize_keeps_nonempty_table (QuadTree.new.SetLODDistances [100, 200, 400, 600, 1000])
    512 64 5 (by decide!)

/-! The height range of the root -/

theorem ProcessNode_placement (sqrtf : ℚ → ℚ) (th : List ℚ) (maxLv : Int) (viewer : XMFLOAT3)
    (planes : PlaneSet) (t : NodePtr) :
    ∀ (c : FrameCounters) (path : NodePath),
      ((ProcessNode sqrtf th maxLv viewer planes t c).1.nodeAt path).map TerrainNode.placement
        = (t.nodeAt path).map TerrainNode.placement := by
  induction t with
  | null => intro c path; rfl
  | node n c0 c1 c2 c3 ih0 ih1 ih2 ih3 =>
    intro c path
    by_cases hI : n.m_bounds.Intersects planes = true
    · by_cases hT : (!n.m_isLeaf && ShouldFragment sqrtf n viewer) = true
      · rw [ProcessNode_split sqrtf th maxLv viewer planes n c0 c1 c2 c3 c hI hT]
        cases path with
        | nil => rfl
        | cons i rest =>
          rw [nodeAt_cons, nodeAt_cons]
          fin_cases i
          · exact ih0 _ rest
          · exact ih1 _ rest
          · exact ih2 _ rest
          · exact ih3 _ rest
      · rw [ProcessNode_rendered sqrtf th maxLv viewer planes n c0 c1 c2 c3 c hI
          (by simpa using hT)]
        cases path with
        | nil => rfl
        | cons i rest => rw [nodeAt_cons, nodeAt_cons]
    · rw [ProcessNode_culled sqrtf th maxLv viewer planes n c0 c1 c2 c3 c (by simpa using hI)]
      cases path with
      | nil => rfl
      | cons i rest => rw [nodeAt_cons, nodeAt_cons]

/-- Counterexample to C15 as stated: `ConstructTree` records the depth of a node in
`m_detailLevel`, and `Update` overwrites that member.  In the tree of
`Initialize(8, 4, 2)` the child `[0]` is built with the depth `1`; after one
`Update` (viewer `(0, 51, 0)`, the whole terrain in view) it reports `0`. -/
theorem Update_overwrites_recorded_depth :
    ((QuadTree.new.Initialize 8 4 2).m_rootPatch.nodeAt [0]).map (fun n => n.m_detailLevel)
        = some 1 ∧
      ((QuadTree.Update sqrtQ (QuadTree.new.Initialize 8 4 2) ⟨0, 51, 0⟩
          terrainInView).m_rootPatch.nodeAt [0]).map (fun n => n.m_detailLevel) = some 0 := by
  refine ⟨?_, ?_⟩ <;> decide!

/-- Claim C15, amended: no sequence of `Update` calls changes the place of a node
in the tree (so its distance from the root), its centre, its patch size, its
maximum detail, its box, its elevation range or its leaf flag; a path designates a
node after the calls exactly when it did before. -/
theorem Updates_keep_placement (sqrtf : ℚ → ℚ) (q : QuadTree)
    (frames : List (XMFLOAT3 × PlaneSet)) (path : NodePath) :
    ((q.Updates sqrtf frames).m_rootPatch.nodeAt path).map TerrainNode.placement
      = (q.m_rootPatch.nodeAt path).map TerrainNode.placement := by
  unfold QuadTree.Updates
  induction frames generalizing q with
  | nil => rfl
  | cons frame rest ih =>
    rw [List.foldl_cons, ih]
    exact ProcessNode_placement sqrtf _ _ _ _ _ _ path

/-! Rendered or subdivided -/

theorem not_flagged_below_clean (m : TerrainNode) (c0 c1 c2 c3 : NodePtr)
    (h0 : c0.all (fun n => !n.m_isVisible) = true) (h1 : c1.all (fun n => !n.m_isVisible) = true)
    (h2 : c2.all (fun n => !n.m_isVisible) = true) (h3 : c3.all (fun n => !n.m_isVisible) = true)
    (i : Fin 4) (path : NodePath) : ¬ (NodePtr.node m c0 c1 c2 c3).FlaggedAt (i :: path) := by
  rintro ⟨k, hk, hv⟩
  rw [nodeAt_cons] at hk
  fin_cases i
  · exact clean_not_flagged c0 h0 path ⟨k, hk, hv⟩
  · exact clean_not_flagged c1 h1 path ⟨k, hk, hv⟩
  · exact clean_not_flagged c2 h2 path ⟨k, hk, hv⟩
  · exact clean_not_flagged c3 h3 path ⟨k, hk, hv⟩

theorem flaggedAt_cons (n : TerrainNode) (c0 c1 c2 c3 : NodePtr) (i : Fin 4) (rest : NodePath) :
    (NodePtr.node n c0 c1 c2 c3).FlaggedAt (i :: rest) ↔
      (match i with
        | 0 => c0
        | 1 => c1
        | 2 => c2
        | 3 => c3).FlaggedAt rest := by
  unfold NodePtr.FlaggedAt
  rw [nodeAt_cons]

/-- After `ProcessNode` on a subtree without flags, a node that was reached and
passed the frustum test is flagged exactly when it was not subdivided, and then
nothing below it is flagged. -/
theorem ProcessNode_passed (sqrtf : ℚ → ℚ) (th : List ℚ) (maxLv : Int) (viewer : XMFLOAT3)
    (planes : PlaneSet) (t : NodePtr) :
    ∀ (c : FrameCounters) (path : NodePath), t.all (fun n => !n.m_isVisible) = true →
      passedTest sqrtf viewer planes t path = true →
      ∃ n, t.nodeAt path = some n ∧
        ((ProcessNode sqrtf th maxLv viewer planes t c).1.FlaggedAt path ↔
          (!n.m_isLeaf && ShouldFragment sqrtf n viewer) = false) ∧
        ((ProcessNode sqrtf th maxLv viewer planes t c).1.FlaggedAt path →
          ∀ rest : NodePath, rest ≠ [] →
            ¬ (ProcessNode sqrtf th maxLv viewer planes t c).1.FlaggedAt (path ++ rest)) := by
  induction t with
  | null =>
    intro c path _ hp
    simp [passedTest] at hp
  | node n c0 c1 c2 c3 ih0 ih1 ih2 ih3 =>
    intro c path hclean hp
    rw [all_node] at hclean
    obtain ⟨-, h0, h1, h2, h3⟩ := hclean
    cases path with
    | nil =>
      have hI : n.m_bounds.Intersects planes = true := by simpa [passedTest] using hp
      refine ⟨n, rfl, ?_⟩
      by_cases hT : (!n.m_isLeaf && ShouldFragment sqrtf n viewer) = true
      · rw [ProcessNode_split sqrtf th maxLv viewer planes n c0 c1 c2 c3 c hI hT]
        have hnot : ¬ (NodePtr.node
            { n with m_isVisible := false
                     m_detailLevel := DetermineLOD sqrtf th maxLv n viewer }
            (ProcessNode sqrtf th maxLv viewer planes c0 c).1
            (ProcessNode sqrtf th maxLv viewer planes c1
              (ProcessNode sqrtf th maxLv viewer planes c0 c).2).1
            (ProcessNode sqrtf th maxLv viewer planes c2
              (ProcessNode sqrtf th maxLv viewer planes c1
                (ProcessNode sqrtf th maxLv viewer planes c0 c).2).2).1
            (ProcessNode sqrtf th maxLv viewer planes c3
              (ProcessNode sqrtf th maxLv viewer planes c2
                (ProcessNode sqrtf th maxLv viewer planes c1
                  (ProcessNode sqrtf th maxLv viewer planes c0 c).2).2).2).1).FlaggedAt [] := by
          rintro ⟨m, hm, hv⟩
          rw [nodeAt_nil] at hm
          cases hm
          cases hv
        refine ⟨⟨fun h => absurd h hnot, fun h => ?_⟩, fun h => absurd h hnot⟩
        rw [hT] at h
        cases h
      · have hT' : (!n.m_isLeaf && ShouldFragment sqrtf n viewer) = false := by simpa using hT
        rw [ProcessNode_rendered sqrtf th maxLv viewer planes n c0 c1 c2 c3 c hI hT']
        refine ⟨⟨fun _ => hT', fun _ => ⟨_, nodeAt_nil _ _ _ _ _, rfl⟩⟩, fun _ rest hrest => ?_⟩
        cases rest with
        | nil => exact absurd rfl hrest
        | cons i rest' =>
          simp only [List.nil_append]
          exact not_flagged_below_clean _ c0 c1 c2 c3 h0 h1 h2 h3 i rest'
    | cons i rest =>
      simp only [passedTest, Bool.and_eq_true] at hp
      obtain ⟨⟨hI, hT⟩, hrest⟩ := hp
      have hT' : (!n.m_isLeaf && ShouldFragment sqrtf n viewer) = true := by
        simpa using hT
      rw [ProcessNode_split sqrtf th maxLv viewer planes n c0 c1 c2 c3 c hI hT']
      simp only [nodeAt_cons, List.cons_append, flaggedAt_cons]
      fin_cases i
      · exact ih0 _ rest h0 hrest
      · exact ih1 _ rest h1 hrest
      · exact ih2 _ rest h2 hrest
      · exact ih3 _ rest h3 hrest

/-- Counterexample to C16 as stated: in the tree of `Initialize(8, 4, 2)`, with the
viewer at `(0, 51, 0)` and a view volume beside the terrain, the root passes the
frustum test and is subdivided, and each of its four children is culled: the root
is not flagged as rendered and no node below it is. -/
theorem Update_subdivided_root_without_rendered_descendant :
    passedTest sqrtQ ⟨0, 51, 0⟩ besideTerrainView (QuadTree.new.Initialize 8 4 2).m_rootPatch []
        = true ∧
      (QuadTree.Update sqrtQ (QuadTree.new.Initialize 8 4 2) ⟨0, 51, 0⟩
        besideTerrainView).m_rootPatch.all (fun n => !n.m_isVisible) = true ∧
      (QuadTree.Update sqrtQ (QuadTree.new.Initialize 8 4 2) ⟨0, 51, 0⟩
        besideTerrainView).GetVisibleNodes = [] ∧
      (QuadTree.new.Initialize 8 4 2).m_rootPatch.size = 5 := by
  refine ⟨?_, ?_, ?_, ?_⟩ <;> decide!

/-- Claim C16, amended: after `Update` on a freshly initialised tree, a node that
was reached and passed the frustum test is flagged as rendered exactly when
`ShouldFragment` is false for it (it is a leaf or the viewer is not within 1.5
times its size), and then none of its proper descendants is flagged; so at most
one of "the node is rendered" and "a proper descendant is rendered" holds. -/
theorem Update_rendered_or_subdivided (sqrtf : ℚ → ℚ) (q0 : QuadTree) (we mp : ℚ) (md : Int)
    (viewer : XMFLOAT3) (planes : PlaneSet) (path : NodePath)
    (hpass : passedTest sqrtf viewer planes (q0.Initialize we mp md).m_rootPatch path = true) :
    ∃ n, (q0.Initialize we mp md).m_rootPatch.nodeAt path = some n ∧
      ((∃ m, (QuadTree.Update sqrtf (q0.Initialize we mp md) viewer planes).m_rootPatch.nodeAt path
            = some m ∧ m.m_isVisible = true) ↔
          ShouldFragment sqrtf n viewer = false) ∧
      ((∃ m, (QuadTree.Update sqrtf (q0.Initialize we mp md) viewer planes).m_rootPatch.nodeAt path
            = some m ∧ m.m_isVisible = true) →
        ∀ rest : NodePath, rest ≠ [] →
          ¬ ∃ m, (QuadTree.Update sqrtf (q0.Initialize we mp md) viewer
              planes).m_rootPatch.nodeAt (path ++ rest) = some m ∧ m.m_isVisible = true) := by
  have hclean := ConstructTree_clean mp md 0 0 we 0 0
  obtain ⟨n, hn, hiff, hbelow⟩ := ProcessNode_passed sqrtf
    (q0.Initialize we mp md).m_lodThresholds (q0.Initialize we mp md).m_maximumDetailLevels
    viewer planes (ConstructTree mp md 0 0 we 0 0).1 ⟨0, 0⟩ path hclean hpass
  refine ⟨n, hn, ?_, hbelow⟩
  have e : (!n.m_isLeaf && ShouldFragment sqrtf n viewer) = false ↔
      ShouldFragment sqrtf n viewer = false := by
    unfold ShouldFragment
    cases n.m_isLeaf <;> simp
  exact hiff.trans e

/-- Witness of the amended C16: the root of the tree of `Initialize(8, 4, 2)` with
the whole terrain in view. -/
theorem Update_rendered_or_subdivided_witness :
    ∃ n, (QuadTree.new.Initialize 8 4 2).m_rootPatch.nodeAt [] = some n ∧
      ((∃ m, (QuadTree.Update sqrtQ (QuadTree.new.Initialize 8 4 2) ⟨0, 51, 0⟩
            terrainInView).m_rootPatch.nodeAt [] = some m ∧ m.m_isVisible = true) ↔
          ShouldFragment sqrtQ n ⟨0, 51, 0⟩ = false) ∧
      ((∃ m, (QuadTree.Update sqrtQ (QuadTree.new.Initialize 8 4 2) ⟨0, 51, 0⟩
            terrainInView).m_rootPatch.nodeAt [] = some m ∧ m.m_isVisible = true) →
        ∀ rest : NodePath, rest ≠ [] →
          ¬ ∃ m, (QuadTree.Update sqrtQ (QuadTree.new.Initialize 8 4 2) ⟨0, 51, 0⟩
              terrainInView).m_rootPatch.nodeAt ([] ++ rest) = some m ∧ m.m_isVisible = true) :=
  Update_rendered_or_subdivided sqrtQ QuadTree.new 8 4 2 ⟨0, 51, 0⟩ terrainInView []
    (by decide!)

/-! The heightfield -/

/-! The heightfield -/

theorem toInt32_small (n : Nat) (h : n < 2 ^ 31) : toInt32 n = (n : Int) := by
  have h1 : n % 2 ^ 32 = n := Nat.mod_eq_of_lt (lt_trans h (by norm_num))
  simp only [toInt32, h1, h, if_true]

theorem floorToInt_of_range (x : ℚ) (h1 : -2 ^ 31 ≤ ⌊x⌋) (h2 : ⌊x⌋ < 2 ^ 31) :
    floorToInt x = ⌊x⌋ := by
  simp only [floorToInt, h1, h2, and_self, if_true]

theorem intSucc_of_lt (n : Int) (h : n + 1 < 2 ^ 31) : intSucc n = some (n + 1) := by
  simp only [intSucc, h, if_true]

theorem roundToFloat_one_plus : roundToFloat (1 + 1 / 2 ^ 25) = 1 := by decide!

theorem roundToFloat_neg_half : roundToFloat (-1 / 2) = -1 / 2 := by decide!

/-- A `float` that lies in `[2 ^ 30, 2 ^ 31)` is a multiple of `128`. -/
theorem roundToFloat_multiple (x : ℚ) (h1 : (2 : ℚ) ^ 30 ≤ roundToFloat x)
    (h2 : roundToFloat x < (2 : ℚ) ^ 31) :
    ∃ M : Int, roundToFloat x = (M : ℚ) * 128 := by
  have hidem := roundToFloat_idem x
  have hpos : (0 : ℚ) ≤ roundToFloat x := le_trans (by positivity) h1
  have he : floatExponent (roundToFloat x) = 30 :=
    floatExponent_unique _ 30 (by exact_mod_cast h1) (by exact_mod_cast h2)
  have htp : twoPow (max (30 - 23) (-149)) = 128 := by decide!
  have key : ∀ y : ℚ, 0 ≤ y → floatExponent y = 30 →
      roundToFloat y = (roundHalfEven (y / 128) : ℚ) * 128 := by
    intro y hy hey
    unfold roundToFloat
    rw [if_pos hy]
    unfold roundMagnitude
    simp only [hey, htp]
  exact ⟨roundHalfEven (roundToFloat x / 128), hidem.symm.trans (key _ hpos he)⟩

/-- The floor of a `float` below `2 ^ 31` is below `2 ^ 31 - 1`: the increment
`x0 + 1` of `GetHeight` does not overflow. -/
theorem roundToFloat_floor_succ (x : ℚ) (h : ⌊roundToFloat x⌋ < 2 ^ 31) :
    ⌊roundToFloat x⌋ + 1 < 2 ^ 31 := by
  by_contra hcon
  have hfl : ⌊roundToFloat x⌋ = 2 ^ 31 - 1 := by omega
  have hy1 : ((2 ^ 31 - 1 : Int) : ℚ) ≤ roundToFloat x := by
    rw [← hfl]; exact Int.floor_le _
  have hy2 : roundToFloat x < ((2 ^ 31 - 1 : Int) : ℚ) + 1 := by
    rw [← hfl]; exact Int.lt_floor_add_one _
  push_cast at hy1 hy2
  obtain ⟨M, hM⟩ := roundToFloat_multiple x (by linarith) (by linarith)
  rw [hM] at hy1 hy2
  have i1 : (2 ^ 31 - 1 : Int) ≤ M * 128 := by
    have : ((2 ^ 31 - 1 : Int) : ℚ) ≤ ((M * 128 : Int) : ℚ) := by push_cast; linarith
    exact_mod_cast this
  have i2 : M * 128 < (2 ^ 31 : Int) := by
    have : ((M * 128 : Int) : ℚ) < ((2 ^ 31 : Int) : ℚ) := by push_cast; linarith
    exact_mod_cast this
  omega

theorem intSucc_floorToInt (x : ℚ) :
    intSucc (floorToInt (roundToFloat x)) = some (floorToInt (roundToFloat x) + 1) := by
  unfold floorToInt
  split_ifs with h
  · exact intSucc_of_lt _ (roundToFloat_floor_succ x h.2)
  · exact intSucc_of_lt _ (by norm_num)

theorem intSucc_x0 (t : Terrain) (X : ℚ) :
    intSucc (floorToInt (t.gridU X)) = some (Terrain.GetHeight.x0 t X + 1) :=
  intSucc_floorToInt _

theorem intSucc_z0 (t : Terrain) (Z : ℚ) :
    intSucc (floorToInt (t.gridV Z)) = some (Terrain.GetHeight.z0 t Z + 1) :=
  intSucc_floorToInt _

theorem gridU_idem (t : Terrain) (X : ℚ) : roundToFloat (t.gridU X) = t.gridU X :=
  roundToFloat_idem _

theorem gridV_idem (t : Terrain) (Z : ℚ) : roundToFloat (t.gridV Z) = t.gridV Z :=
  roundToFloat_idem _

/-- The expression `a + (b - a) * t` in `float` arithmetic is `a` rounded when
`b = a` or `t = 0`. -/
theorem floatLerp_flat (a b f : ℚ) (h : b = a ∨ f = 0) : floatLerp a b f = roundToFloat a := by
  unfold floatLerp
  rcases h with h | h
  · subst h; simp [roundToFloat_zero]
  · subst h; simp [roundToFloat_zero]

theorem floatLerp_idem (a b f : ℚ) : roundToFloat (floatLerp a b f) = floatLerp a b f :=
  roundToFloat_idem _

/-- The `float` blend of two values of `[0, 1]`, the first of them a `float`, by a
fraction of `[0, 1]` lies in `[0, 1]`. -/
theorem floatLerp_mem_unit (a b f : ℚ) (ha : 0 ≤ a ∧ a ≤ 1) (hb : 0 ≤ b ∧ b ≤ 1)
    (hf : 0 ≤ f ∧ f ≤ 1) (hfa : roundToFloat a = a) :
    0 ≤ floatLerp a b f ∧ floatLerp a b f ≤ 1 := by
  unfold floatLerp
  have hdid : roundToFloat (roundToFloat (b - a)) = roundToFloat (b - a) := roundToFloat_idem _
  rcases le_total a b with hab | hab
  · have hd0 : 0 ≤ roundToFloat (b - a) := roundToFloat_nonneg _ (by linarith)
    have ht0 : 0 ≤ roundToFloat (roundToFloat (b - a) * f) :=
      roundToFloat_nonneg _ (mul_nonneg hd0 hf.1)
    have ht1 : roundToFloat (roundToFloat (b - a) * f) ≤ roundToFloat (b - a) := by
      have := roundToFloat_mono (roundToFloat (b - a) * f) (roundToFloat (b - a))
        (by nlinarith [hf.1, hf.2])
      rw [hdid] at this
      exact this
    have hd1 : roundToFloat (b - a) ≤ (1 - a) + 1 / 2 ^ 25 :=
      (roundToFloat_mono (b - a) (1 - a) (by linarith)).trans
        (roundToFloat_error (1 - a) (by linarith) (by linarith)).1
    constructor
    · exact roundToFloat_nonneg _ (by linarith)
    · have := roundToFloat_mono (a + roundToFloat (roundToFloat (b - a) * f)) (1 + 1 / 2 ^ 25)
        (by linarith)
      rw [roundToFloat_one_plus] at this
      exact this
  · have hd0 : roundToFloat (b - a) ≤ 0 := roundToFloat_nonpos _ (by linarith)
    have ht0 : roundToFloat (roundToFloat (b - a) * f) ≤ 0 :=
      roundToFloat_nonpos _ (mul_nonpos_of_nonpos_of_nonneg hd0 hf.1)
    have ht1 : roundToFloat (b - a) ≤ roundToFloat (roundToFloat (b - a) * f) := by
      have := roundToFloat_mono (roundToFloat (b - a)) (roundToFloat (b - a) * f)
        (by nlinarith [hf.1, hf.2])
      rw [hdid] at this
      exact this
    have hd1 : -a ≤ roundToFloat (b - a) := by
      have := roundToFloat_mono (-a) (b - a) (by linarith)
      rw [roundToFloat_neg, hfa] at this
      exact this
    constructor
    · exact roundToFloat_nonneg _ (by linarith)
    · have := roundToFloat_mono (a + roundToFloat (roundToFloat (b - a) * f)) 1 (by linarith)
      rw [roundToFloat_one] at this
      exact this

/-- Under the heightfield invariant every sample index that `FetchHeightSample`
computes is inside a non-empty heightfield. -/
theorem FetchHeightSample_defined (t : Terrain) (hwf : t.WellFormed) (hne : t.m_heightfield ≠ [])
    (x z : Int) : ∃ s, t.FetchHeightSample x z = some s ∧ s ∈ t.m_heightfield := by
  obtain ⟨hlen, hw, hh⟩ := hwf
  have hpos : 0 < t.m_heightfield.length := List.length_pos.mpr hne
  rw [hlen] at hpos
  have hW : 0 < t.m_heightfieldWidth := Nat.pos_of_mul_pos_right hpos
  have hH : 0 < t.m_heightfieldHeight := Nat.pos_of_mul_pos_left hpos
  have hidx : (max 0 (min z ((t.m_heightfieldHeight : Int) - 1))).toNat * t.m_heightfieldWidth
      + (max 0 (min x ((t.m_heightfieldWidth : Int) - 1))).toNat < t.m_heightfield.length := by
    have hx : (max 0 (min x ((t.m_heightfieldWidth : Int) - 1))).toNat + 1 ≤ t.m_heightfieldWidth := by
      omega
    have hz : (max 0 (min z ((t.m_heightfieldHeight : Int) - 1))).toNat + 1
        ≤ t.m_heightfieldHeight := by
      omega
    rw [hlen]
    calc (max 0 (min z ((t.m_heightfieldHeight : Int) - 1))).toNat * t.m_heightfieldWidth
          + (max 0 (min x ((t.m_heightfieldWidth : Int) - 1))).toNat
        < (max 0 (min z ((t.m_heightfieldHeight : Int) - 1))).toNat * t.m_heightfieldWidth
          + t.m_heightfieldWidth := by omega
      _ = ((max 0 (min z ((t.m_heightfieldHeight : Int) - 1))).toNat + 1)
          * t.m_heightfieldWidth := by ring
      _ ≤ t.m_heightfieldHeight * t.m_heightfieldWidth := Nat.mul_le_mul_right _ hz
      _ = t.m_heightfieldWidth * t.m_heightfieldHeight := Nat.mul_comm _ _
  refine ⟨t.m_heightfield.get ⟨_, hidx⟩, ?_, List.get_mem _ _ _⟩
  simp only [Terrain.FetchHeightSample, toInt32_small _ hw, toInt32_small _ hh]
  exact List.getElem?_eq_getElem hidx

theorem heightfield_isEmpty (t : Terrain) (hne : t.m_heightfield ≠ []) :
    t.m_heightfield.isEmpty = false := by
  cases hq : t.m_heightfield with
  | nil => exact absurd hq hne
  | cons a l => rfl

/-- The value of `GetHeight` where the grid coordinates of the query are finite. -/
theorem GetHeight_eq (t : Terrain) (hne : t.m_heightfield ≠ []) (he : t.m_worldExtent ≠ 0)
    (X Z : ℚ) (hu : |t.gridU X| < 2 ^ 128) (hv : |t.gridV Z| < 2 ^ 128)
    (h00 h10 h01 h11 : ℚ)
    (e00 : t.FetchHeightSample (Terrain.GetHeight.x0 t X) (Terrain.GetHeight.z0 t Z) = some h00)
    (e10 : t.FetchHeightSample (Terrain.GetHeight.x0 t X + 1) (Terrain.GetHeight.z0 t Z)
      = some h10)
    (e01 : t.FetchHeightSample (Terrain.GetHeight.x0 t X) (Terrain.GetHeight.z0 t Z + 1)
      = some h01)
    (e11 : t.FetchHeightSample (Terrain.GetHeight.x0 t X + 1) (Terrain.GetHeight.z0 t Z + 1)
      = some h11) :
    t.GetHeight X Z = some (roundToFloat (t.m_baseElevation
      + roundToFloat (bilinear h00 h10 h01 h11 (Terrain.GetHeight.fracX t X)
          (Terrain.GetHeight.fracZ t Z)
        * roundToFloat (t.m_peakElevation - t.m_baseElevation)))) := by
  have hg : ¬ ((2 : ℚ) ^ 128 ≤ |t.gridU X| ∨ (2 : ℚ) ^ 128 ≤ |t.gridV Z|) := by
    push_neg
    exact ⟨hu, hv⟩
  unfold Terrain.GetHeight.x0 Terrain.GetHeight.z0 at e00 e10 e01 e11
  simp only [Terrain.GetHeight, heightfield_isEmpty t hne, Bool.false_eq_true, if_false, he, hg,
    intSucc_x0, intSucc_z0, Option.some_bind]
  unfold Terrain.GetHeight.x0 Terrain.GetHeight.z0
  simp only [e00, e10, e01, e11, Option.some_bind]
  rfl

/-- The query `GetHeight` has no rational value when a grid coordinate is beyond
the `float` range. -/
theorem GetHeight_infinite (t : Terrain) (hne : t.m_heightfield ≠ []) (X Z : ℚ)
    (h : (2 : ℚ) ^ 128 ≤ |t.gridU X| ∨ (2 : ℚ) ^ 128 ≤ |t.gridV Z|) :
    t.GetHeight X Z = none := by
  simp only [Terrain.GetHeight, heightfield_isEmpty t hne, Bool.false_eq_true, if_false, h,
    if_true]
  split_ifs <;> rfl

theorem FetchHeightSample_inside (t : Terrain) (hwf : t.WellFormed) (i j : Nat)
    (hi : i < t.m_heightfieldWidth) (hj : j < t.m_heightfieldHeight) :
    t.FetchHeightSample (i : Int) (j : Int) = t.m_heightfield[j * t.m_heightfieldWidth + i]? := by
  obtain ⟨-, hw, hh⟩ := hwf
  have hx : (max 0 (min (i : Int) ((t.m_heightfieldWidth : Int) - 1))).toNat = i := by omega
  have hz : (max 0 (min (j : Int) ((t.m_heightfieldHeight : Int) - 1))).toNat = j := by omega
  simp only [Terrain.FetchHeightSample, toInt32_small _ hw, toInt32_small _ hh, hx, hz]

theorem FetchHeightSample_right_of (t : Terrain) (hwf : t.WellFormed) (x z : Int)
    (hx : (t.m_heightfieldWidth : Int) - 1 ≤ x) :
    t.FetchHeightSample x z = t.FetchHeightSample ((t.m_heightfieldWidth : Int) - 1) z := by
  have e : min x ((t.m_heightfieldWidth : Int) - 1)
      = min ((t.m_heightfieldWidth : Int) - 1) ((t.m_heightfieldWidth : Int) - 1) := by
    rw [min_eq_right hx, min_self]
  simp only [Terrain.FetchHeightSample, toInt32_small _ hwf.2.1, e]

theorem FetchHeightSample_left_of (t : Terrain) (x z : Int) (hx : x ≤ 0) :
    t.FetchHeightSample x z = t.FetchHeightSample 0 z := by
  have e : max 0 (min x (toInt32 t.m_heightfieldWidth - 1))
      = max 0 (min 0 (toInt32 t.m_heightfieldWidth - 1)) := by
    rcases le_total (toInt32 t.m_heightfieldWidth - 1) 0 with h | h
    · rw [max_eq_left (le_trans (min_le_right _ _) h), max_eq_left (le_trans (min_le_right _ _) h)]
    · rw [min_eq_left (le_trans hx h), min_eq_left h, max_eq_left hx, max_self]
  simp only [Terrain.FetchHeightSample, e]

theorem FetchHeightSample_above (t : Terrain) (hwf : t.WellFormed) (x z : Int)
    (hz : (t.m_heightfieldHeight : Int) - 1 ≤ z) :
    t.FetchHeightSample x z = t.FetchHeightSample x ((t.m_heightfieldHeight : Int) - 1) := by
  have e : min z ((t.m_heightfieldHeight : Int) - 1)
      = min ((t.m_heightfieldHeight : Int) - 1) ((t.m_heightfieldHeight : Int) - 1) := by
    rw [min_eq_right hz, min_self]
  simp only [Terrain.FetchHeightSample, toInt32_small _ hwf.2.2, e]

theorem FetchHeightSample_below (t : Terrain) (x z : Int) (hz : z ≤ 0) :
    t.FetchHeightSample x z = t.FetchHeightSample x 0 := by
  have e : max 0 (min z (toInt32 t.m_heightfieldHeight - 1))
      = max 0 (min 0 (toInt32 t.m_heightfieldHeight - 1)) := by
    rcases le_total (toInt32 t.m_heightfieldHeight - 1) 0 with h | h
    · rw [max_eq_left (le_trans (min_le_right _ _) h), max_eq_left (le_trans (min_le_right _ _) h)]
    · rw [min_eq_left (le_trans hz h), min_eq_left h, max_eq_left hz, max_self]
  simp only [Terrain.FetchHeightSample, e]

/-- The clamped samples of a query are in `[0, 1]` and are `float`s when all samples
are. -/
theorem FetchHeightSample_unit (t : Terrain) (hwf : t.WellFormed) (hne : t.m_heightfield ≠ [])
    (hunit : ∀ s ∈ t.m_heightfield, 0 ≤ s ∧ s ≤ 1)
    (hfloat : ∀ s ∈ t.m_heightfield, roundToFloat s = s) (x z : Int) :
    ∃ s, t.FetchHeightSample x z = some s ∧ (0 ≤ s ∧ s ≤ 1) ∧ roundToFloat s = s := by
  obtain ⟨s, hs, hm⟩ := FetchHeightSample_defined t hwf hne x z
  exact ⟨s, hs, hunit s hm, hfloat s hm⟩

/-- The fraction `fracX` lies in `[0, 1]` when `x0` is a column of the grid. -/
theorem fracX_mem_unit (t : Terrain) (hW : t.m_heightfieldWidth ≤ 2 ^ 24) (X : ℚ)
    (h0 : 0 ≤ Terrain.GetHeight.x0 t X) (h1 : Terrain.GetHeight.x0 t X < t.m_heightfieldWidth) :
    0 ≤ Terrain.GetHeight.fracX t X ∧ Terrain.GetHeight.fracX t X ≤ 1 := by
  have hx : Terrain.GetHeight.x0 t X = ⌊t.gridU X⌋ := by
    unfold Terrain.GetHeight.x0 floorToInt at h0 ⊢
    split_ifs at h0 ⊢ with hr
    · rfl
    · norm_num at h0
  have hcast : roundToFloat ((Terrain.GetHeight.x0 t X : Int) : ℚ)
      = ((Terrain.GetHeight.x0 t X : Int) : ℚ) :=
    roundToFloat_intCast _ (by omega) (by omega)
  unfold Terrain.GetHeight.fracX
  rw [hcast, hx]
  have f1 : (0 : ℚ) ≤ t.gridU X - (⌊t.gridU X⌋ : ℚ) := by linarith [Int.floor_le (t.gridU X)]
  have f2 : t.gridU X - (⌊t.gridU X⌋ : ℚ) ≤ 1 := by linarith [Int.lt_floor_add_one (t.gridU X)]
  constructor
  · exact roundToFloat_nonneg _ f1
  · have := roundToFloat_mono _ _ f2
    rw [roundToFloat_one] at this
    exact this

/-- The fraction `fracZ` lies in `[0, 1]` when `z0` is a row of the grid. -/
theorem fracZ_mem_unit (t : Terrain) (hH : t.m_heightfieldHeight ≤ 2 ^ 24) (Z : ℚ)
    (h0 : 0 ≤ Terrain.GetHeight.z0 t Z) (h1 : Terrain.GetHeight.z0 t Z < t.m_heightfieldHeight) :
    0 ≤ Terrain.GetHeight.fracZ t Z ∧ Terrain.GetHeight.fracZ t Z ≤ 1 := by
  have hx : Terrain.GetHeight.z0 t Z = ⌊t.gridV Z⌋ := by
    unfold Terrain.GetHeight.z0 floorToInt at h0 ⊢
    split_ifs at h0 ⊢ with hr
    · rfl
    · norm_num at h0
  have hcast : roundToFloat ((Terrain.GetHeight.z0 t Z : Int) : ℚ)
      = ((Terrain.GetHeight.z0 t Z : Int) : ℚ) :=
    roundToFloat_intCast _ (by omega) (by omega)
  unfold Terrain.GetHeight.fracZ
  rw [hcast, hx]
  have f1 : (0 : ℚ) ≤ t.gridV Z - (⌊t.gridV Z⌋ : ℚ) := by linarith [Int.floor_le (t.gridV Z)]
  have f2 : t.gridV Z - (⌊t.gridV Z⌋ : ℚ) ≤ 1 := by linarith [Int.lt_floor_add_one (t.gridV Z)]
  constructor
  · exact roundToFloat_nonneg _ f1
  · have := roundToFloat_mono _ _ f2
    rw [roundToFloat_one] at this
    exact this

/-- The blend `hx0` of the two samples of a row lies in `[0, 1]`. -/
theorem column_blend_mem_unit (t : Terrain) (hwf : t.WellFormed) (hne : t.m_heightfield ≠ [])
    (hW : t.m_heightfieldWidth ≤ 2 ^ 24) (hunit : ∀ s ∈ t.m_heightfield, 0 ≤ s ∧ s ≤ 1)
    (hfloat : ∀ s ∈ t.m_heightfield, roundToFloat s = s) (X : ℚ) (z : Int) (a b : ℚ)
    (ea : t.FetchHeightSample (Terrain.GetHeight.x0 t X) z = some a)
    (eb : t.FetchHeightSample (Terrain.GetHeight.x0 t X + 1) z = some b) :
    0 ≤ floatLerp a b (Terrain.GetHeight.fracX t X) ∧
      floatLerp a b (Terrain.GetHeight.fracX t X) ≤ 1 := by
  obtain ⟨a', ha', ua, fa⟩ := FetchHeightSample_unit t hwf hne hunit hfloat
    (Terrain.GetHeight.x0 t X) z
  obtain ⟨b', hb', ub, -⟩ := FetchHeightSample_unit t hwf hne hunit hfloat
    (Terrain.GetHeight.x0 t X + 1) z
  rw [ea] at ha'
  rw [eb] at hb'
  have e1 : a' = a := (Option.some.inj ha').symm
  have e2 : b' = b := (Option.some.inj hb').symm
  subst e1 e2
  by_cases hin : 0 ≤ Terrain.GetHeight.x0 t X ∧
      Terrain.GetHeight.x0 t X + 1 ≤ (t.m_heightfieldWidth : Int) - 1
  · exact floatLerp_mem_unit _ _ _ ua ub
      (fracX_mem_unit t hW X hin.1 (by omega)) fa
  · have hflat : b' = a' := by
      rcases not_and_or.mp hin with h | h
      · have h1 := FetchHeightSample_left_of t (Terrain.GetHeight.x0 t X) z (by omega)
        have h2 := FetchHeightSample_left_of t (Terrain.GetHeight.x0 t X + 1) z (by omega)
        rw [ea] at h1
        rw [eb, ← h1] at h2
        exact Option.some.inj h2
      · have h1 := FetchHeightSample_right_of t hwf (Terrain.GetHeight.x0 t X) z (by omega)
        have h2 := FetchHeightSample_right_of t hwf (Terrain.GetHeight.x0 t X + 1) z (by omega)
        rw [ea] at h1
        rw [eb, ← h1] at h2
        exact Option.some.inj h2
    rw [floatLerp_flat _ _ _ (Or.inl hflat), fa]
    exact ua

/-- The bilinear blend of `GetHeight` lies in `[0, 1]` when the samples are `float`s
of `[0, 1]` and the dimensions of the grid convert to `float` exactly. -/
theorem bilinear_mem_unit (t : Terrain) (hwf : t.WellFormed) (hne : t.m_heightfield ≠ [])
    (hW : t.m_heightfieldWidth ≤ 2 ^ 24) (hH : t.m_heightfieldHeight ≤ 2 ^ 24)
    (hunit : ∀ s ∈ t.m_heightfield, 0 ≤ s ∧ s ≤ 1)
    (hfloat : ∀ s ∈ t.m_heightfield, roundToFloat s = s) (X Z : ℚ) (h00 h10 h01 h11 : ℚ)
    (e00 : t.FetchHeightSample (Terrain.GetHeight.x0 t X) (Terrain.GetHeight.z0 t Z) = some h00)
    (e10 : t.FetchHeightSample (Terrain.GetHeight.x0 t X + 1) (Terrain.GetHeight.z0 t Z)
      = some h10)
    (e01 : t.FetchHeightSample (Terrain.GetHeight.x0 t X) (Terrain.GetHeight.z0 t Z + 1)
      = some h01)
    (e11 : t.FetchHeightSample (Terrain.GetHeight.x0 t X + 1) (Terrain.GetHeight.z0 t Z + 1)
      = some h11) :
    0 ≤ bilinear h00 h10 h01 h11 (Terrain.GetHeight.fracX t X) (Terrain.GetHeight.fracZ t Z) ∧
      bilinear h00 h10 h01 h11 (Terrain.GetHeight.fracX t X) (Terrain.GetHeight.fracZ t Z)
        ≤ 1 := by
  have c0 := column_blend_mem_unit t hwf hne hW hunit hfloat X _ h00 h10 e00 e10
  have c1 := column_blend_mem_unit t hwf hne hW hunit hfloat X _ h01 h11 e01 e11
  unfold bilinear
  by_cases hin : 0 ≤ Terrain.GetHeight.z0 t Z ∧
      Terrain.GetHeight.z0 t Z + 1 ≤ (t.m_heightfieldHeight : Int) - 1
  · exact floatLerp_mem_unit _ _ _ c0 c1 (fracZ_mem_unit t hH Z hin.1 (by omega))
      (floatLerp_idem _ _ _)
  · have hrow : h01 = h00 ∧ h11 = h10 := by
      rcases not_and_or.mp hin with h | h
      · have a1 := FetchHeightSample_below t (Terrain.GetHeight.x0 t X)
          (Terrain.GetHeight.z0 t Z) (by omega)
        have a2 := FetchHeightSample_below t (Terrain.GetHeight.x0 t X)
          (Terrain.GetHeight.z0 t Z + 1) (by omega)
        have b1 := FetchHeightSample_below t (Terrain.GetHeight.x0 t X + 1)
          (Terrain.GetHeight.z0 t Z) (by omega)
        have b2 := FetchHeightSample_below t (Terrain.GetHeight.x0 t X + 1)
          (Terrain.GetHeight.z0 t Z + 1) (by omega)
        rw [e00] at a1
        rw [e01, ← a1] at a2
        rw [e10] at b1
        rw [e11, ← b1] at b2
        exact ⟨Option.some.inj a2, Option.some.inj b2⟩
      · have a1 := FetchHeightSample_above t hwf (Terrain.GetHeight.x0 t X)
          (Terrain.GetHeight.z0 t Z) (by omega)
        have a2 := FetchHeightSample_above t hwf (Terrain.GetHeight.x0 t X)
          (Terrain.GetHeight.z0 t Z + 1) (by omega)
        have b1 := FetchHeightSample_above t hwf (Terrain.GetHeight.x0 t X + 1)
          (Terrain.GetHeight.z0 t Z) (by omega)
        have b2 := FetchHeightSample_above t hwf (Terrain.GetHeight.x0 t X + 1)
          (Terrain.GetHeight.z0 t Z + 1) (by omega)
        rw [e00] at a1
        rw [e01, ← a1] at a2
        rw [e10] at b1
        rw [e11, ← b1] at b2
        exact ⟨Option.some.inj a2, Option.some.inj b2⟩
    rw [hrow.1, hrow.2, floatLerp_flat _ _ _ (Or.inl rfl), floatLerp_idem]
    rw [hrow.1, hrow.2] at c1
    exact c1

/-- Counterexample to C19 as stated: the heightfield of the single sample `1` with
`baseElevation = -7.3f` and `peakElevation = 12.9f`.  The `float` difference
`peak - base` is `5295309/262144`, above the exact difference, and the `float` sum
of `base` and it is `13526631/1048576 = 12.90000057...`, one step above
`peakElevation = 13526630/1048576`. -/
theorem GetHeight_above_peak :
    plateauTerrain.m_heightfield ≠ [] ∧
      (∀ s ∈ plateauTerrain.m_heightfield, 0 ≤ s ∧ s ≤ 1) ∧
      plateauTerrain.m_baseElevation ≤ plateauTerrain.m_peakElevation ∧
      plateauTerrain.GetHeight 0 0 = some (13526631 / 1048576) ∧
      plateauTerrain.m_peakElevation < 13526631 / 1048576 := by
  refine ⟨?_, ?_, ?_, ?_, ?_⟩ <;> decide!

/-- Claim C19, amended: for a non-empty heightfield that satisfies the heightfield
invariant, with dimensions of at most `2 ^ 24` (they convert to `float` exactly),
whose samples are `float`s of `[0, 1]`, with `baseElevation ≤ peakElevation` and a
non-zero world extent, and for every world coordinate whose grid coordinates `u`
and `v` stay in the `float` range, `GetHeight` returns the `float` value of
`base + blend * (peak - base)`, where `blend` is the `float` bilinear blend of the
four clamped neighbouring samples and lies in `[0, 1]`; the value lies between
`baseElevation` rounded and the `float` value of `base + (peak - base)`. -/
theorem GetHeight_within_elevations (t : Terrain) (hwf : t.WellFormed)
    (hne : t.m_heightfield ≠ []) (hW : t.m_heightfieldWidth ≤ 2 ^ 24)
    (hH : t.m_heightfieldHeight ≤ 2 ^ 24) (hunit : ∀ s ∈ t.m_heightfield, 0 ≤ s ∧ s ≤ 1)
    (hfloat : ∀ s ∈ t.m_heightfield, roundToFloat s = s)
    (hbp : t.m_baseElevation ≤ t.m_peakElevation) (he : t.m_worldExtent ≠ 0) (X Z : ℚ)
    (hu : |t.gridU X| < 2 ^ 128) (hv : |t.gridV Z| < 2 ^ 128) :
    ∃ h00 h10 h01 h11 : ℚ,
      t.FetchHeightSample (Terrain.GetHeight.x0 t X) (Terrain.GetHeight.z0 t Z) = some h00 ∧
      t.FetchHeightSample (Terrain.GetHeight.x0 t X + 1) (Terrain.GetHeight.z0 t Z)
        = some h10 ∧
      t.FetchHeightSample (Terrain.GetHeight.x0 t X) (Terrain.GetHeight.z0 t Z + 1)
        = some h01 ∧
      t.FetchHeightSample (Terrain.GetHeight.x0 t X + 1) (Terrain.GetHeight.z0 t Z + 1)
        = some h11 ∧
      t.GetHeight X Z = some (roundToFloat (t.m_baseElevation
        + roundToFloat (bilinear h00 h10 h01 h11 (Terrain.GetHeight.fracX t X)
            (Terrain.GetHeight.fracZ t Z)
          * roundToFloat (t.m_peakElevation - t.m_baseElevation)))) ∧
      (0 ≤ bilinear h00 h10 h01 h11 (Terrain.GetHeight.fracX t X)
          (Terrain.GetHeight.fracZ t Z) ∧
        bilinear h00 h10 h01 h11 (Terrain.GetHeight.fracX t X) (Terrain.GetHeight.fracZ t Z)
          ≤ 1) ∧
      ∀ h, t.GetHeight X Z = some h →
        roundToFloat t.m_baseElevation ≤ h ∧
          h ≤ roundToFloat (t.m_baseElevation
            + roundToFloat (t.m_peakElevation - t.m_baseElevation)) := by
  obtain ⟨h00, e00, -⟩ := FetchHeightSample_defined t hwf hne
    (Terrain.GetHeight.x0 t X) (Terrain.GetHeight.z0 t Z)
  obtain ⟨h10, e10, -⟩ := FetchHeightSample_defined t hwf hne
    (Terrain.GetHeight.x0 t X + 1) (Terrain.GetHeight.z0 t Z)
  obtain ⟨h01, e01, -⟩ := FetchHeightSample_defined t hwf hne
    (Terrain.GetHeight.x0 t X) (Terrain.GetHeight.z0 t Z + 1)
  obtain ⟨h11, e11, -⟩ := FetchHeightSample_defined t hwf hne
    (Terrain.GetHeight.x0 t X + 1) (Terrain.GetHeight.z0 t Z + 1)
  have key := GetHeight_eq t hne he X Z hu hv h00 h10 h01 h11 e00 e10 e01 e11
  have hb := bilinear_mem_unit t hwf hne hW hH hunit hfloat X Z h00 h10 h01 h11 e00 e10 e01 e11
  refine ⟨h00, h10, h01, h11, e00, e10, e01, e11, key, hb, ?_⟩
  intro h hh
  rw [key] at hh
  have hh' := Option.some.inj hh
  have hd : 0 ≤ roundToFloat (t.m_peakElevation - t.m_baseElevation) :=
    roundToFloat_nonneg _ (by linarith)
  have p1 : 0 ≤ roundToFloat (bilinear h00 h10 h01 h11 (Terrain.GetHeight.fracX t X)
      (Terrain.GetHeight.fracZ t Z) * roundToFloat (t.m_peakElevation - t.m_baseElevation)) :=
    roundToFloat_nonneg _ (mul_nonneg hb.1 hd)
  have p2 : roundToFloat (bilinear h00 h10 h01 h11 (Terrain.GetHeight.fracX t X)
      (Terrain.GetHeight.fracZ t Z) * roundToFloat (t.m_peakElevation - t.m_baseElevation))
      ≤ roundToFloat (t.m_peakElevation - t.m_baseElevation) := by
    have := roundToFloat_mono (bilinear h00 h10 h01 h11 (Terrain.GetHeight.fracX t X)
      (Terrain.GetHeight.fracZ t Z) * roundToFloat (t.m_peakElevation - t.m_baseElevation))
      (roundToFloat (t.m_peakElevation - t.m_baseElevation)) (by nlinarith [hb.1, hb.2])
    rw [roundToFloat_idem] at this
    exact this
  rw [← hh']
  exact ⟨roundToFloat_mono _ _ (by linarith), roundToFloat_mono _ _ (by linarith)⟩

/-- Witness of the amended C19: the query at the centre of the 2 by 2 heightfield. -/
theorem GetHeight_within_elevations_witness :
    ∃ h00 h10 h01 h11 : ℚ,
      sampleTerrain.FetchHeightSample (Terrain.GetHeight.x0 sampleTerrain 0)
        (Terrain.GetHeight.z0 sampleTerrain 0) = some h00 ∧
      sampleTerrain.FetchHeightSample (Terrain.GetHeight.x0 sampleTerrain 0 + 1)
        (Terrain.GetHeight.z0 sampleTerrain 0) = some h10 ∧
      sampleTerrain.FetchHeightSample (Terrain.GetHeight.x0 sampleTerrain 0)
        (Terrain.GetHeight.z0 sampleTerrain 0 + 1) = some h01 ∧
      sampleTerrain.FetchHeightSample (Terrain.GetHeight.x0 sampleTerrain 0 + 1)
        (Terrain.GetHeight.z0 sampleTerrain 0 + 1) = some h11 ∧
      sampleTerrain.GetHeight 0 0 = some (roundToFloat (sampleTerrain.m_baseElevation
        + roundToFloat (bilinear h00 h10 h01 h11 (Terrain.GetHeight.fracX sampleTerrain 0)
            (Terrain.GetHeight.fracZ sampleTerrain 0)
          * roundToFloat (sampleTerrain.m_peakElevation - sampleTerrain.m_baseElevation)))) ∧
      (0 ≤ bilinear h00 h10 h01 h11 (Terrain.GetHeight.fracX sampleTerrain 0)
          (Terrain.GetHeight.fracZ sampleTerrain 0) ∧
        bilinear h00 h10 h01 h11 (Terrain.GetHeight.fracX sampleTerrain 0)
          (Terrain.GetHeight.fracZ sampleTerrain 0) ≤ 1) ∧
      ∀ h, sampleTerrain.GetHeight 0 0 = some h →
        roundToFloat sampleTerrain.m_baseElevation ≤ h ∧
          h ≤ roundToFloat (sampleTerrain.m_baseElevation
            + roundToFloat (sampleTerrain.m_peakElevation - sampleTerrain.m_baseElevation)) :=
  GetHeight_within_elevations sampleTerrain (by unfold Terrain.WellFormed; decide!) (by decide!)
    (by decide!) (by decide!) (by decide!) (by decide!) (by decide!) (by decide!) 0 0
    (by decide!) (by decide!)

theorem gridU_right_edge (t : Terrain) (he : t.m_worldExtent ≠ 0)
    (hW : t.m_heightfieldWidth ≤ 2 ^ 24) :
    t.gridU (t.m_worldExtent / 2) = (t.m_heightfieldWidth : ℚ) := by
  unfold Terrain.gridU
  have e : t.m_worldExtent / 2 / t.m_worldExtent = 1 / 2 := by field_simp; ring
  have e1 : (1 : ℚ) / 2 + 1 / 2 = 1 := by norm_num
  rw [e, roundToFloat_half, e1, roundToFloat_one, one_mul, roundToFloat_natCast _ hW,
    roundToFloat_natCast _ hW]

theorem gridU_left_edge (t : Terrain) (he : t.m_worldExtent ≠ 0) :
    t.gridU (-t.m_worldExtent / 2) = 0 := by
  unfold Terrain.gridU
  have e : -t.m_worldExtent / 2 / t.m_worldExtent = -1 / 2 := by field_simp; ring
  have e1 : (-1 : ℚ) / 2 + 1 / 2 = 0 := by norm_num
  rw [e, roundToFloat_neg_half, e1, roundToFloat_zero, zero_mul, roundToFloat_zero]

theorem gridV_far_edge (t : Terrain) (he : t.m_worldExtent ≠ 0)
    (hH : t.m_heightfieldHeight ≤ 2 ^ 24) :
    t.gridV (t.m_worldExtent / 2) = (t.m_heightfieldHeight : ℚ) := by
  unfold Terrain.gridV
  have e : t.m_worldExtent / 2 / t.m_worldExtent = 1 / 2 := by field_simp; ring
  have e1 : (1 : ℚ) / 2 + 1 / 2 = 1 := by norm_num
  rw [e, roundToFloat_half, e1, roundToFloat_one, one_mul, roundToFloat_natCast _ hH,
    roundToFloat_natCast _ hH]

theorem gridV_near_edge (t : Terrain) (he : t.m_worldExtent ≠ 0) :
    t.gridV (-t.m_worldExtent / 2) = 0 := by
  unfold Terrain.gridV
  have e : -t.m_worldExtent / 2 / t.m_worldExtent = -1 / 2 := by field_simp; ring
  have e1 : (-1 : ℚ) / 2 + 1 / 2 = 0 := by norm_num
  rw [e, roundToFloat_neg_half, e1, roundToFloat_zero, zero_mul, roundToFloat_zero]

/-- The computed grid coordinate of a world coordinate at or beyond `extent / 2` is
at least the dimension of the grid. -/
theorem grid_ge_dimension (E : ℚ) (he : 0 < E) (n : Nat) (hn : n ≤ 2 ^ 24) (X : ℚ)
    (h : E / 2 ≤ X) :
    (n : ℚ) ≤ roundToFloat (roundToFloat (roundToFloat (X / E) + 1 / 2)
      * roundToFloat (n : ℚ)) := by
  have h1 : (1 : ℚ) / 2 ≤ X / E := by
    rw [le_div_iff₀ he]; linarith
  have h2 : (1 : ℚ) / 2 ≤ roundToFloat (X / E) := by
    have := roundToFloat_mono _ _ h1
    rw [roundToFloat_half] at this
    exact this
  have h3 : (1 : ℚ) ≤ roundToFloat (roundToFloat (X / E) + 1 / 2) := by
    have := roundToFloat_mono 1 (roundToFloat (X / E) + 1 / 2) (by linarith)
    rw [roundToFloat_one] at this
    exact this
  rw [roundToFloat_natCast _ hn]
  have hn0 : (0 : ℚ) ≤ (n : ℚ) := by positivity
  have := roundToFloat_mono (n : ℚ) (roundToFloat (roundToFloat (X / E) + 1 / 2) * (n : ℚ))
    (by nlinarith)
  rw [roundToFloat_natCast _ hn] at this
  exact this

/-- The computed grid coordinate of a world coordinate at or beyond `-extent / 2` is
at most zero. -/
theorem grid_nonpos (E : ℚ) (he : 0 < E) (n : Nat) (X : ℚ) (h : X ≤ -E / 2) :
    roundToFloat (roundToFloat (roundToFloat (X / E) + 1 / 2) * roundToFloat (n : ℚ)) ≤ 0 := by
  have h1 : X / E ≤ -1 / 2 := by
    rw [div_le_iff₀ he]; linarith
  have h2 : roundToFloat (X / E) ≤ -1 / 2 := by
    have := roundToFloat_mono _ _ h1
    rw [roundToFloat_neg_half] at this
    exact this
  have h3 : roundToFloat (roundToFloat (X / E) + 1 / 2) ≤ 0 :=
    roundToFloat_nonpos _ (by linarith)
  have hn0 : (0 : ℚ) ≤ roundToFloat (n : ℚ) := roundToFloat_nonneg _ (by positivity)
  exact roundToFloat_nonpos _ (mul_nonpos_of_nonpos_of_nonneg h3 hn0)

/-- The conversion of a grid coordinate that is at most zero is at most zero, and
when it is zero the grid coordinate is zero. -/
theorem floorToInt_nonpos (u : ℚ) (h : u ≤ 0) :
    floorToInt u ≤ 0 ∧ (floorToInt u = 0 → u = 0) := by
  have hf : ⌊u⌋ ≤ 0 := Int.floor_nonpos h
  unfold floorToInt
  split_ifs with hr
  · refine ⟨hf, fun h0 => ?_⟩
    have := Int.floor_le u
    rw [h0] at this
    exact le_antisymm h (by simpa using this)
  · exact ⟨by norm_num, fun h0 => absurd h0 (by norm_num)⟩

/-- The query `GetHeight` where both columns of the query hold the samples of the
column `c`, or the column `x0` does and `fracX` is zero: only the column `c`
matters. -/
theorem GetHeight_column (t : Terrain) (hwf : t.WellFormed) (hne : t.m_heightfield ≠ [])
    (he : t.m_worldExtent ≠ 0) (X Z : ℚ) (hu : |t.gridU X| < 2 ^ 128)
    (hv : |t.gridV Z| < 2 ^ 128) (c : Int)
    (hcol : ∀ z, t.FetchHeightSample (Terrain.GetHeight.x0 t X) z = t.FetchHeightSample c z)
    (hflat : (∀ z, t.FetchHeightSample (Terrain.GetHeight.x0 t X + 1) z
        = t.FetchHeightSample c z) ∨ Terrain.GetHeight.fracX t X = 0)
    (a b : ℚ) (ea : t.FetchHeightSample c (Terrain.GetHeight.z0 t Z) = some a)
    (eb : t.FetchHeightSample c (Terrain.GetHeight.z0 t Z + 1) = some b) :
    t.GetHeight X Z = some (roundToFloat (t.m_baseElevation
      + roundToFloat (floatLerp (roundToFloat a) (roundToFloat b) (Terrain.GetHeight.fracZ t Z)
        * roundToFloat (t.m_peakElevation - t.m_baseElevation)))) := by
  obtain ⟨h10, e10, -⟩ := FetchHeightSample_defined t hwf hne
    (Terrain.GetHeight.x0 t X + 1) (Terrain.GetHeight.z0 t Z)
  obtain ⟨h11, e11, -⟩ := FetchHeightSample_defined t hwf hne
    (Terrain.GetHeight.x0 t X + 1) (Terrain.GetHeight.z0 t Z + 1)
  have e00 := (hcol (Terrain.GetHeight.z0 t Z)).trans ea
  have e01 := (hcol (Terrain.GetHeight.z0 t Z + 1)).trans eb
  rw [GetHeight_eq t hne he X Z hu hv a h10 b h11 e00 e10 e01 e11]
  unfold bilinear
  have k0 : floatLerp a h10 (Terrain.GetHeight.fracX t X) = roundToFloat a := by
    apply floatLerp_flat
    rcases hflat with h | h
    · left
      have := h (Terrain.GetHeight.z0 t Z)
      rw [e10, ea] at this
      exact Option.some.inj this
    · exact Or.inr h
  have k1 : floatLerp b h11 (Terrain.GetHeight.fracX t X) = roundToFloat b := by
    apply floatLerp_flat
    rcases hflat with h | h
    · left
      have := h (Terrain.GetHeight.z0 t Z + 1)
      rw [e11, eb] at this
      exact Option.some.inj this
    · exact Or.inr h
  rw [k0, k1]

/-- The query `GetHeight` where both rows of the query hold the samples of the row
`r`, or the row `z0` does and `fracZ` is zero: only the row `r` matters. -/
theorem GetHeight_row (t : Terrain) (hwf : t.WellFormed) (hne : t.m_heightfield ≠ [])
    (he : t.m_worldExtent ≠ 0) (X Z : ℚ) (hu : |t.gridU X| < 2 ^ 128)
    (hv : |t.gridV Z| < 2 ^ 128) (r : Int)
    (hrow : ∀ x, t.FetchHeightSample x (Terrain.GetHeight.z0 t Z) = t.FetchHeightSample x r)
    (hflat : (∀ x, t.FetchHeightSample x (Terrain.GetHeight.z0 t Z + 1)
        = t.FetchHeightSample x r) ∨ Terrain.GetHeight.fracZ t Z = 0)
    (a b : ℚ) (ea : t.FetchHeightSample (Terrain.GetHeight.x0 t X) r = some a)
    (eb : t.FetchHeightSample (Terrain.GetHeight.x0 t X + 1) r = some b) :
    t.GetHeight X Z = some (roundToFloat (t.m_baseElevation
      + roundToFloat (roundToFloat (floatLerp a b (Terrain.GetHeight.fracX t X))
        * roundToFloat (t.m_peakElevation - t.m_baseElevation)))) := by
  obtain ⟨h01, e01, -⟩ := FetchHeightSample_defined t hwf hne
    (Terrain.GetHeight.x0 t X) (Terrain.GetHeight.z0 t Z + 1)
  obtain ⟨h11, e11, -⟩ := FetchHeightSample_defined t hwf hne
    (Terrain.GetHeight.x0 t X + 1) (Terrain.GetHeight.z0 t Z + 1)
  have e00 := (hrow (Terrain.GetHeight.x0 t X)).trans ea
  have e10 := (hrow (Terrain.GetHeight.x0 t X + 1)).trans eb
  rw [GetHeight_eq t hne he X Z hu hv a b h01 h11 e00 e10 e01 e11]
  unfold bilinear
  have k : floatLerp (floatLerp a b (Terrain.GetHeight.fracX t X))
      (floatLerp h01 h11 (Terrain.GetHeight.fracX t X)) (Terrain.GetHeight.fracZ t Z)
      = roundToFloat (floatLerp a b (Terrain.GetHeight.fracX t X)) := by
    apply floatLerp_flat
    rcases hflat with h | h
    · left
      have h1 := h (Terrain.GetHeight.x0 t X)
      have h2 := h (Terrain.GetHeight.x0 t X + 1)
      rw [e01, ea] at h1
      rw [e11, eb] at h2
      rw [Option.some.inj h1, Option.some.inj h2]
    · exact Or.inr h
  rw [k]

/-- What is needed of a world coordinate at or beyond `extent / 2` whose converted
grid coordinate fits `int`: the conversion is at least the dimension `n`, and the
grid coordinate is finite. -/
theorem floorToInt_ge_dimension (u : ℚ) (n : Nat) (hge : (n : ℚ) ≤ u) (hfit : ⌊u⌋ < 2 ^ 31) :
    (n : Int) ≤ floorToInt u ∧ |u| < 2 ^ 128 := by
  have hfloor : (n : Int) ≤ ⌊u⌋ := Int.le_floor.mpr (by exact_mod_cast hge)
  have h0 : (0 : ℚ) ≤ u := le_trans (by positivity) hge
  constructor
  · rw [floorToInt_of_range u (by omega) hfit]
    exact hfloor
  · rw [abs_of_nonneg h0]
    have h1 := Int.lt_floor_add_one u
    have h2 : ((⌊u⌋ : Int) : ℚ) + 1 ≤ 2 ^ 31 := by
      have : ⌊u⌋ + 1 ≤ 2 ^ 31 := by omega
      exact_mod_cast this
    calc u < 2 ^ 31 := by linarith
      _ < 2 ^ 128 := by norm_num

theorem floorToInt_natCast (n : Nat) (hn : n < 2 ^ 31) : floorToInt (n : ℚ) = (n : Int) := by
  have hf : ⌊(n : ℚ)⌋ = (n : Int) := Int.floor_natCast n
  rw [floorToInt_of_range _ (by rw [hf]; omega) (by rw [hf]; omega), hf]

theorem abs_natCast_lt (n : Nat) (hn : n < 2 ^ 31) : |(n : ℚ)| < 2 ^ 128 := by
  rw [abs_of_nonneg (by positivity)]
  have : (n : ℚ) < 2 ^ 31 := by exact_mod_cast hn
  calc (n : ℚ) < 2 ^ 31 := this
    _ < 2 ^ 128 := by norm_num

theorem GetHeight_right_of (t : Terrain) (hwf : t.WellFormed) (hne : t.m_heightfield ≠ [])
    (he : 0 < t.m_worldExtent) (hW : t.m_heightfieldWidth ≤ 2 ^ 24) (X Z : ℚ)
    (hX : t.m_worldExtent / 2 ≤ X) (hfit : ⌊t.gridU X⌋ < 2 ^ 31) :
    t.GetHeight X Z = t.GetHeight (t.m_worldExtent / 2) Z := by
  by_cases hv : |t.gridV Z| < 2 ^ 128
  · obtain ⟨hx0, hu⟩ := floorToInt_ge_dimension (t.gridU X) t.m_heightfieldWidth
      (grid_ge_dimension _ he _ hW X hX) hfit
    have hedge := gridU_right_edge t he.ne' hW
    have hx0r : Terrain.GetHeight.x0 t (t.m_worldExtent / 2) = (t.m_heightfieldWidth : Int) := by
      unfold Terrain.GetHeight.x0
      rw [hedge]
      exact floorToInt_natCast _ hwf.2.1
    have hur : |t.gridU (t.m_worldExtent / 2)| < 2 ^ 128 := by
      rw [hedge]; exact abs_natCast_lt _ hwf.2.1
    obtain ⟨a, ea, -⟩ := FetchHeightSample_defined t hwf hne
      ((t.m_heightfieldWidth : Int) - 1) (Terrain.GetHeight.z0 t Z)
    obtain ⟨b, eb, -⟩ := FetchHeightSample_defined t hwf hne
      ((t.m_heightfieldWidth : Int) - 1) (Terrain.GetHeight.z0 t Z + 1)
    rw [GetHeight_column t hwf hne he.ne' X Z hu hv ((t.m_heightfieldWidth : Int) - 1)
        (fun z => FetchHeightSample_right_of t hwf _ z (by
          unfold Terrain.GetHeight.x0; omega))
        (Or.inl fun z => FetchHeightSample_right_of t hwf _ z (by
          unfold Terrain.GetHeight.x0; omega)) a b ea eb,
      GetHeight_column t hwf hne he.ne' (t.m_worldExtent / 2) Z hur hv
        ((t.m_heightfieldWidth : Int) - 1)
        (fun z => FetchHeightSample_right_of t hwf _ z (by rw [hx0r]; omega))
        (Or.inl fun z => FetchHeightSample_right_of t hwf _ z (by rw [hx0r]; omega)) a b ea eb]
  · rw [GetHeight_infinite t hne X Z (Or.inr (not_lt.mp hv)),
      GetHeight_infinite t hne _ Z (Or.inr (not_lt.mp hv))]

theorem fracX_of_zero (t : Terrain) (X : ℚ) (h0 : Terrain.GetHeight.x0 t X = 0)
    (hu : t.gridU X = 0) : Terrain.GetHeight.fracX t X = 0 := by
  unfold Terrain.GetHeight.fracX
  rw [h0, hu]
  simp [roundToFloat_zero]

theorem fracZ_of_zero (t : Terrain) (Z : ℚ) (h0 : Terrain.GetHeight.z0 t Z = 0)
    (hv : t.gridV Z = 0) : Terrain.GetHeight.fracZ t Z = 0 := by
  unfold Terrain.GetHeight.fracZ
  rw [h0, hv]
  simp [roundToFloat_zero]

theorem floorToInt_zero : floorToInt 0 = 0 := by decide!

theorem GetHeight_left_of (t : Terrain) (hwf : t.WellFormed) (hne : t.m_heightfield ≠ [])
    (he : 0 < t.m_worldExtent) (X Z : ℚ)
    (hX : X ≤ -t.m_worldExtent / 2) (hu : |t.gridU X| < 2 ^ 128) :
    t.GetHeight X Z = t.GetHeight (-t.m_worldExtent / 2) Z := by
  by_cases hv : |t.gridV Z| < 2 ^ 128
  · obtain ⟨hx0, hx0z⟩ := floorToInt_nonpos (t.gridU X) (grid_nonpos _ he _ X hX)
    have hedge := gridU_left_edge t he.ne'
    have hx0r : Terrain.GetHeight.x0 t (-t.m_worldExtent / 2) = 0 := by
      unfold Terrain.GetHeight.x0
      rw [hedge]
      exact floorToInt_zero
    have hur : |t.gridU (-t.m_worldExtent / 2)| < 2 ^ 128 := by
      rw [hedge]; norm_num
    obtain ⟨a, ea, -⟩ := FetchHeightSample_defined t hwf hne 0 (Terrain.GetHeight.z0 t Z)
    obtain ⟨b, eb, -⟩ := FetchHeightSample_defined t hwf hne 0 (Terrain.GetHeight.z0 t Z + 1)
    have hflat : (∀ z, t.FetchHeightSample (Terrain.GetHeight.x0 t X + 1) z
        = t.FetchHeightSample 0 z) ∨ Terrain.GetHeight.fracX t X = 0 := by
      by_cases hneg : Terrain.GetHeight.x0 t X + 1 ≤ 0
      · exact Or.inl fun z => FetchHeightSample_left_of t _ z hneg
      · right
        have h0 : Terrain.GetHeight.x0 t X = 0 := by
          unfold Terrain.GetHeight.x0 at hneg ⊢
          omega
        exact fracX_of_zero t X h0 (hx0z h0)
    rw [GetHeight_column t hwf hne he.ne' X Z hu hv 0
        (fun z => FetchHeightSample_left_of t _ z hx0) hflat a b ea eb,
      GetHeight_column t hwf hne he.ne' (-t.m_worldExtent / 2) Z hur hv 0
        (fun z => by rw [hx0r])
        (Or.inr (fracX_of_zero t _ hx0r hedge)) a b ea eb]
  · rw [GetHeight_infinite t hne X Z (Or.inr (not_lt.mp hv)),
      GetHeight_infinite t hne _ Z (Or.inr (not_lt.mp hv))]

theorem GetHeight_beyond (t : Terrain) (hwf : t.WellFormed) (hne : t.m_heightfield ≠ [])
    (he : 0 < t.m_worldExtent) (hH : t.m_heightfieldHeight ≤ 2 ^ 24) (X Z : ℚ)
    (hZ : t.m_worldExtent / 2 ≤ Z) (hfit : ⌊t.gridV Z⌋ < 2 ^ 31) :
    t.GetHeight X Z = t.GetHeight X (t.m_worldExtent / 2) := by
  by_cases hu : |t.gridU X| < 2 ^ 128
  · obtain ⟨hz0, hv⟩ := floorToInt_ge_dimension (t.gridV Z) t.m_heightfieldHeight
      (grid_ge_dimension _ he _ hH Z hZ) hfit
    have hedge := gridV_far_edge t he.ne' hH
    have hz0r : Terrain.GetHeight.z0 t (t.m_worldExtent / 2) = (t.m_heightfieldHeight : Int) := by
      unfold Terrain.GetHeight.z0
      rw [hedge]
      exact floorToInt_natCast _ hwf.2.2
    have hvr : |t.gridV (t.m_worldExtent / 2)| < 2 ^ 128 := by
      rw [hedge]; exact abs_natCast_lt _ hwf.2.2
    obtain ⟨a, ea, -⟩ := FetchHeightSample_defined t hwf hne
      (Terrain.GetHeight.x0 t X) ((t.m_heightfieldHeight : Int) - 1)
    obtain ⟨b, eb, -⟩ := FetchHeightSample_defined t hwf hne
      (Terrain.GetHeight.x0 t X + 1) ((t.m_heightfieldHeight : Int) - 1)
    rw [GetHeight_row t hwf hne he.ne' X Z hu hv ((t.m_heightfieldHeight : Int) - 1)
        (fun x => FetchHeightSample_above t hwf x _ (by
          unfold Terrain.GetHeight.z0; omega))
        (Or.inl fun x => FetchHeightSample_above t hwf x _ (by
          unfold Terrain.GetHeight.z0; omega)) a b ea eb,
      GetHeight_row t hwf hne he.ne' X (t.m_worldExtent / 2) hu hvr
        ((t.m_heightfieldHeight : Int) - 1)
        (fun x => FetchHeightSample_above t hwf x _ (by rw [hz0r]; omega))
        (Or.inl fun x => FetchHeightSample_above t hwf x _ (by rw [hz0r]; omega)) a b ea eb]
  · rw [GetHeight_infinite t hne X Z (Or.inl (not_lt.mp hu)),
      GetHeight_infinite t hne X _ (Or.inl (not_lt.mp hu))]

theorem GetHeight_before (t : Terrain) (hwf : t.WellFormed) (hne : t.m_heightfield ≠ [])
    (he : 0 < t.m_worldExtent) (X Z : ℚ)
    (hZ : Z ≤ -t.m_worldExtent / 2) (hv : |t.gridV Z| < 2 ^ 128) :
    t.GetHeight X Z = t.GetHeight X (-t.m_worldExtent / 2) := by
  by_cases hu : |t.gridU X| < 2 ^ 128
  · obtain ⟨hz0, hz0z⟩ := floorToInt_nonpos (t.gridV Z) (grid_nonpos _ he _ Z hZ)
    have hedge := gridV_near_edge t he.ne'
    have hz0r : Terrain.GetHeight.z0 t (-t.m_worldExtent / 2) = 0 := by
      unfold Terrain.GetHeight.z0
      rw [hedge]
      exact floorToInt_zero
    have hvr : |t.gridV (-t.m_worldExtent / 2)| < 2 ^ 128 := by
      rw [hedge]; norm_num
    obtain ⟨a, ea, -⟩ := FetchHeightSample_defined t hwf hne (Terrain.GetHeight.x0 t X) 0
    obtain ⟨b, eb, -⟩ := FetchHeightSample_defined t hwf hne (Terrain.GetHeight.x0 t X + 1) 0
    have hflat : (∀ x, t.FetchHeightSample x (Terrain.GetHeight.z0 t Z + 1)
        = t.FetchHeightSample x 0) ∨ Terrain.GetHeight.fracZ t Z = 0 := by
      by_cases hneg : Terrain.GetHeight.z0 t Z + 1 ≤ 0
      · exact Or.inl fun x => FetchHeightSample_below t x _ hneg
      · right
        have h0 : Terrain.GetHeight.z0 t Z = 0 := by
          unfold Terrain.GetHeight.z0 at hneg ⊢
          omega
        exact fracZ_of_zero t Z h0 (hz0z h0)
    rw [GetHeight_row t hwf hne he.ne' X Z hu hv 0
        (fun x => FetchHeightSample_below t x _ hz0) hflat a b ea eb,
      GetHeight_row t hwf hne he.ne' X (-t.m_worldExtent / 2) hu hvr 0
        (fun x => by rw [hz0r])
        (Or.inr (fracZ_of_zero t _ hz0r hedge)) a b ea eb]
  · rw [GetHeight_infinite t hne X Z (Or.inl (not_lt.mp hu)),
      GetHeight_infinite t hne X _ (Or.inl (not_lt.mp hu))]

/-- Counterexample to C18 as stated: on the 2 by 2 heightfield `[0, 1, 1, 0]` with
extent `1`, the query at `worldX = 2 ^ 31` has the grid column `u = 2 ^ 32`, which
does not fit `int`; the conversion gives `INT_MIN`, both columns are clamped to the
left edge, and the query returns the left-edge value `0`, while the query at the
boundary `worldX = 1/2` returns `100`. -/
theorem GetHeight_far_right_wraps :
    sampleTerrain.m_worldExtent / 2 ≤ (2 : ℚ) ^ 31 ∧
      sampleTerrain.gridU (2 ^ 31) = 2 ^ 32 ∧
      sampleTerrain.GetHeight (2 ^ 31) (-1 / 2) = some 0 ∧
      sampleTerrain.GetHeight (sampleTerrain.m_worldExtent / 2) (-1 / 2) = some 100 := by
  refine ⟨?_, ?_, ?_, ?_⟩ <;> decide!

/-- Claim C18, amended: for a non-empty heightfield that satisfies the heightfield
invariant, with dimensions of at most `2 ^ 24`, a positive world extent and every
`worldZ`, `GetHeight(worldX, worldZ)` equals `GetHeight(extent / 2, worldZ)` for
every `worldX ≥ extent / 2` whose grid column `u`, as the code computes it in
`float` arithmetic, has a floor below `2 ^ 31`, and equals
`GetHeight(-extent / 2, worldZ)` for every `worldX ≤ -extent / 2` whose grid column
stays in the `float` range; the same holds with the roles of `x` and `z`
exchanged. -/
theorem GetHeight_clamps_outside (t : Terrain) (hwf : t.WellFormed)
    (hne : t.m_heightfield ≠ []) (he : 0 < t.m_worldExtent)
    (hW : t.m_heightfieldWidth ≤ 2 ^ 24) (hH : t.m_heightfieldHeight ≤ 2 ^ 24) (X Z : ℚ) :
    (t.m_worldExtent / 2 ≤ X → ⌊t.gridU X⌋ < 2 ^ 31 →
        t.GetHeight X Z = t.GetHeight (t.m_worldExtent / 2) Z) ∧
      (X ≤ -t.m_worldExtent / 2 → |t.gridU X| < 2 ^ 128 →
        t.GetHeight X Z = t.GetHeight (-t.m_worldExtent / 2) Z) ∧
      (t.m_worldExtent / 2 ≤ Z → ⌊t.gridV Z⌋ < 2 ^ 31 →
        t.GetHeight X Z = t.GetHeight X (t.m_worldExtent / 2)) ∧
      (Z ≤ -t.m_worldExtent / 2 → |t.gridV Z| < 2 ^ 128 →
        t.GetHeight X Z = t.GetHeight X (-t.m_worldExtent / 2)) :=
  ⟨GetHeight_right_of t hwf hne he hW X Z, GetHeight_left_of t hwf hne he X Z,
    GetHeight_beyond t hwf hne he hH X Z, GetHeight_before t hwf hne he X Z⟩

/-- Witness of the amended C18: the query at `worldX = 1000` on the 2 by 2
heightfield, whose grid column is `2001`. -/
theorem GetHeight_clamps_outside_witness :
    sampleTerrain.GetHeight 1000 (-1 / 4) =
      sampleTerrain.GetHeight (sampleTerrain.m_worldExtent / 2) (-1 / 4) :=
  (GetHeight_clamps_outside sampleTerrain (by unfold Terrain.WellFormed; decide!) (by decide!)
    (by decide!) (by decide!) (by decide!) 1000 (-1 / 4)).1 (by decide!) (by decide!)

/-- Counterexample to C17 as stated: the 10 by 1 heightfield with the sample `1` at
the grid index `(1, 0)`, extent `10`, elevations from `0` to `100`.  The world point
of the grid index `(1, 0)` is `(-4, -5)`; the `float` quotient `-4 / 10` is
`-0.4f`, above `-0.4`, so that `u = 16777215/16777216` falls short of `1`, the
query blends the samples `0` and `1`, and `GetHeight` returns
`13107199/131072 = 99.99999237...`, not `0 + 1 * (100 - 0)`. -/
theorem GetHeight_grid_point_falls_short :
    stripTerrain.m_heightfield[0 * stripTerrain.m_heightfieldWidth + 1]? = some 1 ∧
      (((1 : Nat) : ℚ) / (stripTerrain.m_heightfieldWidth : ℚ) - 1 / 2)
        * stripTerrain.m_worldExtent = -4 ∧
      (((0 : Nat) : ℚ) / (stripTerrain.m_heightfieldHeight : ℚ) - 1 / 2)
        * stripTerrain.m_worldExtent = -5 ∧
      stripTerrain.gridU (-4) = 16777215 / 16777216 ∧
      stripTerrain.GetHeight (-4) (-5) = some (13107199 / 131072) ∧
      (13107199 / 131072 : ℚ) ≠ stripTerrain.m_baseElevation
        + 1 * (stripTerrain.m_peakElevation - stripTerrain.m_baseElevation) := by
  refine ⟨?_, ?_, ?_, ?_, ?_, ?_⟩ <;> decide!

/-- Claim C17, amended: for a heightfield of width `W` and height `H` that satisfies
the heightfield invariant, a non-zero world extent and every grid index `(i, j)`
with `i < W` and `j < H`, `GetHeight` at a world point whose grid coordinates `u`
and `v`, as the code computes them in `float` arithmetic, are exactly `i` and `j`
returns the `float` value of
`baseElevation + sample[j * W + i] * (peakElevation - baseElevation)`. -/
theorem GetHeight_at_grid_point (t : Terrain) (hwf : t.WellFormed) (he : t.m_worldExtent ≠ 0)
    (i j : Nat) (hi : i < t.m_heightfieldWidth) (hj : j < t.m_heightfieldHeight)
    (worldX worldZ : ℚ) (hu : t.gridU worldX = (i : ℚ)) (hv : t.gridV worldZ = (j : ℚ)) :
    ∃ s, t.m_heightfield[j * t.m_heightfieldWidth + i]? = some s ∧
      t.GetHeight worldX worldZ
        = some (roundToFloat (t.m_baseElevation
            + roundToFloat (roundToFloat s
              * roundToFloat (t.m_peakElevation - t.m_baseElevation)))) := by
  have hw := hwf.2.1
  have hh := hwf.2.2
  have hne : t.m_heightfield ≠ [] := by
    intro h
    have hlen := hwf.1
    rw [h, List.length_nil] at hlen
    have : 0 < t.m_heightfieldWidth * t.m_heightfieldHeight :=
      Nat.mul_pos (by omega) (by omega)
    omega
  have hx0 : Terrain.GetHeight.x0 t worldX = (i : Int) := by
    unfold Terrain.GetHeight.x0
    rw [hu]
    exact floorToInt_natCast i (by omega)
  have hz0 : Terrain.GetHeight.z0 t worldZ = (j : Int) := by
    unfold Terrain.GetHeight.z0
    rw [hv]
    exact floorToInt_natCast j (by omega)
  have hfx : Terrain.GetHeight.fracX t worldX = 0 := by
    have hid := gridU_idem t worldX
    unfold Terrain.GetHeight.fracX
    rw [hx0, hu] at *
    rw [Int.cast_natCast, hid, sub_self, roundToFloat_zero]
  have hfz : Terrain.GetHeight.fracZ t worldZ = 0 := by
    have hid := gridV_idem t worldZ
    unfold Terrain.GetHeight.fracZ
    rw [hz0, hv] at *
    rw [Int.cast_natCast, hid, sub_self, roundToFloat_zero]
  obtain ⟨s, hs, -⟩ := FetchHeightSample_defined t hwf hne (i : Int) (j : Int)
  obtain ⟨h10, e10, -⟩ := FetchHeightSample_defined t hwf hne ((i : Int) + 1) (j : Int)
  obtain ⟨h01, e01, -⟩ := FetchHeightSample_defined t hwf hne (i : Int) ((j : Int) + 1)
  obtain ⟨h11, e11, -⟩ := FetchHeightSample_defined t hwf hne ((i : Int) + 1) ((j : Int) + 1)
  refine ⟨s, ?_, ?_⟩
  · rw [← FetchHeightSample_inside t hwf i j hi hj]
    exact hs
  · have key := GetHeight_eq t hne he worldX worldZ
      (by rw [hu]; exact abs_natCast_lt i (by omega))
      (by rw [hv]; exact abs_natCast_lt j (by omega))
      s h10 h01 h11 (by rw [hx0, hz0]; exact hs) (by rw [hx0, hz0]; exact e10)
      (by rw [hx0, hz0]; exact e01) (by rw [hx0, hz0]; exact e11)
    rw [key, hfx, hfz]
    unfold bilinear
    rw [floatLerp_flat _ _ _ (Or.inr rfl), floatLerp_flat s h10 0 (Or.inr rfl),
      roundToFloat_idem]

/-- Witness of the amended C17: the world point `(0, -1/2)` of the 2 by 2 heightfield
`[0, 1, 1, 0]`, whose computed grid coordinates are `(1, 0)`. -/
theorem GetHeight_at_grid_point_witness :
    ∃ s, sampleTerrain.m_heightfield[0 * sampleTerrain.m_heightfieldWidth + 1]? = some s ∧
      sampleTerrain.GetHeight 0 (-1 / 2)
        = some (roundToFloat (sampleTerrain.m_baseElevation
            + roundToFloat (roundToFloat s
              * roundToFloat (sampleTerrain.m_peakElevation
                  - sampleTerrain.m_baseElevation)))) :=
  GetHeight_at_grid_point sampleTerrain (by unfold Terrain.WellFormed; decide!) (by decide!) 1 0
    (by decide!) (by decide!) 0 (-1 / 2) (by decide!) (by decide!)

/-! Loading a heightmap -/

/-- A stream that cannot be opened: `LoadHeightmap` returns `false` and leaves the
object as it was. -/
theorem LoadHeightmap_unopened (t : Terrain) (width height : Nat) (sixteenBit : Bool) :
    t.LoadHeightmap none width height sixteenBit = (false, t) := rfl

/-- Claim C20, evaluated on the code: on a terrain that holds the 2 by 2
heightfield `[0, 1, 1, 0]`, `LoadHeightmap` is asked for 2 by 1 samples of 8 bits
from a file that opens and holds the single byte `255`.  The read comes up one
sample short; the call returns `true`, stores the width `2` and the height `1`,
and replaces the samples by `[1, 0]`.  The same happens for 16-bit samples from a
file of three bytes. -/
theorem LoadHeightmap_short_file_reports_success :
    (sampleTerrain.LoadHeightmap (some [255]) 2 1 false).1 = true ∧
      (sampleTerrain.LoadHeightmap (some [255]) 2 1 false).2.m_heightfieldWidth = 2 ∧
      (sampleTerrain.LoadHeightmap (some [255]) 2 1 false).2.m_heightfieldHeight = 1 ∧
      (sampleTerrain.LoadHeightmap (some [255]) 2 1 false).2.m_heightfield = [1, 0] ∧
      (sampleTerrain.LoadHeightmap (some [255]) 2 1 false).2.m_heightfield
        ≠ sampleTerrain.m_heightfield ∧
      sampleTerrain.LoadHeightmap (some [255, 255, 7]) 2 1 true
        = (true, { sampleTerrain with
            m_heightfieldWidth := 2, m_heightfieldHeight := 1,
            m_heightfield := [1, 7 / 65535] }) := by
  refine ⟨?_, ?_, ?_, ?_, ?_, ?_⟩ <;> decide!

/-! The noise lattice -/

/-- The `int` operation `x & (2 ^ k - 1)` is the remainder of `x` modulo `2 ^ k`,
for negative `x` as well (two's complement). -/
theorem land_two_pow_sub_one (x : Int) (k : Nat) :
    Int.land x ((2 ^ k - 1 : Nat) : Int) = x % 2 ^ k := by
  cases x with
  | ofNat m =>
    show ((m &&& (2 ^ k - 1) : Nat) : Int) = _
    rw [Nat.and_pow_two_sub_one_eq_mod]
    push_cast
    rfl
  | negSucc m =>
    show ((Nat.ldiff (2 ^ k - 1) m : Nat) : Int) = _
    have h : Nat.ldiff (2 ^ k - 1) m = 2 ^ k - (m % 2 ^ k + 1) := by
      apply Nat.eq_of_testBit_eq
      intro i
      rw [Nat.testBit_ldiff, Nat.testBit_two_pow_sub_one,
        Nat.testBit_two_pow_sub_succ (Nat.mod_lt _ (by positivity)), Nat.testBit_mod_two_pow]
      by_cases hi : i < k <;> simp [hi]
    rw [h]
    have hpos : 0 < 2 ^ k := by positivity
    have hlt : m % 2 ^ k < 2 ^ k := Nat.mod_lt _ hpos
    have hdm := Nat.div_add_mod m (2 ^ k)
    rw [Int.negSucc_eq]
    have e2 : ((2:Int) ^ k) = ((2 ^ k : Nat) : Int) := by push_cast; rfl
    rw [e2]
    generalize 2 ^ k = N at *
    have key : (-((m : Int) + 1)) = ((N : Int) - 1 - ((m % N : Nat) : Int))
        + (-((m / N : Nat) : Int) - 1) * (N : Int) := by
      have : (m : Int) = (N : Int) * ((m / N : Nat) : Int) + ((m % N : Nat) : Int) := by
        exact_mod_cast hdm.symm
      linarith
    rw [key, Int.add_mul_emod_self, Int.emod_eq_of_lt (by omega) (by omega)]
    omega

theorem land_255 (x : Int) : Int.land x 255 = x % 256 := land_two_pow_sub_one x 8

theorem land_3 (x : Int) : Int.land x 3 = x % 4 := land_two_pow_sub_one x 2

/-- The four cases of `Gradient`, by the value of `hashValue & 3`. -/
theorem Gradient_cases (hashValue : Int) (x z : ℚ) :
    (Int.land hashValue 3 = 0 ∧ Terrain.Gradient hashValue x z = x + z) ∨
    (Int.land hashValue 3 = 1 ∧ Terrain.Gradient hashValue x z = -x + z) ∨
    (Int.land hashValue 3 = 2 ∧ Terrain.Gradient hashValue x z = z + -x) ∨
    (Int.land hashValue 3 = 3 ∧ Terrain.Gradient hashValue x z = -z + -x) := by
  have h := land_3 hashValue
  have h0 : 0 ≤ hashValue % 4 := Int.emod_nonneg _ (by norm_num)
  have h4 : hashValue % 4 < 4 := Int.emod_lt_of_pos _ (by norm_num)
  have hc : hashValue % 4 = 0 ∨ hashValue % 4 = 1 ∨ hashValue % 4 = 2 ∨ hashValue % 4 = 3 := by
    omega
  unfold Terrain.Gradient
  rw [h]
  have l01 : Int.land 0 1 = 0 := by decide!
  have l02 : Int.land 0 2 = 0 := by decide!
  have l11 : Int.land 1 1 = 1 := by decide!
  have l12 : Int.land 1 2 = 0 := by decide!
  have l21 : Int.land 2 1 = 0 := by decide!
  have l22 : Int.land 2 2 = 2 := by decide!
  have l31 : Int.land 3 1 = 1 := by decide!
  have l32 : Int.land 3 2 = 2 := by decide!
  rcases hc with e | e | e | e <;> rw [e]
  · left; exact ⟨rfl, by simp [l01, l02]⟩
  · right; left; exact ⟨rfl, by simp [l11, l12]⟩
  · right; right; left; exact ⟨rfl, by simp [l21, l22]⟩
  · right; right; right; exact ⟨rfl, by simp [l31, l32]⟩

/-- Claim C26, as the code has it: the four values `0, 1, 2, 3` of `hashValue & 3`
give the dot products of the offset `(x, z)` with `(1, 1)`, `(-1, 1)`, `(-1, 1)` and
`(-1, -1)`.  The hash values `1` and `2` choose the same direction, so only three
directions are distinct, and no hash value gives the direction `(1, -1)`: at the
offset `(1, -1)`, where that direction has the dot product `2`, `Gradient` never
returns `2`. -/
theorem Gradient_hash_two_repeats_hash_one :
    (∀ (hashValue : Int) (x z : ℚ),
      (Int.land hashValue 3 = 0 → Terrain.Gradient hashValue x z = 1 * x + 1 * z) ∧
      (Int.land hashValue 3 = 1 → Terrain.Gradient hashValue x z = (-1) * x + 1 * z) ∧
      (Int.land hashValue 3 = 2 → Terrain.Gradient hashValue x z = (-1) * x + 1 * z) ∧
      (Int.land hashValue 3 = 3 → Terrain.Gradient hashValue x z = (-1) * x + (-1) * z)) ∧
    (∀ x z : ℚ, Terrain.Gradient 2 x z = Terrain.Gradient 1 x z) ∧
    (∀ hashValue : Int, Terrain.Gradient hashValue 1 (-1) ≠ 1 * 1 + (-1) * (-1)) ∧
    Terrain.Gradient 2 1 0 = -1 ∧ Terrain.Gradient 1 1 0 = -1 := by
  refine ⟨?_, ?_, ?_, ?_, ?_⟩
  · intro hashValue x z
    rcases Gradient_cases hashValue x z with h | h | h | h <;>
      refine ⟨?_, ?_, ?_, ?_⟩ <;> intro h' <;> rw [h.1] at h' <;>
      first
        | (exact absurd h' (by decide))
        | (rw [h.2]; ring)
  · intro x z
    rcases Gradient_cases 2 x z with h | h | h | h <;>
      rcases Gradient_cases 1 x z with k | k | k | k <;>
      first
        | (exact absurd h.1 (by decide!))
        | (exact absurd k.1 (by decide!))
        | (rw [h.2, k.2]; ring)
  · intro hashValue
    rcases Gradient_cases hashValue 1 (-1) with h | h | h | h <;> rw [h.2] <;> norm_num
  · decide!
  · decide!
/-- The loop of the constructor after `k` passes over a table of 512 zeros: the
table has 512 entries, and entry `j` is `shuffled[j mod 256]` when `j mod 256 < k`
and `0` otherwise. -/
theorem table_fold (shuffled : List Int) (assigned : List Int) (hlen0 : assigned.length = 512)
    (hzero : ∀ j : Nat, j < 512 → assigned[j]? = some 0) :
    ∀ k : Nat, k ≤ 256 →
      ((List.range k).foldl
        (fun (tbl : List Int) (i : Nat) =>
          (tbl.set i (shuffled.getD i 0)).set (i + 256) (shuffled.getD i 0))
        assigned).length = 512 ∧
      ∀ j : Nat, j < 512 →
        ((List.range k).foldl
          (fun (tbl : List Int) (i : Nat) =>
            (tbl.set i (shuffled.getD i 0)).set (i + 256) (shuffled.getD i 0))
          assigned)[j]? =
          some (if j % 256 < k then shuffled.getD (j % 256) 0 else 0) := by
  intro k
  induction k with
  | zero =>
    intro _
    refine ⟨by simpa using hlen0, ?_⟩
    intro j hj
    simpa using hzero j hj
  | succ k ih =>
    intro hk
    obtain ⟨hlen, hget⟩ := ih (by omega)
    rw [List.range_succ, List.foldl_append]
    simp only [List.foldl_cons, List.foldl_nil]
    refine ⟨by simp only [List.length_set, hlen], ?_⟩
    intro j hj
    rw [List.getElem?_set, List.getElem?_set]
    simp only [List.length_set, hlen]
    by_cases h1 : k + 256 = j
    · have e : j % 256 = k := by omega
      rw [if_pos h1, if_pos (by omega), e, if_pos (by omega)]
    · by_cases h2 : k = j
      · have e : j % 256 = k := by omega
        rw [if_neg h1, if_pos h2, if_pos (by omega), e, if_pos (by omega)]
      · rw [if_neg h1, if_neg h2, hget j hj]
        have : j % 256 ≠ k := by omega
        congr 1
        by_cases h3 : j % 256 < k
        · rw [if_pos h3, if_pos (by omega)]
        · rw [if_neg h3, if_neg (by omega)]

/-- The table the constructor builds from a rearrangement of `0, ..., 255`: 512
entries, each in `0..255`, the second half a copy of the first. -/
theorem new_table (shuffled : List Int) (hperm : shuffled.Perm baseIndices)
    (worldExtent baseElevation peakElevation : ℚ) :
    (Terrain.new shuffled worldExtent baseElevation peakElevation).m_permutationTable.length
        = 512 ∧
      (∀ e ∈ (Terrain.new shuffled worldExtent baseElevation peakElevation).m_permutationTable,
        0 ≤ e ∧ e ≤ 255) ∧
      ∀ j : Nat, j < 256 →
        (Terrain.new shuffled worldExtent baseElevation peakElevation).m_permutationTable[j + 256]?
          = (Terrain.new shuffled worldExtent baseElevation peakElevation).m_permutationTable[j]? := by
  obtain ⟨hlen, hget⟩ := table_fold shuffled (List.replicate 512 0)
    (List.length_replicate _ _) (fun j hj => by rw [List.getElem?_replicate, if_pos hj]) 256
    (le_refl _)
  have hslen : shuffled.length = 256 := by
    rw [hperm.length_eq, baseIndices, List.length_map, List.length_range]
  have htbl : (Terrain.new shuffled worldExtent baseElevation peakElevation).m_permutationTable
      = (List.range 256).foldl
        (fun (tbl : List Int) (i : Nat) =>
          (tbl.set i (shuffled.getD i 0)).set (i + 256) (shuffled.getD i 0))
        (List.replicate 512 0) := by
    simp only [Terrain.new]
  rw [htbl]
  generalize (List.range 256).foldl
        (fun (tbl : List Int) (i : Nat) =>
          (tbl.set i (shuffled.getD i 0)).set (i + 256) (shuffled.getD i 0))
        (List.replicate 512 0) = tbl at hlen hget
  refine ⟨hlen, ?_, ?_⟩
  · intro e he
    obtain ⟨j, hj, rfl⟩ := List.getElem_of_mem he
    have h2 := hget j (by omega)
    rw [List.getElem?_eq_getElem hj, if_pos (by omega)] at h2
    rw [Option.some.inj h2]
    have hm : shuffled.getD (j % 256) 0 ∈ shuffled := by
      rw [List.getD_eq_getElem _ _ (by omega)]
      exact List.getElem_mem _
    have hm2 := hperm.mem_iff.mp hm
    simp only [baseIndices, List.mem_map, List.mem_range] at hm2
    obtain ⟨i, hi, hie⟩ := hm2
    omega
  · intro j hj
    rw [hget (j + 256) (by omega), hget j (by omega)]
    have : (j + 256) % 256 = j % 256 := by omega
    rw [this]

/-- A read of a 512-entry table with entries in `0..255` at an index in `0..511`
gives an entry in `0..255`. -/
theorem permutationAt_defined (t : Terrain) (hlen : t.m_permutationTable.length = 512)
    (hentries : ∀ e ∈ t.m_permutationTable, 0 ≤ e ∧ e ≤ 255) (index : Int)
    (h0 : 0 ≤ index) (h1 : index ≤ 511) :
    ∃ e, t.permutationAt index = some e ∧ 0 ≤ e ∧ e ≤ 255 := by
  have hi : index.toNat < t.m_permutationTable.length := by omega
  refine ⟨t.m_permutationTable[index.toNat], ?_, hentries _ (List.getElem_mem _)⟩
  unfold Terrain.permutationAt
  rw [if_pos h0, List.getElem?_eq_getElem hi]

/-- The value `x & 255` lies in `0..255`. -/
theorem land_255_range (x : Int) : 0 ≤ Int.land x 255 ∧ Int.land x 255 ≤ 255 := by
  rw [land_255]
  have h0 : 0 ≤ x % 256 := Int.emod_nonneg _ (by norm_num)
  have h4 : x % 256 < 256 := Int.emod_lt_of_pos _ (by norm_num)
  omega

/-- The reads of `PerlinNoise` on a 512-entry table with entries in `0..255`: the
six indices lie in `0..511`, whatever the conversions give. -/
theorem PerlinNoise_indices_defined (toInt : ℚ → Int) (t : Terrain)
    (hlen : t.m_permutationTable.length = 512)
    (hentries : ∀ e ∈ t.m_permutationTable, 0 ≤ e ∧ e ≤ 255) (x z : ℚ) :
    ∃ atX atX1 : Int,
      t.permutationAt (Int.land (toInt (⌊x⌋ : ℚ)) 255) = some atX ∧
      t.permutationAt (Int.land (toInt (⌊x⌋ : ℚ)) 255 + 1) = some atX1 ∧
      (0 ≤ atX ∧ atX ≤ 255) ∧ (0 ≤ atX1 ∧ atX1 ≤ 255) ∧
      Terrain.PerlinNoise.indices toInt t x z =
        some [Int.land (toInt (⌊x⌋ : ℚ)) 255, Int.land (toInt (⌊x⌋ : ℚ)) 255 + 1,
          atX + Int.land (toInt (⌊z⌋ : ℚ)) 255, atX1 + Int.land (toInt (⌊z⌋ : ℚ)) 255,
          atX + Int.land (toInt (⌊z⌋ : ℚ)) 255 + 1,
          atX1 + Int.land (toInt (⌊z⌋ : ℚ)) 255 + 1] := by
  have hx := land_255_range (toInt (⌊x⌋ : ℚ))
  obtain ⟨atX, e1, r1⟩ := permutationAt_defined t hlen hentries _ hx.1 (by omega)
  obtain ⟨atX1, e2, r2⟩ := permutationAt_defined t hlen hentries
    (Int.land (toInt (⌊x⌋ : ℚ)) 255 + 1) (by omega) (by omega)
  refine ⟨atX, atX1, e1, e2, r1, r2, ?_⟩
  unfold Terrain.PerlinNoise.indices
  simp only []
  rw [e1, e2]
  rfl
/-- On `[0, 1]` the fade curve stays in `[0, 1]`. -/
theorem Smoothstep_mem_unit (t : ℚ) (h0 : 0 ≤ t) (h1 : t ≤ 1) :
    0 ≤ Terrain.Smoothstep t ∧ Terrain.Smoothstep t ≤ 1 := by
  unfold Terrain.Smoothstep
  have hq : 0 ≤ t * (t * 6 - 15) + 10 := by nlinarith [sq_nonneg (t - 5 / 4)]
  have ht3 : 0 ≤ t * t * t := by positivity
  constructor
  · exact mul_nonneg ht3 hq
  · have hs : 0 ≤ 1 - t := by linarith
    have hq2 : 0 ≤ (1 - t) * ((1 - t) * 6 - 15) + 10 := by nlinarith [sq_nonneg ((1 - t) - 5 / 4)]
    have hs3 : 0 ≤ (1 - t) * (1 - t) * (1 - t) := by positivity
    have key : 1 - t * t * t * (t * (t * 6 - 15) + 10)
        = (1 - t) * (1 - t) * (1 - t) * ((1 - t) * ((1 - t) * 6 - 15) + 10) := by ring
    have := mul_nonneg hs3 hq2
    linarith

/-- The weight the fade curve gives to the two ends of a cell side: the blend of
the distances `t` and `1 - t` to the two ends never exceeds one half. -/
theorem Smoothstep_blend (t : ℚ) :
    t + Terrain.Smoothstep t * (1 - 2 * t) ≤ 1 / 2 := by
  unfold Terrain.Smoothstep
  have key : 1 / 2 - (t + t * t * t * (t * (t * 6 - 15) + 10) * (1 - 2 * t))
      = 2 * (t - 1 / 2) ^ 2 * (6 * (t * (1 - t)) ^ 2 + 2 * (t * (1 - t)) + 1) := by ring
  have h1 : 0 ≤ 6 * (t * (1 - t)) ^ 2 + 2 * (t * (1 - t)) + 1 := by
    nlinarith [sq_nonneg (t * (1 - t) + 1 / 6)]
  have h2 : 0 ≤ 2 * (t - 1 / 2) ^ 2 * (6 * (t * (1 - t)) ^ 2 + 2 * (t * (1 - t)) + 1) :=
    mul_nonneg (by positivity) h1
  linarith

/-- A gradient is at most the sum of the sizes of the two offsets. -/
theorem Gradient_abs_le (hashValue : Int) (x z : ℚ) :
    |Terrain.Gradient hashValue x z| ≤ |x| + |z| := by
  rw [abs_le]
  have hx1 := le_abs_self x
  have hx2 := neg_abs_le x
  have hz1 := le_abs_self z
  have hz2 := neg_abs_le z
  rcases Gradient_cases hashValue x z with h | h | h | h <;> rw [h.2] <;>
    constructor <;> linarith

/-- The blend of four corner values, each bounded by the distance sum of its
corner, stays in `[-1, 1]`. -/
theorem Interpolate_corners (g00 g10 g01 g11 u v X Z : ℚ) (hu0 : 0 ≤ u) (hu1 : u ≤ 1)
    (hv0 : 0 ≤ v) (hv1 : v ≤ 1)
    (h00 : |g00| ≤ X + Z) (h10 : |g10| ≤ (1 - X) + Z) (h01 : |g01| ≤ X + (1 - Z))
    (h11 : |g11| ≤ (1 - X) + (1 - Z))
    (hX : X + u * (1 - 2 * X) ≤ 1 / 2) (hZ : Z + v * (1 - 2 * Z) ≤ 1 / 2) :
    -1 ≤ Terrain.Interpolate (Terrain.Interpolate g00 g10 u) (Terrain.Interpolate g01 g11 u) v ∧
      Terrain.Interpolate (Terrain.Interpolate g00 g10 u) (Terrain.Interpolate g01 g11 u) v
        ≤ 1 := by
  unfold Terrain.Interpolate
  rw [abs_le] at h00 h10 h01 h11
  have w00 : 0 ≤ (1 - v) * (1 - u) := mul_nonneg (by linarith) (by linarith)
  have w10 : 0 ≤ (1 - v) * u := mul_nonneg (by linarith) hu0
  have w01 : 0 ≤ v * (1 - u) := mul_nonneg hv0 (by linarith)
  have w11 : 0 ≤ v * u := mul_nonneg hv0 hu0
  have a1 := mul_le_mul_of_nonneg_left h00.2 w00
  have a2 := mul_le_mul_of_nonneg_left h10.2 w10
  have a3 := mul_le_mul_of_nonneg_left h01.2 w01
  have a4 := mul_le_mul_of_nonneg_left h11.2 w11
  have b1 := mul_le_mul_of_nonneg_left h00.1 w00
  have b2 := mul_le_mul_of_nonneg_left h10.1 w10
  have b3 := mul_le_mul_of_nonneg_left h01.1 w01
  have b4 := mul_le_mul_of_nonneg_left h11.1 w11
  constructor <;> linarith

/-- On a 512-entry table with entries in `0..255`, `PerlinNoise` returns a value,
and the value lies in `[-1, 1]`, for every coordinate pair and whatever the
conversions of the floors to `int` give. -/
theorem PerlinNoise_bounded (toInt : ℚ → Int) (t : Terrain)
    (hlen : t.m_permutationTable.length = 512)
    (hentries : ∀ e ∈ t.m_permutationTable, 0 ≤ e ∧ e ≤ 255) (x z : ℚ) :
    ∃ r, t.PerlinNoise toInt x z = some r ∧ -1 ≤ r ∧ r ≤ 1 := by
  obtain ⟨atX, atX1, e1, e2, r1, r2, -⟩ := PerlinNoise_indices_defined toInt t hlen hentries x z
  have hz := land_255_range (toInt (⌊z⌋ : ℚ))
  obtain ⟨atA, e3, -⟩ := permutationAt_defined t hlen hentries
    (atX + Int.land (toInt (⌊z⌋ : ℚ)) 255) (by omega) (by omega)
  obtain ⟨atB, e4, -⟩ := permutationAt_defined t hlen hentries
    (atX1 + Int.land (toInt (⌊z⌋ : ℚ)) 255) (by omega) (by omega)
  obtain ⟨atA1, e5, -⟩ := permutationAt_defined t hlen hentries
    (atX + Int.land (toInt (⌊z⌋ : ℚ)) 255 + 1) (by omega) (by omega)
  obtain ⟨atB1, e6, -⟩ := permutationAt_defined t hlen hentries
    (atX1 + Int.land (toInt (⌊z⌋ : ℚ)) 255 + 1) (by omega) (by omega)
  have fx0 : 0 ≤ x - (⌊x⌋ : ℚ) := by linarith [Int.floor_le x]
  have fx1 : x - (⌊x⌋ : ℚ) ≤ 1 := by linarith [Int.lt_floor_add_one x]
  have fz0 : 0 ≤ z - (⌊z⌋ : ℚ) := by linarith [Int.floor_le z]
  have fz1 : z - (⌊z⌋ : ℚ) ≤ 1 := by linarith [Int.lt_floor_add_one z]
  have hu := Smoothstep_mem_unit _ fx0 fx1
  have hv := Smoothstep_mem_unit _ fz0 fz1
  have g00 := Gradient_abs_le atA (x - (⌊x⌋ : ℚ)) (z - (⌊z⌋ : ℚ))
  have g10 := Gradient_abs_le atB (x - (⌊x⌋ : ℚ) - 1) (z - (⌊z⌋ : ℚ))
  have g01 := Gradient_abs_le atA1 (x - (⌊x⌋ : ℚ)) (z - (⌊z⌋ : ℚ) - 1)
  have g11 := Gradient_abs_le atB1 (x - (⌊x⌋ : ℚ) - 1) (z - (⌊z⌋ : ℚ) - 1)
  rw [abs_of_nonneg fx0, abs_of_nonneg fz0] at g00
  rw [abs_of_nonpos (by linarith : x - (⌊x⌋ : ℚ) - 1 ≤ 0), abs_of_nonneg fz0] at g10
  rw [abs_of_nonneg fx0, abs_of_nonpos (by linarith : z - (⌊z⌋ : ℚ) - 1 ≤ 0)] at g01
  rw [abs_of_nonpos (by linarith : x - (⌊x⌋ : ℚ) - 1 ≤ 0),
    abs_of_nonpos (by linarith : z - (⌊z⌋ : ℚ) - 1 ≤ 0)] at g11
  have key := Interpolate_corners (Terrain.Gradient atA (x - (⌊x⌋ : ℚ)) (z - (⌊z⌋ : ℚ)))
    (Terrain.Gradient atB (x - (⌊x⌋ : ℚ) - 1) (z - (⌊z⌋ : ℚ)))
    (Terrain.Gradient atA1 (x - (⌊x⌋ : ℚ)) (z - (⌊z⌋ : ℚ) - 1))
    (Terrain.Gradient atB1 (x - (⌊x⌋ : ℚ) - 1) (z - (⌊z⌋ : ℚ) - 1))
    (Terrain.Smoothstep (x - (⌊x⌋ : ℚ))) (Terrain.Smoothstep (z - (⌊z⌋ : ℚ)))
    (x - (⌊x⌋ : ℚ)) (z - (⌊z⌋ : ℚ)) hu.1 hu.2 hv.1 hv.2
    g00 (by linarith) (by linarith) (by linarith) (Smoothstep_blend _) (Smoothstep_blend _)
  refine ⟨_, ?_, key⟩
  unfold Terrain.PerlinNoise
  simp only []
  rw [e1, e2]
  simp only [Option.some_bind]
  rw [e3, e4, e5, e6]
  rfl
/-- When every result is defined and satisfies `P`, `allDefined` returns the values
in order, and they satisfy `P`. -/
theorem allDefined_map {α : Type} (f : α → Option ℚ) (P : ℚ → Prop) :
    ∀ cells : List α, (∀ c ∈ cells, ∃ v, f c = some v ∧ P v) →
      ∃ values, allDefined (cells.map f) = some values ∧ values.length = cells.length ∧
        ∀ v ∈ values, P v := by
  intro cells
  induction cells with
  | nil =>
    intro _
    exact ⟨[], rfl, rfl, by simp⟩
  | cons c rest ih =>
    intro h
    obtain ⟨v, hv, hP⟩ := h c (List.mem_cons_self _ _)
    obtain ⟨values, hvals, hlen, hall⟩ := ih (fun c' hc' => h c' (List.mem_cons_of_mem _ hc'))
    refine ⟨v :: values, ?_, by simp [hlen], ?_⟩
    · simp only [List.map_cons, hv, allDefined, hvals, Option.map_some']
    · intro w hw
      rcases List.mem_cons.mp hw with rfl | hw'
      · exact hP
      · exact hall w hw'

/-- The two nested loops visit `width * height` cells, each inside the grid. -/
theorem gridCells_spec (width height : Nat) :
    (gridCells width height).length = width * height ∧
      ∀ c ∈ gridCells width height, c.1 < width ∧ c.2 < height := by
  unfold gridCells
  constructor
  · induction height with
    | zero => simp
    | succ h ih =>
      rw [List.range_succ, List.flatMap_append, List.length_append, ih]
      simp [Nat.mul_succ]
  · intro c hc
    simp only [List.mem_flatMap, List.mem_map, List.mem_range] at hc
    obtain ⟨z, hz, x, hx, rfl⟩ := hc
    exact ⟨hx, hz⟩

/-- The octave loop on a 512-entry table with entries in `0..255`: it ends, the
amplitude stays positive, the sum stays within the sum of the amplitudes, and the
sum of the amplitudes grows with every pass. -/
theorem octaves_spec (toInt : ℚ → Int) (t : Terrain)
    (hlen : t.m_permutationTable.length = 512)
    (hentries : ∀ e ∈ t.m_permutationTable, 0 ≤ e ∧ e ≤ 255) (nx nz : ℚ) :
    ∀ (k : Nat) (s : OctaveState), 0 < s.amplitude → |s.accumulated| ≤ s.amplitudeSum →
      ∃ s', GenerateProceduralHeightmap.octaves toInt t nx nz k s = some s' ∧
        0 < s'.amplitude ∧ |s'.accumulated| ≤ s'.amplitudeSum ∧
        s.amplitudeSum ≤ s'.amplitudeSum ∧ (0 < k → s.amplitudeSum < s'.amplitudeSum) := by
  intro k
  induction k with
  | zero =>
    intro s ha hs
    exact ⟨s, rfl, ha, hs, le_refl _, fun h => absurd h (by decide)⟩
  | succ k ih =>
    intro s ha hs
    obtain ⟨noise, hn, hn1, hn2⟩ :=
      PerlinNoise_bounded toInt t hlen hentries (nx * s.frequency) (nz * s.frequency)
    have hacc : |s.accumulated + noise * s.amplitude| ≤ s.amplitudeSum + s.amplitude := by
      rw [abs_le] at hs ⊢
      have h1 : noise * s.amplitude ≤ 1 * s.amplitude := mul_le_mul_of_nonneg_right hn2 ha.le
      have h2 : (-1) * s.amplitude ≤ noise * s.amplitude :=
        mul_le_mul_of_nonneg_right hn1 ha.le
      constructor <;> linarith
    obtain ⟨s', hs', h1, h2, h3, -⟩ := ih
      { accumulated := s.accumulated + noise * s.amplitude
        amplitudeSum := s.amplitudeSum + s.amplitude
        amplitude := s.amplitude * (1 / 2)
        frequency := s.frequency * 2 } (by simp only []; linarith) hacc
    refine ⟨s', ?_, h1, h2, ?_, ?_⟩
    · simp only [GenerateProceduralHeightmap.octaves, hn, Option.some_bind]
      exact hs'
    · simp only [] at h3
      linarith
    · intro _
      simp only [] at h3
      linarith

/-- The `value` of a cell on a 512-entry table with entries in `0..255`, for at
least one octave: it is defined and lies in `[0, 1]`. -/
theorem value_mem_unit (toInt : ℚ → Int) (t : Terrain)
    (hlen : t.m_permutationTable.length = 512)
    (hentries : ∀ e ∈ t.m_permutationTable, 0 ≤ e ∧ e ≤ 255) (width height : Nat)
    (baseFrequency : ℚ) (octaveCount : Int) (ho : 1 ≤ octaveCount) (x z : Nat) :
    ∃ v, GenerateProceduralHeightmap.value toInt t width height baseFrequency octaveCount x z
        = some v ∧ 0 ≤ v ∧ v ≤ 1 := by
  obtain ⟨s', hs', -, h2, -, h4⟩ := octaves_spec toInt t hlen hentries
    ((x : ℚ) / (width : ℚ)) ((z : ℚ) / (height : ℚ)) octaveCount.toNat
    { accumulated := 0, amplitude := 1, frequency := baseFrequency, amplitudeSum := 0 }
    (by norm_num) (by norm_num)
  have hpos : 0 < s'.amplitudeSum := h4 (by omega)
  refine ⟨(s'.accumulated / s'.amplitudeSum + 1) * (1 / 2), ?_, ?_, ?_⟩
  · simp only [GenerateProceduralHeightmap.value, hs', Option.map_some']
  · rw [abs_le] at h2
    have : -1 ≤ s'.accumulated / s'.amplitudeSum := by
      rw [le_div_iff₀ hpos]
      linarith
    linarith
  · rw [abs_le] at h2
    have : s'.accumulated / s'.amplitudeSum ≤ 1 := by
      rw [div_le_iff₀ hpos]
      linarith
    linarith

/-- The running maximum `highest = (std::max)(highest, value)`: an upper bound of
the start value and of every value, and one of them. -/
theorem foldl_max_spec :
    ∀ (values : List ℚ) (start : ℚ),
      start ≤ values.foldl (fun (highest value : ℚ) => max highest value) start ∧
      (∀ v ∈ values, v ≤ values.foldl (fun (highest value : ℚ) => max highest value) start) ∧
      (values.foldl (fun (highest value : ℚ) => max highest value) start = start ∨
        values.foldl (fun (highest value : ℚ) => max highest value) start ∈ values) := by
  intro values
  induction values with
  | nil => intro start; simp
  | cons a rest ih =>
    intro start
    obtain ⟨h1, h2, h3⟩ := ih (max start a)
    simp only [List.foldl_cons]
    refine ⟨le_trans (le_max_left _ _) h1, ?_, ?_⟩
    · intro v hv
      rcases List.mem_cons.mp hv with rfl | hv'
      · exact le_trans (le_max_right _ _) h1
      · exact h2 v hv'
    · rcases h3 with h | h
      · rcases max_choice start a with hm | hm
        · left; rw [h, hm]
        · right; rw [h, hm]; exact List.mem_cons_self _ _
      · right; exact List.mem_cons_of_mem _ h

/-- The running minimum `lowest = (std::min)(lowest, value)`: a lower bound of the
start value and of every value, and one of them. -/
theorem foldl_min_spec :
    ∀ (values : List ℚ) (start : ℚ),
      values.foldl (fun (lowest value : ℚ) => min lowest value) start ≤ start ∧
      (∀ v ∈ values, values.foldl (fun (lowest value : ℚ) => min lowest value) start ≤ v) ∧
      (values.foldl (fun (lowest value : ℚ) => min lowest value) start = start ∨
        values.foldl (fun (lowest value : ℚ) => min lowest value) start ∈ values) := by
  intro values
  induction values with
  | nil => intro start; simp
  | cons a rest ih =>
    intro start
    obtain ⟨h1, h2, h3⟩ := ih (min start a)
    simp only [List.foldl_cons]
    refine ⟨le_trans h1 (min_le_left _ _), ?_, ?_⟩
    · intro v hv
      rcases List.mem_cons.mp hv with rfl | hv'
      · exact le_trans h1 (min_le_right _ _)
      · exact h2 v hv'
    · rcases h3 with h | h
      · rcases min_choice start a with hm | hm
        · left; rw [h, hm]
        · right; rw [h, hm]; exact List.mem_cons_self _ _
      · right; exact List.mem_cons_of_mem _ h

/-- On a non-empty list of values in `[0, 1]` the running maximum from `0` and the
running minimum from `1` are values of the list. -/
theorem highest_lowest_mem (values : List ℚ) (hne : values ≠ [])
    (hunit : ∀ v ∈ values, 0 ≤ v ∧ v ≤ 1) :
    values.foldl (fun (highest value : ℚ) => max highest value) 0 ∈ values ∧
      values.foldl (fun (lowest value : ℚ) => min lowest value) 1 ∈ values := by
  obtain ⟨a, ha⟩ := List.exists_mem_of_ne_nil values hne
  constructor
  · obtain ⟨-, h2, h3⟩ := foldl_max_spec values 0
    rcases h3 with h | h
    · have h4 := h2 a ha
      rw [h] at h4 ⊢
      have : a = 0 := le_antisymm h4 (hunit a ha).1
      rw [← this]
      exact ha
    · exact h
  · obtain ⟨-, h2, h3⟩ := foldl_min_spec values 1
    rcases h3 with h | h
    · have h4 := h2 a ha
      rw [h] at h4 ⊢
      have : a = 1 := le_antisymm (hunit a ha).2 h4
      rw [← this]
      exact ha
    · exact h
/-- Claim C30: with the table the constructor builds from any shuffle of
`0, ..., 255`, the six table indices `PerlinNoise` computes, `gridX`, `gridX + 1`,
`a`, `b`, `a + 1` and `b + 1`, lie in `0..511` for every coordinate pair, negative
coordinates included, and whatever value the conversion of the floor to `int`
gives; every read finds an entry and `PerlinNoise` returns a value. -/
theorem PerlinNoise_indices_within_table (toInt : ℚ → Int) (shuffled : List Int)
    (hperm : shuffled.Perm baseIndices) (worldExtent baseElevation peakElevation : ℚ)
    (t : Terrain)
    (htable : t.m_permutationTable
      = (Terrain.new shuffled worldExtent baseElevation peakElevation).m_permutationTable)
    (x z : ℚ) :
    ∃ indices : List Int,
      Terrain.PerlinNoise.indices toInt t x z = some indices ∧ indices.length = 6 ∧
      (∀ index ∈ indices, 0 ≤ index ∧ index ≤ 511 ∧ ∃ e, t.permutationAt index = some e) ∧
      ∃ r, t.PerlinNoise toInt x z = some r := by
  obtain ⟨hlen0, hentries0, -⟩ := new_table shuffled hperm worldExtent baseElevation peakElevation
  rw [← htable] at hlen0 hentries0
  obtain ⟨atX, atX1, -, -, r1, r2, hidx⟩ :=
    PerlinNoise_indices_defined toInt t hlen0 hentries0 x z
  have hx := land_255_range (toInt (⌊x⌋ : ℚ))
  have hz := land_255_range (toInt (⌊z⌋ : ℚ))
  obtain ⟨r, hr, -⟩ := PerlinNoise_bounded toInt t hlen0 hentries0 x z
  refine ⟨_, hidx, rfl, ?_, r, hr⟩
  intro index hindex
  have hrange : 0 ≤ index ∧ index ≤ 511 := by
    simp only [List.mem_cons, List.mem_singleton, List.not_mem_nil, or_false] at hindex
    rcases hindex with h | h | h | h | h | h <;> rw [h] <;> constructor <;> omega
  obtain ⟨e, he, -⟩ := permutationAt_defined t hlen0 hentries0 index hrange.1 hrange.2
  exact ⟨hrange.1, hrange.2, e, he⟩

/-- Witness of C30: the unshuffled table and the coordinate pair `(-1/2, 3/2)`. -/
theorem PerlinNoise_indices_within_table_witness :
    ∃ indices : List Int,
      Terrain.PerlinNoise.indices floatToInt (Terrain.new baseIndices 1 0 100) (-1 / 2) (3 / 2)
        = some indices ∧ indices.length = 6 ∧
      (∀ index ∈ indices, 0 ≤ index ∧ index ≤ 511 ∧
        ∃ e, (Terrain.new baseIndices 1 0 100).permutationAt index = some e) ∧
      ∃ r, (Terrain.new baseIndices 1 0 100).PerlinNoise floatToInt (-1 / 2) (3 / 2) = some r :=
  PerlinNoise_indices_within_table floatToInt baseIndices (List.Perm.refl _) 1 0 100
    (Terrain.new baseIndices 1 0 100) rfl (-1 / 2) (3 / 2)

/-- Claim C29: for every table of 512 entries in `0..255` and every coordinate
pair, `PerlinNoise` returns a value in `[-1, 1]` (exact arithmetic, whatever the
conversions of the floors to `int` give); hence every sample
`noiseValue * 0.5 + 0.5` that `LoadHeightmapDDS` writes lies in `[0, 1]`, and for
at least one octave every value `(accumulated / amplitudeSum + 1) * 0.5` that
`GenerateProceduralHeightmap` computes before the rescaling lies in `[0, 1]`. -/
theorem PerlinNoise_within_unit (t : Terrain) (hlen : t.m_permutationTable.length = 512)
    (hentries : ∀ e ∈ t.m_permutationTable, 0 ≤ e ∧ e ≤ 255) :
    (∀ (toInt : ℚ → Int) (x z : ℚ), ∃ r, t.PerlinNoise toInt x z = some r ∧ -1 ≤ r ∧ r ≤ 1) ∧
    (∀ (toInt : ℚ → Int) (resourceWidth resourceHeight : Nat),
      ∃ t', t.LoadHeightmapDDS toInt (some (resourceWidth, resourceHeight)) = some (true, t') ∧
        ∀ s ∈ t'.m_heightfield, 0 ≤ s ∧ s ≤ 1) ∧
    (∀ (toInt : ℚ → Int) (width height : Nat) (baseFrequency : ℚ) (octaveCount : Int),
      1 ≤ octaveCount →
      ∃ values, GenerateProceduralHeightmap.values toInt t width height baseFrequency octaveCount
          = some values ∧ values.length = width * height ∧ ∀ v ∈ values, 0 ≤ v ∧ v ≤ 1) := by
  refine ⟨fun toInt x z => PerlinNoise_bounded toInt t hlen hentries x z, ?_, ?_⟩
  · intro toInt resourceWidth resourceHeight
    obtain ⟨samples, hs, -, hunit⟩ := allDefined_map
      (fun (cell : Nat × Nat) =>
        (t.PerlinNoise toInt ((cell.1 : ℚ) / ((resourceWidth % 2 ^ 32 : Nat) : ℚ) * 4)
          ((cell.2 : ℚ) / (resourceHeight : ℚ) * 4)).map fun (noiseValue : ℚ) =>
            noiseValue * (1 / 2) + 1 / 2)
      (fun s => 0 ≤ s ∧ s ≤ 1) (gridCells (resourceWidth % 2 ^ 32) resourceHeight)
      (by
        intro c _
        obtain ⟨r, hr, h1, h2⟩ := PerlinNoise_bounded toInt t hlen hentries
          ((c.1 : ℚ) / ((resourceWidth % 2 ^ 32 : Nat) : ℚ) * 4)
          ((c.2 : ℚ) / (resourceHeight : ℚ) * 4)
        refine ⟨r * (1 / 2) + 1 / 2, ?_, by linarith, by linarith⟩
        simp only [hr, Option.map_some'])
    refine ⟨{ t with
        m_heightfieldWidth := resourceWidth % 2 ^ 32
        m_heightfieldHeight := resourceHeight
        m_heightfield := samples }, ?_, hunit⟩
    simp only [Terrain.LoadHeightmapDDS, hs, Option.map_some']
  · intro toInt width height baseFrequency octaveCount ho
    obtain ⟨values, hs, hl, hunit⟩ := allDefined_map
      (fun (cell : Nat × Nat) =>
        GenerateProceduralHeightmap.value toInt t width height baseFrequency octaveCount
          cell.1 cell.2)
      (fun s => 0 ≤ s ∧ s ≤ 1) (gridCells width height)
      (fun c _ => value_mem_unit toInt t hlen hentries width height baseFrequency octaveCount ho
        c.1 c.2)
    exact ⟨values, hs, by rw [hl, (gridCells_spec width height).1], hunit⟩

/-- Witness of C29: the table of the unshuffled constructor. -/
theorem PerlinNoise_within_unit_witness :
    (∀ (toInt : ℚ → Int) (x z : ℚ),
      ∃ r, (Terrain.new baseIndices 1 0 100).PerlinNoise toInt x z = some r ∧ -1 ≤ r ∧ r ≤ 1) ∧
    (∀ (toInt : ℚ → Int) (resourceWidth resourceHeight : Nat),
      ∃ t', (Terrain.new baseIndices 1 0 100).LoadHeightmapDDS toInt
          (some (resourceWidth, resourceHeight)) = some (true, t') ∧
        ∀ s ∈ t'.m_heightfield, 0 ≤ s ∧ s ≤ 1) ∧
    (∀ (toInt : ℚ → Int) (width height : Nat) (baseFrequency : ℚ) (octaveCount : Int),
      1 ≤ octaveCount →
      ∃ values, GenerateProceduralHeightmap.values toInt (Terrain.new baseIndices 1 0 100)
          width height baseFrequency octaveCount
          = some values ∧ values.length = width * height ∧ ∀ v ∈ values, 0 ≤ v ∧ v ≤ 1) :=
  PerlinNoise_within_unit (Terrain.new baseIndices 1 0 100)
    (new_table baseIndices (List.Perm.refl _) 1 0 100).1
    (new_table baseIndices (List.Perm.refl _) 1 0 100).2.1

/-- Counterexample to C21 as stated: a 1 by 1 grid, base frequency `4` and 127
octaves.  The last pass of the octave loop uses the `frequency`
`4 * 2 ^ 126 = 2 ^ 128`, which is infinite as a `float`; the noise of that pass is
NaN, and so is the one sample of the grid: the call has no result with samples in
`[0, 1]`. -/
theorem GenerateProceduralHeightmap_octave_overflow :
    1 ≤ (1 : Nat) ∧ (1 : Int) ≤ 127 ∧ (4 : ℚ) * 2 ^ (127 - 1) = 2 ^ 128 ∧
      GenerateProceduralHeightmap.frequencyOverflows 1 1 4 127 = true ∧
      (Terrain.new baseIndices 1 0 100).GenerateProceduralHeightmap floatToInt 1 1 4 127
        = none := by
  refine ⟨by decide, by decide, by norm_num, by decide!, ?_⟩
  unfold Terrain.GenerateProceduralHeightmap
  rw [if_pos (by decide!)]

/-- Claim C21, amended: on a 512-entry table with entries in `0..255`, after
`GenerateProceduralHeightmap(width, height, baseFrequency, octaveCount)` with
`width, height ≥ 1`, `octaveCount ≥ 1` and a `frequency` that stays finite up to
the last pass, `|baseFrequency| * 2 ^ (octaveCount - 1) < 2 ^ 128`, the grid holds
`width * height` samples, every sample lies in `[0, 1]`, and when two of the summed
values differ by more than `0.001` the sample `0` and the sample `1` both occur, so
that the smallest sample is `0` and the largest is `1` (sums and products
exact). -/
theorem GenerateProceduralHeightmap_normalised (toInt : ℚ → Int) (t : Terrain)
    (hlen : t.m_permutationTable.length = 512)
    (hentries : ∀ e ∈ t.m_permutationTable, 0 ≤ e ∧ e ≤ 255)
    (width height : Nat) (baseFrequency : ℚ) (octaveCount : Int)
    (hw : 1 ≤ width) (hh : 1 ≤ height) (ho : 1 ≤ octaveCount)
    (hfin : |baseFrequency| * 2 ^ (octaveCount.toNat - 1) < 2 ^ 128) :
    ∃ values t',
      GenerateProceduralHeightmap.values toInt t width height baseFrequency octaveCount
        = some values ∧
      t.GenerateProceduralHeightmap toInt width height baseFrequency octaveCount = some t' ∧
      t'.m_heightfieldWidth = width ∧ t'.m_heightfieldHeight = height ∧
      t'.m_heightfield.length = width * height ∧
      (∀ s ∈ t'.m_heightfield, 0 ≤ s ∧ s ≤ 1) ∧
      ((∃ a ∈ values, ∃ b ∈ values, a - b > 1 / 1000) →
        0 ∈ t'.m_heightfield ∧ 1 ∈ t'.m_heightfield) := by
  obtain ⟨values, hs, hl, hunit⟩ := allDefined_map
    (fun (cell : Nat × Nat) =>
      GenerateProceduralHeightmap.value toInt t width height baseFrequency octaveCount
        cell.1 cell.2)
    (fun s => 0 ≤ s ∧ s ≤ 1) (gridCells width height)
    (fun c _ => value_mem_unit toInt t hlen hentries width height baseFrequency octaveCount ho
      c.1 c.2)
  have hvl : values.length = width * height := by rw [hl, (gridCells_spec width height).1]
  have hne : values ≠ [] := by
    intro h
    rw [h] at hvl
    have : 0 < width * height := Nat.mul_pos hw hh
    simp at hvl
    omega
  obtain ⟨hhi, hlo⟩ := highest_lowest_mem values hne hunit
  obtain ⟨-, hmax, -⟩ := foldl_max_spec values 0
  obtain ⟨-, hmin, -⟩ := foldl_min_spec values 1
  have hvals : GenerateProceduralHeightmap.values toInt t width height baseFrequency octaveCount
      = some values := hs
  refine ⟨values,
    { t with
      m_heightfieldWidth := width
      m_heightfieldHeight := height
      m_heightfield :=
        if values.foldl (fun (highest value : ℚ) => max highest value) 0
            - values.foldl (fun (lowest value : ℚ) => min lowest value) 1 > 1 / 1000 then
          values.map fun (sample : ℚ) =>
            (sample - values.foldl (fun (lowest value : ℚ) => min lowest value) 1)
              / (values.foldl (fun (highest value : ℚ) => max highest value) 0
                - values.foldl (fun (lowest value : ℚ) => min lowest value) 1)
        else values }, hvals, by
    have hno : GenerateProceduralHeightmap.frequencyOverflows width height baseFrequency
        octaveCount = false := by
      unfold GenerateProceduralHeightmap.frequencyOverflows
      rw [decide_eq_false_iff_not]
      intro h
      exact absurd h.2.2 (not_le.mpr hfin)
    simp only [Terrain.GenerateProceduralHeightmap, hno, hvals, Option.map_some',
      Bool.false_eq_true, if_false], rfl, rfl, ?_, ?_, ?_⟩
  · simp only []
    split_ifs
    · rw [List.length_map, hvl]
    · exact hvl
  · simp only []
    split_ifs with hr
    · intro s hsm
      obtain ⟨v, hv, rfl⟩ := List.mem_map.mp hsm
      have hpos : 0 < values.foldl (fun (highest value : ℚ) => max highest value) 0
          - values.foldl (fun (lowest value : ℚ) => min lowest value) 1 := by linarith
      constructor
      · exact div_nonneg (by linarith [hmin v hv]) hpos.le
      · rw [div_le_one hpos]
        linarith [hmax v hv]
    · exact hunit
  · rintro ⟨a, ha, b, hb, hab⟩
    have hr : values.foldl (fun (highest value : ℚ) => max highest value) 0
        - values.foldl (fun (lowest value : ℚ) => min lowest value) 1 > 1 / 1000 := by
      linarith [hmax a ha, hmin b hb]
    have hpos : 0 < values.foldl (fun (highest value : ℚ) => max highest value) 0
        - values.foldl (fun (lowest value : ℚ) => min lowest value) 1 := by linarith
    simp only []
    rw [if_pos hr]
    constructor
    · exact List.mem_map.mpr ⟨_, hlo, by rw [sub_self, zero_div]⟩
    · exact List.mem_map.mpr ⟨_, hhi, div_self hpos.ne'⟩

/-- Witness of the amended C21: a 2 by 1 grid, base frequency `1/2`, one octave, on
the table of the unshuffled constructor.  The two summed values are `1/2` and
`1333/2048`, which differ by more than `0.001`, and the rescaled samples are `0`
and `1`. -/
theorem GenerateProceduralHeightmap_normalised_witness :
    (∃ values t',
      GenerateProceduralHeightmap.values floatToInt (Terrain.new baseIndices 1 0 100) 2 1
          (1 / 2) 1 = some values ∧
      (Terrain.new baseIndices 1 0 100).GenerateProceduralHeightmap floatToInt 2 1 (1 / 2) 1
        = some t' ∧
      t'.m_heightfieldWidth = 2 ∧ t'.m_heightfieldHeight = 1 ∧
      t'.m_heightfield.length = 2 * 1 ∧
      (∀ s ∈ t'.m_heightfield, 0 ≤ s ∧ s ≤ 1) ∧
      ((∃ a ∈ values, ∃ b ∈ values, a - b > 1 / 1000) →
        0 ∈ t'.m_heightfield ∧ 1 ∈ t'.m_heightfield)) ∧
      GenerateProceduralHeightmap.values floatToInt (Terrain.new baseIndices 1 0 100) 2 1
          (1 / 2) 1 = some [1 / 2, 1333 / 2048] ∧
      ((Terrain.new baseIndices 1 0 100).GenerateProceduralHeightmap floatToInt 2 1
          (1 / 2) 1).map (fun t' => t'.m_heightfield) = some [0, 1] :=
  ⟨GenerateProceduralHeightmap_normalised floatToInt (Terrain.new baseIndices 1 0 100)
    (new_table baseIndices (List.Perm.refl _) 1 0 100).1
    (new_table baseIndices (List.Perm.refl _) 1 0 100).2.1 2 1 (1 / 2) 1 (by decide) (by decide)
    (by decide) (by decide!), by decide!, by decide!⟩

/-! Sample indices -/

/-- The conversion `(int)n` never exceeds `n`. -/
theorem toInt32_le (n : Nat) : toInt32 n ≤ (n : Int) := by
  unfold toInt32
  split_ifs <;> omega

/-- The clamped index of `FetchHeightSample` lies inside a non-empty heightfield
of `m_heightfieldWidth * m_heightfieldHeight` samples, for all `int` arguments. -/
theorem FetchHeightSample_index_lt (t : Terrain) (hne : t.m_heightfield ≠ [])
    (hlen : t.m_heightfield.length = t.m_heightfieldWidth * t.m_heightfieldHeight)
    (xCoord zCoord : Int) :
    Terrain.FetchHeightSample.index t xCoord zCoord
      < t.m_heightfieldWidth * t.m_heightfieldHeight := by
  have hpos : 0 < t.m_heightfieldWidth * t.m_heightfieldHeight := by
    rw [← hlen]
    exact List.length_pos.mpr hne
  have hW : 0 < t.m_heightfieldWidth := Nat.pos_of_mul_pos_right hpos
  have hH : 0 < t.m_heightfieldHeight := Nat.pos_of_mul_pos_left hpos
  have h1 := toInt32_le t.m_heightfieldWidth
  have h2 := toInt32_le t.m_heightfieldHeight
  unfold Terrain.FetchHeightSample.index
  simp only []
  have hx : (max 0 (min xCoord (toInt32 t.m_heightfieldWidth - 1))).toNat
      ≤ t.m_heightfieldWidth - 1 := by omega
  have hz : (max 0 (min zCoord (toInt32 t.m_heightfieldHeight - 1))).toNat
      ≤ t.m_heightfieldHeight - 1 := by omega
  calc (max 0 (min zCoord (toInt32 t.m_heightfieldHeight - 1))).toNat * t.m_heightfieldWidth
        + (max 0 (min xCoord (toInt32 t.m_heightfieldWidth - 1))).toNat
      ≤ (t.m_heightfieldHeight - 1) * t.m_heightfieldWidth + (t.m_heightfieldWidth - 1) :=
        Nat.add_le_add (Nat.mul_le_mul_right _ hz) hx
    _ < t.m_heightfieldWidth * t.m_heightfieldHeight := by
        have : (t.m_heightfieldHeight - 1) * t.m_heightfieldWidth + t.m_heightfieldWidth
            = t.m_heightfieldWidth * t.m_heightfieldHeight := by
          rw [← Nat.succ_mul, Nat.succ_eq_add_one, Nat.sub_add_cancel hH, Nat.mul_comm]
        omega

/-- Claim C22: when the heightfield is non-empty and holds
`m_heightfieldWidth * m_heightfieldHeight` samples, the sample index that
`FetchHeightSample` forms lies in `[0, width * height)` for all `int` arguments,
and the read finds the sample there; so each of the four indices that `GetHeight`
computes through `FetchHeightSample` lies in that range, for every world
coordinate. -/
theorem GetHeight_sample_indices_in_bounds (t : Terrain) (hne : t.m_heightfield ≠ [])
    (hlen : t.m_heightfield.length = t.m_heightfieldWidth * t.m_heightfieldHeight) :
    (∀ xCoord zCoord : Int,
      Terrain.FetchHeightSample.index t xCoord zCoord
          < t.m_heightfieldWidth * t.m_heightfieldHeight ∧
        t.FetchHeightSample xCoord zCoord
          = t.m_heightfield[Terrain.FetchHeightSample.index t xCoord zCoord]? ∧
        ∃ h, t.FetchHeightSample xCoord zCoord = some h) ∧
    (∀ (worldX worldZ : ℚ) (indices : List Nat),
      Terrain.GetHeight.indices t worldX worldZ = some indices →
        ∀ index ∈ indices, index < t.m_heightfieldWidth * t.m_heightfieldHeight) := by
  constructor
  · intro xCoord zCoord
    have h := FetchHeightSample_index_lt t hne hlen xCoord zCoord
    refine ⟨h, rfl, ⟨t.m_heightfield.get ⟨Terrain.FetchHeightSample.index t xCoord zCoord, (by
      rw [hlen]; exact h)⟩, ?_⟩⟩
    show t.m_heightfield[Terrain.FetchHeightSample.index t xCoord zCoord]? = _
    rw [List.getElem?_eq_getElem (by rw [hlen]; exact h)]
    rfl
  · intro worldX worldZ indices hidx index hmem
    unfold Terrain.GetHeight.indices at hidx
    have hne' : t.m_heightfield.isEmpty = false := by
      cases h : t.m_heightfield with
      | nil => exact absurd h hne
      | cons a l => rfl
    rw [hne'] at hidx
    simp only [Bool.false_eq_true, if_false] at hidx
    split_ifs at hidx
    cases hx1 : intSucc (floorToInt (t.gridU worldX)) with
    | none => simp [hx1] at hidx
    | some x1 =>
      cases hz1 : intSucc (floorToInt (t.gridV worldZ)) with
      | none => simp [hx1, hz1] at hidx
      | some z1 =>
        simp only [Option.some_bind, hx1, hz1, Option.some.injEq] at hidx
        rw [← hidx] at hmem
        simp only [List.mem_cons, List.mem_singleton, List.not_mem_nil, or_false] at hmem
        rcases hmem with h | h | h | h <;> rw [h] <;>
          exact FetchHeightSample_index_lt t hne hlen _ _

/-- Witness of C22: the 2 by 2 heightfield. -/
theorem GetHeight_sample_indices_in_bounds_witness :
    (∀ xCoord zCoord : Int,
      Terrain.FetchHeightSample.index sampleTerrain xCoord zCoord
          < sampleTerrain.m_heightfieldWidth * sampleTerrain.m_heightfieldHeight ∧
        sampleTerrain.FetchHeightSample xCoord zCoord
          = sampleTerrain.m_heightfield[Terrain.FetchHeightSample.index sampleTerrain
              xCoord zCoord]? ∧
        ∃ h, sampleTerrain.FetchHeightSample xCoord zCoord = some h) ∧
    (∀ (worldX worldZ : ℚ) (indices : List Nat),
      Terrain.GetHeight.indices sampleTerrain worldX worldZ = some indices →
        ∀ index ∈ indices,
          index < sampleTerrain.m_heightfieldWidth * sampleTerrain.m_heightfieldHeight) :=
  GetHeight_sample_indices_in_bounds sampleTerrain (by decide) (by decide)

/-! The LOD grids -/

/-- Reading a concatenation of `n` blocks of the same length `m`: element
`i * m + j` is element `j` of block `i`. -/
theorem flatMap_range_getElem? {α : Type} (f : Nat → List α) (m : Nat)
    (hf : ∀ i, (f i).length = m) :
    ∀ n : Nat, ((List.range n).flatMap f).length = n * m ∧
      ∀ i j : Nat, i < n → j < m → ((List.range n).flatMap f)[i * m + j]? = (f i)[j]? := by
  intro n
  induction n with
  | zero => exact ⟨by simp, fun i j hi _ => absurd hi (by omega)⟩
  | succ n ih =>
    obtain ⟨hl, hg⟩ := ih
    rw [List.range_succ, List.flatMap_append]
    refine ⟨by simp [hl, hf, Nat.succ_mul], ?_⟩
    intro i j hi hj
    by_cases hin : i < n
    · rw [List.getElem?_append_left, hg i j hin hj]
      rw [hl]
      calc i * m + j < i * m + m := by omega
        _ = (i + 1) * m := by rw [Nat.succ_mul]
        _ ≤ n * m := Nat.mul_le_mul_right _ hin
    · have hi' : i = n := by omega
      subst hi'
      rw [List.getElem?_append_right (by rw [hl]; omega), hl]
      simp
/-- The vertices of one grid: `(resolution + 1) ^ 2` of them, the vertex of row `z`
and column `x` at position `z * (resolution + 1) + x`. -/
theorem vertices_spec (resolution : Nat) :
    (BuildGeometry.vertices resolution).length = (resolution + 1) * (resolution + 1) ∧
      ∀ z x : Nat, z < resolution + 1 → x < resolution + 1 →
        (BuildGeometry.vertices resolution)[z * (resolution + 1) + x]? =
          some { m_localPosition :=
                   ⟨(x : ℚ) * (1 / (resolution : ℚ)) - 1 / 2, 0,
                     (z : ℚ) * (1 / (resolution : ℚ)) - 1 / 2⟩
                 m_localNormal := ⟨0, 1, 0⟩
                 m_textureCoordinate :=
                   ⟨(x : ℚ) * (1 / (resolution : ℚ)), (z : ℚ) * (1 / (resolution : ℚ))⟩ } := by
  obtain ⟨hl, hg⟩ := flatMap_range_getElem?
    (fun (z : Nat) => (List.range (resolution + 1)).map fun (x : Nat) =>
      ({ m_localPosition :=
           ⟨(x : ℚ) * (1 / (resolution : ℚ)) - 1 / 2, 0,
             (z : ℚ) * (1 / (resolution : ℚ)) - 1 / 2⟩
         m_localNormal := ⟨0, 1, 0⟩
         m_textureCoordinate :=
           ⟨(x : ℚ) * (1 / (resolution : ℚ)), (z : ℚ) * (1 / (resolution : ℚ))⟩ } : TerrainVertex))
    (resolution + 1) (fun i => by simp) (resolution + 1)
  refine ⟨hl, ?_⟩
  intro z x hz hx
  have h := hg z x hz hx
  simp only [List.getElem?_map, List.getElem?_range hx, Option.map_some'] at h
  exact h

/-- The six indices of a cell when nothing wraps. -/
theorem cell_eq (vertexStart rowLength z x : Nat)
    (hfit : vertexStart + (z + 1) * rowLength + x + 1 < 2 ^ 32) :
    BuildGeometry.cell vertexStart rowLength z x =
      [vertexStart + z * rowLength + x, vertexStart + (z + 1) * rowLength + x,
        vertexStart + z * rowLength + (x + 1), vertexStart + z * rowLength + (x + 1),
        vertexStart + (z + 1) * rowLength + x, vertexStart + (z + 1) * rowLength + (x + 1)] := by
  have h1 : z * rowLength ≤ (z + 1) * rowLength := Nat.mul_le_mul_right _ (by omega)
  unfold BuildGeometry.cell
  simp only []
  rw [Nat.mod_eq_of_lt (by omega : vertexStart + z * rowLength + x < 2 ^ 32),
    Nat.mod_eq_of_lt (by omega : vertexStart + z * rowLength + x + 1 < 2 ^ 32),
    Nat.mod_eq_of_lt (by omega : vertexStart + (z + 1) * rowLength + x < 2 ^ 32),
    Nat.mod_eq_of_lt (by omega : vertexStart + (z + 1) * rowLength + x + 1 < 2 ^ 32)]
  rfl

/-- The number of indices of one grid. -/
theorem indices_length (vertexStart resolution : Nat) :
    (BuildGeometry.indices vertexStart resolution).length = resolution * resolution * 6 := by
  unfold BuildGeometry.indices
  simp only []
  have hrow : ∀ z, ((List.range resolution).flatMap fun (x : Nat) =>
      BuildGeometry.cell vertexStart ((resolution + 1) % 2 ^ 32) z x).length = resolution * 6 :=
    fun z => (flatMap_range_getElem?
      (fun (x : Nat) => BuildGeometry.cell vertexStart ((resolution + 1) % 2 ^ 32) z x) 6
      (fun i => rfl) resolution).1
  rw [(flatMap_range_getElem? _ (resolution * 6) hrow resolution).1]
  ring

/-- The indices of one grid: the six indices of the cell `(z, x)` stand at the
positions `(z * resolution + x) * 6 + j`, `j = 0, ..., 5`. -/
theorem indices_spec (vertexStart resolution : Nat)
    (hfit : vertexStart + (resolution + 1) * (resolution + 1) < 2 ^ 32) :
    ∀ z x j : Nat, z < resolution → x < resolution → j < 6 →
      (BuildGeometry.indices vertexStart resolution)[(z * resolution + x) * 6 + j]? =
        [vertexStart + z * (resolution + 1) + x, vertexStart + (z + 1) * (resolution + 1) + x,
          vertexStart + z * (resolution + 1) + (x + 1),
          vertexStart + z * (resolution + 1) + (x + 1),
          vertexStart + (z + 1) * (resolution + 1) + x,
          vertexStart + (z + 1) * (resolution + 1) + (x + 1)][j]? := by
  intro z x j hz hx hj
  have hrl : (resolution + 1) % 2 ^ 32 = resolution + 1 := by
    apply Nat.mod_eq_of_lt
    have : resolution + 1 ≤ (resolution + 1) * (resolution + 1) := Nat.le_mul_self _
    omega
  have hrow : ∀ z, ((List.range resolution).flatMap fun (x : Nat) =>
      BuildGeometry.cell vertexStart ((resolution + 1) % 2 ^ 32) z x).length = resolution * 6 :=
    fun z => (flatMap_range_getElem?
      (fun (x : Nat) => BuildGeometry.cell vertexStart ((resolution + 1) % 2 ^ 32) z x) 6
      (fun i => rfl) resolution).1
  have e : (z * resolution + x) * 6 + j = z * (resolution * 6) + (x * 6 + j) := by ring
  unfold BuildGeometry.indices
  simp only []
  rw [e, (flatMap_range_getElem? _ (resolution * 6) hrow resolution).2 z (x * 6 + j) hz
      (by omega),
    (flatMap_range_getElem?
      (fun (x : Nat) => BuildGeometry.cell vertexStart ((resolution + 1) % 2 ^ 32) z x) 6
      (fun i => rfl) resolution).2 x j hx hj, hrl, cell_eq]
  have h1 : (z + 1) * (resolution + 1) ≤ resolution * (resolution + 1) :=
    Nat.mul_le_mul_right _ (by omega)
  have h2 : (resolution + 1) * (resolution + 1)
      = resolution * (resolution + 1) + resolution + 1 := by ring
  omega

/-- One more pass of the loop. -/
theorem passes_succ (count : Nat) :
    BuildGeometry.passes (count + 1) = BuildGeometry.pass (BuildGeometry.passes count) count := by
  unfold BuildGeometry.passes
  rw [List.range_succ, List.foldl_append]
  rfl

/-- The start of a grid is the start of the one before plus its number of
vertices or indices. -/
theorem lodStart_succ (lod : Nat) (hlod : lod < 5) :
    lodVertexStart (lod + 1) = lodVertexStart lod + (gridDimensions.getD lod 0 + 1) ^ 2 ∧
      lodIndexStart (lod + 1) = lodIndexStart lod + 6 * gridDimensions.getD lod 0 ^ 2 := by
  interval_cases lod <;> exact ⟨by decide, by decide⟩

/-- After `count` passes the two vectors hold the vertices and the indices of the
first `count` grids. -/
theorem passes_lengths :
    ∀ count : Nat, count ≤ 5 →
      (BuildGeometry.passes count).vertexCollection.length = lodVertexStart count ∧
        (BuildGeometry.passes count).indexCollection.length = lodIndexStart count := by
  intro count
  induction count with
  | zero => intro _; exact ⟨rfl, rfl⟩
  | succ k ih =>
    intro hk
    obtain ⟨h1, h2⟩ := ih (by omega)
    obtain ⟨s1, s2⟩ := lodStart_succ k (by omega)
    rw [passes_succ]
    constructor
    · show ((BuildGeometry.passes k).vertexCollection
        ++ BuildGeometry.vertices (gridDimensions.getD k 0)).length = _
      rw [List.length_append, h1, (vertices_spec _).1, s1]
      ring
    · show ((BuildGeometry.passes k).indexCollection
        ++ BuildGeometry.indices ((BuildGeometry.passes k).vertexCollection.length % 2 ^ 32)
          (gridDimensions.getD k 0)).length = _
      rw [List.length_append, h2, indices_length, s2]
      ring

/-- Later passes only append to the two vectors. -/
theorem passes_extend (count : Nat) :
    ∀ more : Nat,
      (BuildGeometry.passes count).vertexCollection
          <+: (BuildGeometry.passes (count + more)).vertexCollection ∧
        (BuildGeometry.passes count).indexCollection
          <+: (BuildGeometry.passes (count + more)).indexCollection := by
  intro more
  induction more with
  | zero => exact ⟨List.prefix_refl _, List.prefix_refl _⟩
  | succ m ih =>
    obtain ⟨h1, h2⟩ := ih
    rw [← Nat.add_assoc, passes_succ]
    exact ⟨h1.trans (List.prefix_append _ _), h2.trans (List.prefix_append _ _)⟩

/-- The starts of the five grids and the totals. -/
theorem lodStart_values :
    (List.range 6).map lodVertexStart = [0, 66049, 82690, 86915, 88004, 88293] ∧
      (List.range 6).map lodIndexStart = [0, 393216, 491520, 516096, 522240, 523776] := by
  constructor <;> decide

/-- A vertex start and the grid after it stay below `2 ^ 32`. -/
theorem lodVertexStart_fits (lod : Nat) (hlod : lod < 5) :
    lodVertexStart lod + (gridDimensions.getD lod 0 + 1) * (gridDimensions.getD lod 0 + 1)
      < 2 ^ 32 := by
  interval_cases lod <;> decide

/-- The index vector of `BuildGeometry` in the range of the grid `lod`. -/
theorem BuildGeometry_indexCollection (lod : Nat) (hlod : lod < 5) (i : Nat)
    (hi : i < gridDimensions.getD lod 0 * gridDimensions.getD lod 0 * 6) :
    Terrain.BuildGeometry.indexCollection[lodIndexStart lod + i]? =
      (BuildGeometry.indices (lodVertexStart lod) (gridDimensions.getD lod 0))[i]? := by
  obtain ⟨h1, h2⟩ := passes_lengths lod (by omega)
  have hp := (passes_extend (lod + 1) (5 - (lod + 1))).2
  rw [show lod + 1 + (5 - (lod + 1)) = 5 by omega] at hp
  obtain ⟨rest, hrest⟩ := hp
  have hfit := lodVertexStart_fits lod hlod
  have hmod : lodVertexStart lod % 2 ^ 32 = lodVertexStart lod := by
    apply Nat.mod_eq_of_lt
    omega
  have hnext : (BuildGeometry.passes (lod + 1)).indexCollection
      = (BuildGeometry.passes lod).indexCollection
        ++ BuildGeometry.indices (lodVertexStart lod) (gridDimensions.getD lod 0) := by
    rw [passes_succ]
    show (BuildGeometry.passes lod).indexCollection
        ++ BuildGeometry.indices ((BuildGeometry.passes lod).vertexCollection.length % 2 ^ 32)
          (gridDimensions.getD lod 0) = _
    rw [h1, hmod]
  show (BuildGeometry.passes 5).indexCollection[lodIndexStart lod + i]? = _
  rw [← hrest, hnext, List.getElem?_append_left (by
      rw [List.length_append, h2, indices_length]; omega),
    List.getElem?_append_right (by rw [h2]; omega), h2]
  congr 1
  omega

/-- The vertex vector of `BuildGeometry` in the block of the grid `lod`. -/
theorem BuildGeometry_vertexCollection (lod : Nat) (hlod : lod < 5) (i : Nat)
    (hi : i < (gridDimensions.getD lod 0 + 1) * (gridDimensions.getD lod 0 + 1)) :
    Terrain.BuildGeometry.vertexCollection[lodVertexStart lod + i]? =
      (BuildGeometry.vertices (gridDimensions.getD lod 0))[i]? := by
  obtain ⟨h1, h2⟩ := passes_lengths lod (by omega)
  have hp := (passes_extend (lod + 1) (5 - (lod + 1))).1
  rw [show lod + 1 + (5 - (lod + 1)) = 5 by omega] at hp
  obtain ⟨rest, hrest⟩ := hp
  have hnext : (BuildGeometry.passes (lod + 1)).vertexCollection
      = (BuildGeometry.passes lod).vertexCollection
        ++ BuildGeometry.vertices (gridDimensions.getD lod 0) := by
    rw [passes_succ]
    rfl
  show (BuildGeometry.passes 5).vertexCollection[lodVertexStart lod + i]? = _
  rw [← hrest, hnext, List.getElem?_append_left (by
      rw [List.length_append, h1, (vertices_spec _).1]; omega),
    List.getElem?_append_right (by rw [h1]; omega), h1]
  congr 1
  omega

/-- The draw arguments `BuildGeometry` records. -/
theorem BuildGeometry_DrawArgs :
    Terrain.BuildGeometry.DrawArgs =
      [("lod4", ⟨1536, 522240, 0⟩), ("lod3", ⟨6144, 516096, 0⟩), ("lod2", ⟨24576, 491520, 0⟩),
        ("lod1", ⟨98304, 393216, 0⟩), ("lod0", ⟨393216, 0, 0⟩)] := by
  have e : ∀ count : Nat, count < 5 →
      (BuildGeometry.passes (count + 1)).DrawArgs =
        assignDrawArgs (BuildGeometry.passes count).DrawArgs
          (Terrain.GetLODMeshIdentifier (count : Int))
          { IndexCount := gridDimensions.getD count 0 * gridDimensions.getD count 0 * 6 % 2 ^ 32
            StartIndexLocation := lodIndexStart count % 2 ^ 32
            BaseVertexLocation := 0 } := by
    intro count hc
    rw [passes_succ, ← (passes_lengths count (by omega)).2]
    rfl
  have e0 : (BuildGeometry.passes 0).DrawArgs = [] := rfl
  show (BuildGeometry.passes 5).DrawArgs = _
  rw [e 4 (by decide), e 3 (by decide), e 2 (by decide), e 1 (by decide), e 0 (by decide), e0]
  decide
/-- Every index of one grid designates a vertex of the block of
`(resolution + 1) ^ 2` vertices that starts at `vertexStart`. -/
theorem indices_within_block (vertexStart resolution : Nat)
    (hfit : vertexStart + (resolution + 1) * (resolution + 1) < 2 ^ 32) (i : Nat)
    (hi : i < resolution * resolution * 6) :
    ∃ index, (BuildGeometry.indices vertexStart resolution)[i]? = some index ∧
      vertexStart ≤ index ∧ index < vertexStart + (resolution + 1) * (resolution + 1) := by
  have hr : 0 < resolution := by
    rcases Nat.eq_zero_or_pos resolution with h | h
    · rw [h] at hi
      simp at hi
    · exact h
  have hc : i / 6 < resolution * resolution := by omega
  have hz : i / 6 / resolution < resolution :=
    Nat.div_lt_of_lt_mul hc
  have hx : i / 6 % resolution < resolution := Nat.mod_lt _ hr
  have hj : i % 6 < 6 := Nat.mod_lt _ (by decide)
  have e1 : resolution * (i / 6 / resolution) + i / 6 % resolution = i / 6 :=
    Nat.div_add_mod _ _
  have e : (i / 6 / resolution * resolution + i / 6 % resolution) * 6 + i % 6 = i := by
    rw [Nat.mul_comm (i / 6 / resolution), e1]
    omega
  have h := indices_spec vertexStart resolution hfit _ _ _ hz hx hj
  rw [e] at h
  have h1 : (i / 6 / resolution + 1) * (resolution + 1) ≤ resolution * (resolution + 1) :=
    Nat.mul_le_mul_right _ (by omega)
  have h2 : (resolution + 1) * (resolution + 1)
      = resolution * (resolution + 1) + resolution + 1 := by ring
  have h3 : (i / 6 / resolution + 1) * (resolution + 1)
      = i / 6 / resolution * (resolution + 1) + resolution + 1 := by ring
  clear e e1 hc hz
  generalize i / 6 / resolution * (resolution + 1) = zr at h h1 h3
  generalize (i / 6 / resolution + 1) * (resolution + 1) = zr1 at h h1 h3
  generalize (resolution + 1) * (resolution + 1) = total at hfit h2 ⊢
  generalize i / 6 % resolution = x at h hx
  generalize i % 6 = j at h hj
  interval_cases j
  · exact ⟨vertexStart + zr + x, h, by omega, by omega⟩
  · exact ⟨vertexStart + zr1 + x, h, by omega, by omega⟩
  · exact ⟨vertexStart + zr + (x + 1), h, by omega, by omega⟩
  · exact ⟨vertexStart + zr + (x + 1), h, by omega, by omega⟩
  · exact ⟨vertexStart + zr1 + x, h, by omega, by omega⟩
  · exact ⟨vertexStart + zr1 + (x + 1), h, by omega, by omega⟩

/-- Claim C23: for each LOD `lod = 0, ..., 4` with the resolution `r` from
`(256, 128, 64, 32, 16)`, `BuildGeometry` records under the key of the LOD the
index count `6 * r ^ 2`, the start index `lodIndexStart lod` (the sum of
`6 * r_j ^ 2` over the earlier LODs) and the base vertex `0`; every index stored
in that range, base vertex added, designates a vertex of the LOD's own block of
`(r + 1) ^ 2` vertices, which starts at `lodVertexStart lod`; and the six indices
of the cell `(z, x)` are the triangles `(v z x, v (z+1) x, v z (x+1))` and
`(v z (x+1), v (z+1) x, v (z+1) (x+1))`, where `v z x` is the position of the
vertex of row `z` and column `x` of the block. -/
theorem BuildGeometry_lod_ranges (lod : Nat) (hlod : lod < 5) :
    gridDimensions = [256, 128, 64, 32, 16] ∧
    Terrain.BuildGeometry.DrawArgs.lookup (Terrain.GetLODMeshIdentifier (lod : Int)) =
      some { IndexCount := 6 * gridDimensions.getD lod 0 ^ 2
             StartIndexLocation := lodIndexStart lod
             BaseVertexLocation := 0 } ∧
    (∀ i : Nat, i < 6 * gridDimensions.getD lod 0 ^ 2 →
      ∃ index : Nat, Terrain.BuildGeometry.indexCollection[lodIndexStart lod + i]? = some index ∧
        (lodVertexStart lod : Int) ≤ (index : Int) + 0 ∧
        (index : Int) + 0 < (lodVertexStart lod : Int) + ((gridDimensions.getD lod 0 : Int) + 1) ^ 2) ∧
    (∀ z x : Nat, z < gridDimensions.getD lod 0 → x < gridDimensions.getD lod 0 →
      (List.range 6).map (fun (j : Nat) =>
          Terrain.BuildGeometry.indexCollection[
            lodIndexStart lod + (z * gridDimensions.getD lod 0 + x) * 6 + j]?)
        = [some (lodVertexStart lod + z * (gridDimensions.getD lod 0 + 1) + x),
           some (lodVertexStart lod + (z + 1) * (gridDimensions.getD lod 0 + 1) + x),
           some (lodVertexStart lod + z * (gridDimensions.getD lod 0 + 1) + (x + 1)),
           some (lodVertexStart lod + z * (gridDimensions.getD lod 0 + 1) + (x + 1)),
           some (lodVertexStart lod + (z + 1) * (gridDimensions.getD lod 0 + 1) + x),
           some (lodVertexStart lod + (z + 1) * (gridDimensions.getD lod 0 + 1) + (x + 1))]) ∧
    (∀ z x : Nat, z ≤ gridDimensions.getD lod 0 → x ≤ gridDimensions.getD lod 0 →
      (Terrain.BuildGeometry.vertexCollection[
          lodVertexStart lod + z * (gridDimensions.getD lod 0 + 1) + x]?).map
        (fun (vertex : TerrainVertex) => vertex.m_localPosition)
        = some ⟨(x : ℚ) / (gridDimensions.getD lod 0 : ℚ) - 1 / 2, 0,
                (z : ℚ) / (gridDimensions.getD lod 0 : ℚ) - 1 / 2⟩) := by
  have hfit := lodVertexStart_fits lod hlod
  refine ⟨rfl, ?_, ?_, ?_, ?_⟩
  · rw [BuildGeometry_DrawArgs]
    interval_cases lod <;> decide
  · intro i hi
    have hi' : i < gridDimensions.getD lod 0 * gridDimensions.getD lod 0 * 6 := by
      have : 6 * gridDimensions.getD lod 0 ^ 2
          = gridDimensions.getD lod 0 * gridDimensions.getD lod 0 * 6 := by ring
      omega
    obtain ⟨index, h1, h2, h3⟩ := indices_within_block _ _ hfit i hi'
    refine ⟨index, ?_, ?_, ?_⟩
    · rw [BuildGeometry_indexCollection lod hlod i hi', h1]
    · omega
    · have : ((gridDimensions.getD lod 0 : Int) + 1) ^ 2
          = (((gridDimensions.getD lod 0 + 1) * (gridDimensions.getD lod 0 + 1) : Nat) : Int) := by
        push_cast
        ring
      rw [this]
      omega
  · intro z x hz hx
    have hc : z * gridDimensions.getD lod 0 + x + 1
        ≤ gridDimensions.getD lod 0 * gridDimensions.getD lod 0 := by
      have : (z + 1) * gridDimensions.getD lod 0
          ≤ gridDimensions.getD lod 0 * gridDimensions.getD lod 0 :=
        Nat.mul_le_mul_right _ (by omega)
      have e : (z + 1) * gridDimensions.getD lod 0
          = z * gridDimensions.getD lod 0 + gridDimensions.getD lod 0 := by ring
      omega
    have hj : ∀ j : Nat, j < 6 →
        Terrain.BuildGeometry.indexCollection[
            lodIndexStart lod + (z * gridDimensions.getD lod 0 + x) * 6 + j]?
          = [lodVertexStart lod + z * (gridDimensions.getD lod 0 + 1) + x,
             lodVertexStart lod + (z + 1) * (gridDimensions.getD lod 0 + 1) + x,
             lodVertexStart lod + z * (gridDimensions.getD lod 0 + 1) + (x + 1),
             lodVertexStart lod + z * (gridDimensions.getD lod 0 + 1) + (x + 1),
             lodVertexStart lod + (z + 1) * (gridDimensions.getD lod 0 + 1) + x,
             lodVertexStart lod + (z + 1) * (gridDimensions.getD lod 0 + 1) + (x + 1)][j]? := by
      intro j hj
      rw [Nat.add_assoc, BuildGeometry_indexCollection lod hlod _ (by omega),
        indices_spec _ _ hfit z x j hz hx hj]
    simp only [List.range, List.range.loop, List.map_cons, List.map_nil]
    rw [hj 0 (by decide), hj 1 (by decide), hj 2 (by decide), hj 3 (by decide),
      hj 4 (by decide), hj 5 (by decide)]
    rfl
  · intro z x hz hx
    have hi : z * (gridDimensions.getD lod 0 + 1) + x
        < (gridDimensions.getD lod 0 + 1) * (gridDimensions.getD lod 0 + 1) := by
      have : (z + 1) * (gridDimensions.getD lod 0 + 1)
          ≤ (gridDimensions.getD lod 0 + 1) * (gridDimensions.getD lod 0 + 1) :=
        Nat.mul_le_mul_right _ (by omega)
      have e : (z + 1) * (gridDimensions.getD lod 0 + 1)
          = z * (gridDimensions.getD lod 0 + 1) + gridDimensions.getD lod 0 + 1 := by ring
      omega
    rw [Nat.add_assoc, BuildGeometry_vertexCollection lod hlod _ hi,
      (vertices_spec _).2 z x (by omega) (by omega)]
    simp only [Option.map_some', mul_one_div]

/-- Witness of C23: the LOD `2`, of resolution `64`. -/
theorem BuildGeometry_lod_ranges_witness :
    gridDimensions = [256, 128, 64, 32, 16] ∧
    Terrain.BuildGeometry.DrawArgs.lookup (Terrain.GetLODMeshIdentifier ((2 : Nat) : Int)) =
      some { IndexCount := 6 * gridDimensions.getD 2 0 ^ 2
             StartIndexLocation := lodIndexStart 2
             BaseVertexLocation := 0 } ∧
    (∀ i : Nat, i < 6 * gridDimensions.getD 2 0 ^ 2 →
      ∃ index : Nat, Terrain.BuildGeometry.indexCollection[lodIndexStart 2 + i]? = some index ∧
        (lodVertexStart 2 : Int) ≤ (index : Int) + 0 ∧
        (index : Int) + 0 < (lodVertexStart 2 : Int) + ((gridDimensions.getD 2 0 : Int) + 1) ^ 2) ∧
    (∀ z x : Nat, z < gridDimensions.getD 2 0 → x < gridDimensions.getD 2 0 →
      (List.range 6).map (fun (j : Nat) =>
          Terrain.BuildGeometry.indexCollection[
            lodIndexStart 2 + (z * gridDimensions.getD 2 0 + x) * 6 + j]?)
        = [some (lodVertexStart 2 + z * (gridDimensions.getD 2 0 + 1) + x),
           some (lodVertexStart 2 + (z + 1) * (gridDimensions.getD 2 0 + 1) + x),
           some (lodVertexStart 2 + z * (gridDimensions.getD 2 0 + 1) + (x + 1)),
           some (lodVertexStart 2 + z * (gridDimensions.getD 2 0 + 1) + (x + 1)),
           some (lodVertexStart 2 + (z + 1) * (gridDimensions.getD 2 0 + 1) + x),
           some (lodVertexStart 2 + (z + 1) * (gridDimensions.getD 2 0 + 1) + (x + 1))]) ∧
    (∀ z x : Nat, z ≤ gridDimensions.getD 2 0 → x ≤ gridDimensions.getD 2 0 →
      (Terrain.BuildGeometry.vertexCollection[
          lodVertexStart 2 + z * (gridDimensions.getD 2 0 + 1) + x]?).map
        (fun (vertex : TerrainVertex) => vertex.m_localPosition)
        = some ⟨(x : ℚ) / (gridDimensions.getD 2 0 : ℚ) - 1 / 2, 0,
                (z : ℚ) / (gridDimensions.getD 2 0 : ℚ) - 1 / 2⟩) :=
  BuildGeometry_lod_ranges 2 (by decide)

/-! Subdivide or render -/

/-- No node of a tree built by `ConstructTree` from depth `d` lies more than
`max (md - 1 - d) 0` levels below its root. -/
theorem ConstructTree_path_length (mp : ℚ) (md : Int) :
    ∀ (x z s : ℚ) (d total : Int) (path : NodePath) (n : TerrainNode),
      (ConstructTree mp md x z s d total).1.nodeAt path = some n →
        (path.length : Int) ≤ max (md - 1 - d) 0 := by
  refine ConstructTree_induction mp md
    (fun x z s d total => ∀ (path : NodePath) (n : TerrainNode),
      (ConstructTree mp md x z s d total).1.nodeAt path = some n →
        (path.length : Int) ≤ max (md - 1 - d) 0) ?_ ?_
  · intro x z s d total hleaf path n hn
    rw [ConstructTree_eq_leaf mp md x z s d total hleaf] at hn
    cases path with
    | nil => simp
    | cons i rest =>
      rw [nodeAt_cons] at hn
      fin_cases i <;> simp [nodeAt_null] at hn
  · intro x z s d total hinner ih path n hn
    rw [ConstructTree_eq_inner mp md x z s d total hinner] at hn
    cases path with
    | nil => simp
    | cons i rest =>
      rw [nodeAt_cons] at hn
      have hd := hinner.2
      have key : (rest.length : Int) ≤ max (md - 1 - (d + 1)) 0 := by
        fin_cases i
        · exact ih _ _ _ rest n hn
        · exact ih _ _ _ rest n hn
        · exact ih _ _ _ rest n hn
        · exact ih _ _ _ rest n hn
      simp only [List.length_cons, Nat.cast_add, Nat.cast_one]
      omega

/-- A tree built by `ConstructTree` from depth `d` has at most
`1 + 4 + ... + 4 ^ max (md - 1 - d) 0` nodes. -/
theorem ConstructTree_size_le (mp : ℚ) (md : Int) :
    ∀ (x z s : ℚ) (d total : Int),
      (ConstructTree mp md x z s d total).1.size
        ≤ ∑ i ∈ Finset.range ((md - 1 - d).toNat + 1), 4 ^ i := by
  refine ConstructTree_induction mp md
    (fun x z s d total => (ConstructTree mp md x z s d total).1.size
        ≤ ∑ i ∈ Finset.range ((md - 1 - d).toNat + 1), 4 ^ i) ?_ ?_
  · intro x z s d total hleaf
    rw [ConstructTree_eq_leaf mp md x z s d total hleaf]
    simp only [NodePtr.size]
    rw [Finset.sum_range_succ']
    simp
  · intro x z s d total hinner ih
    rw [ConstructTree_eq_inner mp md x z s d total hinner]
    simp only [NodePtr.size]
    have hd := hinner.2
    have e : (md - 1 - d).toNat = (md - 1 - (d + 1)).toNat + 1 := by omega
    rw [e, Finset.sum_range_succ' _ ((md - 1 - (d + 1)).toNat + 1)]
    have h0 := ih (roundToFloat (x - s * (1 / 4))) (roundToFloat (z + s * (1 / 4))) (total + 1)
    have h1 := ih (roundToFloat (x + s * (1 / 4))) (roundToFloat (z + s * (1 / 4)))
      (ConstructTree mp md (roundToFloat (x - s * (1 / 4))) (roundToFloat (z + s * (1 / 4))) (s * (1 / 2)) (d + 1)
        (total + 1)).2
    have h2 := ih (roundToFloat (x - s * (1 / 4))) (roundToFloat (z - s * (1 / 4)))
      (ConstructTree mp md (roundToFloat (x + s * (1 / 4))) (roundToFloat (z + s * (1 / 4))) (s * (1 / 2)) (d + 1)
        (ConstructTree mp md (roundToFloat (x - s * (1 / 4))) (roundToFloat (z + s * (1 / 4))) (s * (1 / 2)) (d + 1)
          (total + 1)).2).2
    have h3 := ih (roundToFloat (x + s * (1 / 4))) (roundToFloat (z - s * (1 / 4)))
      (ConstructTree mp md (roundToFloat (x - s * (1 / 4))) (roundToFloat (z - s * (1 / 4))) (s * (1 / 2)) (d + 1)
        (ConstructTree mp md (roundToFloat (x + s * (1 / 4))) (roundToFloat (z + s * (1 / 4))) (s * (1 / 2)) (d + 1)
          (ConstructTree mp md (roundToFloat (x - s * (1 / 4))) (roundToFloat (z + s * (1 / 4))) (s * (1 / 2)) (d + 1)
            (total + 1)).2).2).2
    have e2 : ∑ i ∈ Finset.range ((md - 1 - (d + 1)).toNat + 1), 4 ^ (i + 1)
        = 4 * ∑ i ∈ Finset.range ((md - 1 - (d + 1)).toNat + 1), 4 ^ i := by
      rw [Finset.mul_sum]
      exact Finset.sum_congr rfl (fun i _ => by ring)
    rw [e2]
    simp only [pow_zero]
    omega

/-- The method `SetHeightRange` leaves a node at every path that had one, and none
elsewhere. -/
theorem SetHeightRange_nodeAt_isSome (q : QuadTree) (x z r minY maxY : ℚ) (path : NodePath) :
    ((q.SetHeightRange x z r minY maxY).m_rootPatch.nodeAt path).isSome
      = (q.m_rootPatch.nodeAt path).isSome := by
  unfold QuadTree.SetHeightRange
  cases hroot : q.m_rootPatch with
  | null => simp only [hroot]
  | node n c0 c1 c2 c3 =>
    simp only []
    cases path with
    | nil => rfl
    | cons i rest => rw [nodeAt_cons, nodeAt_cons]

/-- In every state reached after `Initialize`, no node lies deeper than
`max (m_maximumDetailLevels - 1) 0`. -/
theorem Initialised_path_length (sqrtf : ℚ → ℚ) (q : QuadTree) (hq : Initialised sqrtf q) :
    ∀ (path : NodePath) (n : TerrainNode), q.m_rootPatch.nodeAt path = some n →
      (path.length : Int) ≤ max (q.m_maximumDetailLevels - 1) 0 := by
  induction hq with
  | init q we mp md =>
    intro path n hn
    have h := ConstructTree_path_length mp md 0 0 we 0 0 path n hn
    simpa using h
  | @update q1 viewer planes _ ih =>
    intro path n hn
    have h := ProcessNode_placement sqrtf q1.m_lodThresholds q1.m_maximumDetailLevels viewer
      planes q1.m_rootPatch { m_visiblePatchCount := 0, m_nextBufferIndex := 0 } path
    have hn' : (ProcessNode sqrtf q1.m_lodThresholds q1.m_maximumDetailLevels viewer
      planes q1.m_rootPatch { m_visiblePatchCount := 0, m_nextBufferIndex := 0 }).1.nodeAt path
        = some n := hn
    rw [hn'] at h
    cases hb : q1.m_rootPatch.nodeAt path with
    | none => rw [hb] at h; simp at h
    | some m => exact ih path m hb
  | @setHeightRange q1 x z r minY maxY _ ih =>
    intro path n hn
    have h := SetHeightRange_nodeAt_isSome q1 x z r minY maxY path
    rw [hn] at h
    cases hb : q1.m_rootPatch.nodeAt path with
    | none => rw [hb] at h; simp at h
    | some m =>
      have := ih path m hb
      have e : (q1.SetHeightRange x z r minY maxY).m_maximumDetailLevels
          = q1.m_maximumDetailLevels := by
        unfold QuadTree.SetHeightRange
        split <;> rfl
      rw [e]
      exact this
  | setLODDistances th _ ih =>
    intro path n hn
    exact ih path n hn

/-- Claim C25: `ConstructTree` returns, for every `worldExtent`, `minPatchSize`
(zero and negative values included) and `maxDepth`, a tree of at most
`1 + 4 + ... + 4 ^ max (maxDepth - 1) 0` nodes, which every call of `Initialize`
that returns (the `resize` of the threshold table does not throw) installs as the
root; and in every state reached after `Initialize`, through any calls of `Update`,
`SetHeightRange` and `SetLODDistances`, no node lies deeper than
`max (maxDepth - 1) 0`: a path to a node has at most that many steps, which bounds
the recursion of `Update` and `GetVisibleNodes`. -/
theorem ConstructTree_depth_bounded (sqrtf : ℚ → ℚ) (q : QuadTree) (hq : Initialised sqrtf q)
    (path : NodePath) (hn : (q.m_rootPatch.nodeAt path).isSome = true) :
    (path.length : Int) ≤ max (q.m_maximumDetailLevels - 1) 0 ∧
      ∀ (we mp : ℚ) (md : Int),
        (ConstructTree mp md 0 0 we 0 0).1 ≠ .null ∧
        (ConstructTree mp md 0 0 we 0 0).1.size
          ≤ ∑ i ∈ Finset.range ((max (md - 1) 0).toNat + 1), 4 ^ i ∧
        (ConstructTree mp md 0 0 we 0 0).2 = ((ConstructTree mp md 0 0 we 0 0).1.size : Int) ∧
        ∀ q0 : QuadTree, QuadTree.Initialize.throws q0 md = false →
          (q0.Initialize we mp md).m_rootPatch = (ConstructTree mp md 0 0 we 0 0).1 ∧
          (q0.Initialize we mp md).m_maximumDetailLevels = md ∧
          (q0.Initialize we mp md).GetTotalNodeCount
            = ((ConstructTree mp md 0 0 we 0 0).1.size : Int) := by
  obtain ⟨n, hn'⟩ := Option.isSome_iff_exists.mp hn
  refine ⟨Initialised_path_length sqrtf q hq path n hn', ?_⟩
  intro we mp md
  have hsnd : (ConstructTree mp md 0 0 we 0 0).2
      = ((ConstructTree mp md 0 0 we 0 0).1.size : Int) := by
    have h := ConstructTree_snd mp md 0 0 we 0 0
    rw [h]
    simp
  refine ⟨ConstructTree_ne_null mp md 0 0 we 0 0, ?_, hsnd, ?_⟩
  · have h := ConstructTree_size_le mp md 0 0 we 0 0
    have e : (max (md - 1) 0).toNat = (md - 1 - 0).toNat := by omega
    rw [e]
    exact h
  · intro q0 _
    exact ⟨rfl, rfl, hsnd⟩

/-- Witness of C25: a leaf of the tree of `Initialize(8, 0, 2)` after one
`Update`; the minimum patch size is zero. -/
theorem ConstructTree_depth_bounded_witness :
    (([0] : NodePath).length : Int)
        ≤ max ((QuadTree.Update sqrtQ (QuadTree.new.Initialize 8 0 2) ⟨0, 51, 0⟩
          terrainInView).m_maximumDetailLevels - 1) 0 ∧
      ∀ (we mp : ℚ) (md : Int),
        (ConstructTree mp md 0 0 we 0 0).1 ≠ .null ∧
        (ConstructTree mp md 0 0 we 0 0).1.size
          ≤ ∑ i ∈ Finset.range ((max (md - 1) 0).toNat + 1), 4 ^ i ∧
        (ConstructTree mp md 0 0 we 0 0).2 = ((ConstructTree mp md 0 0 we 0 0).1.size : Int) ∧
        ∀ q0 : QuadTree, QuadTree.Initialize.throws q0 md = false →
          (q0.Initialize we mp md).m_rootPatch = (ConstructTree mp md 0 0 we 0 0).1 ∧
          (q0.Initialize we mp md).m_maximumDetailLevels = md ∧
          (q0.Initialize we mp md).GetTotalNodeCount
            = ((ConstructTree mp md 0 0 we 0 0).1.size : Int) :=
  ConstructTree_depth_bounded sqrtQ
    (QuadTree.Update sqrtQ (QuadTree.new.Initialize 8 0 2) ⟨0, 51, 0⟩ terrainInView)
    (Initialised.update _ _ (Initialised.init _ _ _ _)) [0] (by decide!)

/-! The rendered patches -/

/-- The method `ProcessNode` keeps the centre and the size of the node it is called
on. -/
theorem ProcessNode_centreSize (sqrtf : ℚ → ℚ) (th : List ℚ) (maxLv : Int) (viewer : XMFLOAT3)
    (planes : PlaneSet) (t : NodePtr) (c : FrameCounters) :
    (ProcessNode sqrtf th maxLv viewer planes t c).1.centreSize = t.centreSize := by
  have h := ProcessNode_placement sqrtf th maxLv viewer planes t c []
  have e : ∀ s : NodePtr, s.centreSize =
      ((s.nodeAt []).map TerrainNode.placement).map
        (fun (p : ℚ × ℚ × ℚ × Int × BoundingBoxAABB × ℚ × ℚ × Bool) => (p.1, p.2.1, p.2.2.1)) := by
    intro s
    cases s <;> rfl
  rw [e, e, h]

/-- The tree `ConstructTree` builds has its children where the code places them. -/
theorem ConstructTree_quartered (mp : ℚ) (md : Int) :
    ∀ x z s d total, (ConstructTree mp md x z s d total).1.Quartered := by
  refine ConstructTree_induction mp md
    (fun x z s d total => (ConstructTree mp md x z s d total).1.Quartered) ?_ ?_
  · intro x z s d total hleaf
    rw [ConstructTree_eq_leaf mp md x z s d total hleaf]
    simp [NodePtr.Quartered]
  · intro x z s d total hinner ih
    rw [ConstructTree_eq_inner mp md x z s d total hinner]
    refine ⟨fun _ => ⟨?_, ?_, ?_, ?_⟩, ih _ _ _, ih _ _ _, ih _ _ _, ih _ _ _⟩ <;>
      (unfold NodePtr.centreSize; rw [ConstructTree_data]; rfl)

/-- The method `ProcessNode` keeps the children where they are. -/
theorem ProcessNode_quartered (sqrtf : ℚ → ℚ) (th : List ℚ) (maxLv : Int) (viewer : XMFLOAT3)
    (planes : PlaneSet) (t : NodePtr) :
    ∀ c, t.Quartered → (ProcessNode sqrtf th maxLv viewer planes t c).1.Quartered := by
  induction t with
  | null => intro c h; exact h
  | node n c0 c1 c2 c3 ih0 ih1 ih2 ih3 =>
    intro c h
    obtain ⟨hg, h0, h1, h2, h3⟩ := h
    by_cases hI : n.m_bounds.Intersects planes = true
    · by_cases hT : (!n.m_isLeaf && ShouldFragment sqrtf n viewer) = true
      · rw [ProcessNode_split sqrtf th maxLv viewer planes n c0 c1 c2 c3 c hI hT]
        refine ⟨fun hl => ?_, ih0 _ h0, ih1 _ h1, ih2 _ h2, ih3 _ h3⟩
        obtain ⟨g0, g1, g2, g3⟩ := hg hl
        simp only [ProcessNode_centreSize]
        exact ⟨g0, g1, g2, g3⟩
      · rw [ProcessNode_rendered sqrtf th maxLv viewer planes n c0 c1 c2 c3 c hI
          (by simpa using hT)]
        exact ⟨hg, h0, h1, h2, h3⟩
    · rw [ProcessNode_culled sqrtf th maxLv viewer planes n c0 c1 c2 c3 c (by simpa using hI)]
      exact ⟨hg, h0, h1, h2, h3⟩

/-- In every state reached after `Initialize` the children lie where
`ConstructTree` placed them and the root has the size `m_worldExtent`. -/
theorem Initialised_quartered (sqrtf : ℚ → ℚ) (q : QuadTree) (hq : Initialised sqrtf q) :
    q.m_rootPatch.Quartered ∧
      q.m_rootPatch.data?.map (fun (m : TerrainNode) => m.m_patchSize) = some q.m_worldExtent := by
  induction hq with
  | init q we mp md =>
    refine ⟨ConstructTree_quartered mp md 0 0 we 0 0, ?_⟩
    show (ConstructTree mp md 0 0 we 0 0).1.data?.map _ = _
    rw [ConstructTree_data]
    rfl
  | @update q1 viewer planes _ ih =>
    refine ⟨ProcessNode_quartered sqrtf _ _ viewer planes _ _ ih.1, ?_⟩
    have h := ProcessNode_centreSize sqrtf q1.m_lodThresholds q1.m_maximumDetailLevels viewer
      planes q1.m_rootPatch { m_visiblePatchCount := 0, m_nextBufferIndex := 0 }
    have e : ∀ s : NodePtr, s.data?.map (fun (m : TerrainNode) => m.m_patchSize)
        = s.centreSize.map (fun (p : ℚ × ℚ × ℚ) => p.2.2) := by
      intro s
      cases s <;> rfl
    show (ProcessNode sqrtf q1.m_lodThresholds q1.m_maximumDetailLevels viewer
      planes q1.m_rootPatch { m_visiblePatchCount := 0, m_nextBufferIndex := 0 }).1.data?.map _
        = some q1.m_worldExtent
    rw [e, h, ← e]
    exact ih.2
  | @setHeightRange q1 x z r minY maxY _ ih =>
    unfold QuadTree.SetHeightRange
    cases hroot : q1.m_rootPatch with
    | null =>
      simp only []
      rw [hroot] at ih
      rw [hroot]
      exact ih
    | node n c0 c1 c2 c3 =>
      rw [hroot] at ih
      simp only []
      exact ⟨ih.1, ih.2⟩
  | setLODDistances th _ ih => exact ih
/-- The paths below a node that is not flagged and not a leaf. -/
theorem visiblePaths_split (n : TerrainNode) (c0 c1 c2 c3 : NodePtr)
    (hv : n.m_isVisible = false) (hl : n.m_isLeaf = false) :
    visiblePaths (.node n c0 c1 c2 c3) =
      (visiblePaths c0).map (List.cons 0) ++ (visiblePaths c1).map (List.cons 1) ++
        (visiblePaths c2).map (List.cons 2) ++ (visiblePaths c3).map (List.cons 3) := by
  simp [visiblePaths, hv, hl]

/-- The paths below a flagged node: the node itself. -/
theorem visiblePaths_flagged (n : TerrainNode) (c0 c1 c2 c3 : NodePtr)
    (hv : n.m_isVisible = true) : visiblePaths (.node n c0 c1 c2 c3) = [[]] := by
  simp [visiblePaths, hv]

/-- The search of `floorSqrt` over `0, ..., m - 1`: the result squares to at most
`n`, and it is the largest such number below `m`. -/
theorem floorSqrt_search (n : Nat) :
    ∀ m : Nat,
      (List.range m).foldl (fun r k => if k * k ≤ n then k else r) 0
          * (List.range m).foldl (fun r k => if k * k ≤ n then k else r) 0 ≤ n ∧
        ∀ k : Nat, k < m → k * k ≤ n →
          k ≤ (List.range m).foldl (fun r k => if k * k ≤ n then k else r) 0 := by
  intro m
  induction m with
  | zero => exact ⟨by simp, fun k hk => absurd hk (by omega)⟩
  | succ m ih =>
    obtain ⟨h1, h2⟩ := ih
    rw [List.range_succ, List.foldl_append]
    simp only [List.foldl_cons, List.foldl_nil]
    by_cases hm : m * m ≤ n
    · rw [if_pos hm]
      exact ⟨hm, fun k hk _ => by omega⟩
    · rw [if_neg hm]
      refine ⟨h1, fun k hk hkn => ?_⟩
      by_cases hkm : k < m
      · exact h2 k hkm hkn
      · have : k = m := by omega
        rw [this] at hkn
        exact absurd hkn hm

/-- The value `floorSqrt n` is the integer square root of `n`. -/
theorem floorSqrt_spec (n : Nat) :
    floorSqrt n * floorSqrt n ≤ n ∧ n < (floorSqrt n + 1) * (floorSqrt n + 1) := by
  obtain ⟨h1, h2⟩ := floorSqrt_search n (n + 1)
  refine ⟨h1, ?_⟩
  by_contra hcon
  have hle : (floorSqrt n + 1) * (floorSqrt n + 1) ≤ n := by omega
  have hlt : floorSqrt n + 1 < n + 1 := by
    have : floorSqrt n + 1 ≤ (floorSqrt n + 1) * (floorSqrt n + 1) := Nat.le_mul_self _
    by_contra h
    have h3 : n ≤ floorSqrt n := by omega
    have h4 : (floorSqrt n + 1) * (floorSqrt n + 1)
        = floorSqrt n * floorSqrt n + 2 * floorSqrt n + 1 := by ring
    omega
  have := h2 (floorSqrt n + 1) hlt hle
  unfold floorSqrt at this
  omega

/-- The square of `sqrtQ x` is at most four times `x`: `sqrtQ` never returns more
than twice the square root. -/
theorem sqrtQ_sq_le (x : ℚ) (hx : 0 ≤ x) : sqrtQ x ^ 2 ≤ 4 * x := by
  unfold sqrtQ
  obtain ⟨hn1, -⟩ := floorSqrt_spec x.num.toNat
  obtain ⟨hd1, hd2⟩ := floorSqrt_spec x.den
  have hden : 0 < x.den := x.den_pos
  have hb : 1 ≤ floorSqrt x.den := by
    by_contra h
    have : floorSqrt x.den = 0 := by omega
    rw [this] at hd2
    omega
  have hd4 : x.den ≤ 4 * (floorSqrt x.den * floorSqrt x.den) := by
    have : (floorSqrt x.den + 1) * (floorSqrt x.den + 1)
        = floorSqrt x.den * floorSqrt x.den + 2 * floorSqrt x.den + 1 := by ring
    have h2 : floorSqrt x.den ≤ floorSqrt x.den * floorSqrt x.den := Nat.le_mul_self _
    omega
  have hnum : 0 ≤ x.num := Rat.num_nonneg.mpr hx
  have hc : ((x.num.toNat : Nat) : ℚ) = ((x.num : Int) : ℚ) := by
    have h := Int.toNat_of_nonneg hnum
    exact_mod_cast congrArg (fun (i : Int) => (i : ℚ)) h
  have hxe : x = (x.num.toNat : ℚ) / (x.den : ℚ) := by
    rw [hc]
    exact (Rat.num_div_den x).symm
  have hbq : (0 : ℚ) < (floorSqrt x.den : ℚ) := by exact_mod_cast hb
  have hdq : (0 : ℚ) < (x.den : ℚ) := by exact_mod_cast hden
  have hn1q : (floorSqrt x.num.toNat : ℚ) * (floorSqrt x.num.toNat : ℚ) ≤ (x.num.toNat : ℚ) := by
    exact_mod_cast hn1
  have hd4q : (x.den : ℚ) ≤ 4 * ((floorSqrt x.den : ℚ) * (floorSqrt x.den : ℚ)) := by
    exact_mod_cast hd4
  have hnn : (0 : ℚ) ≤ (x.num.toNat : ℚ) := by positivity
  have e4 : 4 * x = (4 * (x.num.toNat : ℚ)) / (x.den : ℚ) := by
    conv_lhs => rw [hxe]
    ring
  rw [div_pow, e4, div_le_div_iff₀ (by positivity) hdq]
  nlinarith [mul_nonneg hnn (sub_nonneg.mpr hd4q),
    mul_nonneg (sub_nonneg.mpr hn1q) hdq.le]

/-- A non-leaf node of positive size whose square contains the viewer is
subdivided, for every `sqrtf` that returns at most twice the square root. -/
theorem ShouldFragment_of_covers (sqrtf : ℚ → ℚ)
    (hsqrt : ∀ x : ℚ, 0 ≤ x → sqrtf x ^ 2 ≤ 4 * x) (viewer : XMFLOAT3) (n : TerrainNode)
    (hl : n.m_isLeaf = false) (hs : 0 < n.m_patchSize) (hc : n.Covers viewer) :
    ShouldFragment sqrtf n viewer = true := by
  unfold ShouldFragment
  rw [hl]
  simp only [Bool.false_eq_true, if_false, decide_eq_true_eq]
  obtain ⟨⟨hx1, hx2⟩, hz1, hz2⟩ := hc
  have hd0 : 0 ≤ (viewer.x - n.m_xCoordinate) * (viewer.x - n.m_xCoordinate)
      + (viewer.z - n.m_zCoordinate) * (viewer.z - n.m_zCoordinate) :=
    add_nonneg (mul_self_nonneg _) (mul_self_nonneg _)
  have h := hsqrt _ hd0
  have hdx : (viewer.x - n.m_xCoordinate) * (viewer.x - n.m_xCoordinate)
      ≤ n.m_patchSize / 2 * (n.m_patchSize / 2) := by
    have : |viewer.x - n.m_xCoordinate| ≤ n.m_patchSize / 2 :=
      abs_le.mpr ⟨by linarith, by linarith⟩
    calc (viewer.x - n.m_xCoordinate) * (viewer.x - n.m_xCoordinate)
        = |viewer.x - n.m_xCoordinate| * |viewer.x - n.m_xCoordinate| := (abs_mul_abs_self _).symm
      _ ≤ n.m_patchSize / 2 * (n.m_patchSize / 2) :=
        mul_le_mul this this (abs_nonneg _) (by linarith)
  have hdz : (viewer.z - n.m_zCoordinate) * (viewer.z - n.m_zCoordinate)
      ≤ n.m_patchSize / 2 * (n.m_patchSize / 2) := by
    have : |viewer.z - n.m_zCoordinate| ≤ n.m_patchSize / 2 :=
      abs_le.mpr ⟨by linarith, by linarith⟩
    calc (viewer.z - n.m_zCoordinate) * (viewer.z - n.m_zCoordinate)
        = |viewer.z - n.m_zCoordinate| * |viewer.z - n.m_zCoordinate| := (abs_mul_abs_self _).symm
      _ ≤ n.m_patchSize / 2 * (n.m_patchSize / 2) :=
        mul_le_mul this this (abs_nonneg _) (by linarith)
  by_contra hcon
  have hge : n.m_patchSize * (3 / 2) ≤ sqrtf ((viewer.x - n.m_xCoordinate)
      * (viewer.x - n.m_xCoordinate)
      + (viewer.z - n.m_zCoordinate) * (viewer.z - n.m_zCoordinate)) := not_lt.mp hcon
  have hsq : (n.m_patchSize * (3 / 2)) ^ 2 ≤ sqrtf ((viewer.x - n.m_xCoordinate)
      * (viewer.x - n.m_xCoordinate)
      + (viewer.z - n.m_zCoordinate) * (viewer.z - n.m_zCoordinate)) ^ 2 :=
    pow_le_pow_left₀ (by linarith) hge 2
  nlinarith [mul_pos hs hs]
/-- The node behind a pointer with a given centre and size. -/
theorem centreSize_eq_some (t : NodePtr) (x z s : ℚ) (h : t.centreSize = some (x, z, s)) :
    ∃ k, t.data? = some k ∧ k.m_xCoordinate = x ∧ k.m_zCoordinate = z ∧ k.m_patchSize = s := by
  cases t with
  | null => simp [NodePtr.centreSize, NodePtr.data?] at h
  | node k _ _ _ _ =>
    simp only [NodePtr.centreSize, NodePtr.data?, Option.map_some', Option.some.injEq,
      Prod.mk.injEq] at h
    exact ⟨k, rfl, h.1, h.2.1, h.2.2⟩

/-- When no node is culled, every node `GatherVisible` returns after `ProcessNode`
whose square contains the viewer is a leaf. -/
theorem ProcessNode_under_viewer (sqrtf : ℚ → ℚ)
    (hsqrt : ∀ x : ℚ, 0 ≤ x → sqrtf x ^ 2 ≤ 4 * x) (th : List ℚ) (maxLv : Int)
    (viewer : XMFLOAT3) (planes : PlaneSet) (t : NodePtr) :
    ∀ c : FrameCounters, t.WellFormed → t.Quartered →
      t.all (fun n => n.m_bounds.Intersects planes) = true →
      ∀ n : TerrainNode, t.data? = some n → 0 < n.m_patchSize →
        ∀ p ∈ visiblePaths (ProcessNode sqrtf th maxLv viewer planes t c).1,
          ∀ m : TerrainNode, (ProcessNode sqrtf th maxLv viewer planes t c).1.nodeAt p = some m →
            m.Covers viewer → m.m_isLeaf = true := by
  induction t with
  | null =>
    intro c _ _ _ n hn
    simp [NodePtr.data?] at hn
  | node n c0 c1 c2 c3 ih0 ih1 ih2 ih3 =>
    intro c hwf hq hall m hm hs
    have hm' : m = n := (Option.some.inj hm).symm
    subst hm'
    rw [all_node] at hall
    obtain ⟨hI, a0, a1, a2, a3⟩ := hall
    obtain ⟨hnn, w0, w1, w2, w3⟩ := hwf
    obtain ⟨hg, q0, q1, q2, q3⟩ := hq
    by_cases hT : (!m.m_isLeaf && ShouldFragment sqrtf m viewer) = true
    · have hl : m.m_isLeaf = false := by
        cases h : m.m_isLeaf
        · rfl
        · rw [h] at hT; simp at hT
      rw [ProcessNode_split sqrtf th maxLv viewer planes m c0 c1 c2 c3 c hI hT]
      obtain ⟨g0, g1, g2, g3⟩ := hg hl
      obtain ⟨k0, d0, x0, z0, s0⟩ := centreSize_eq_some c0 _ _ _ g0
      obtain ⟨k1, d1, x1, z1, s1⟩ := centreSize_eq_some c1 _ _ _ g1
      obtain ⟨k2, d2, x2, z2, s2⟩ := centreSize_eq_some c2 _ _ _ g2
      obtain ⟨k3, d3, x3, z3, s3⟩ := centreSize_eq_some c3 _ _ _ g3
      have r0 := ih0 c w0 q0 a0 k0 d0 (by rw [s0]; linarith)
      have r1 := ih1 (ProcessNode sqrtf th maxLv viewer planes c0 c).2 w1 q1 a1 k1 d1
        (by rw [s1]; linarith)
      have r2 := ih2 (ProcessNode sqrtf th maxLv viewer planes c1
        (ProcessNode sqrtf th maxLv viewer planes c0 c).2).2 w2 q2 a2 k2 d2
        (by rw [s2]; linarith)
      have r3 := ih3 (ProcessNode sqrtf th maxLv viewer planes c2
        (ProcessNode sqrtf th maxLv viewer planes c1
          (ProcessNode sqrtf th maxLv viewer planes c0 c).2).2).2 w3 q3 a3 k3 d3
        (by rw [s3]; linarith)
      rw [visiblePaths_split
        { m with m_isVisible := false
                 m_detailLevel := DetermineLOD sqrtf th maxLv m viewer } _ _ _ _ rfl hl]
      intro p hp k hk hcov
      simp only [List.mem_append, List.mem_map] at hp
      rcases hp with ((⟨p', hp', rfl⟩ | ⟨p', hp', rfl⟩) | ⟨p', hp', rfl⟩) | ⟨p', hp', rfl⟩
      · rw [nodeAt_cons] at hk
        exact r0 p' hp' k hk hcov
      · rw [nodeAt_cons] at hk
        exact r1 p' hp' k hk hcov
      · rw [nodeAt_cons] at hk
        exact r2 p' hp' k hk hcov
      · rw [nodeAt_cons] at hk
        exact r3 p' hp' k hk hcov
    · have h2 : (!m.m_isLeaf && ShouldFragment sqrtf m viewer) = false := by simpa using hT
      rw [ProcessNode_rendered sqrtf th maxLv viewer planes m c0 c1 c2 c3 c hI h2]
      rw [visiblePaths_flagged _ _ _ _ _ rfl]
      have hleaf : m.Covers viewer → m.m_isLeaf = true := by
        intro hcov
        cases hl : m.m_isLeaf
        · have := ShouldFragment_of_covers sqrtf hsqrt viewer m hl hs hcov
          rw [hl, this] at h2
          simp at h2
        · rfl
      intro p hp k hk hcov
      rw [List.mem_singleton.mp hp, nodeAt_nil] at hk
      rw [← Option.some.inj hk] at hcov ⊢
      exact hleaf hcov

/-- In every state reached after `Initialize` with a positive world extent, when the
planes accept the box of every node, each node `GetVisibleNodes` returns after
`Update` whose square contains the viewer is a leaf. -/
theorem Update_under_viewer (sqrtf : ℚ → ℚ)
    (hsqrt : ∀ x : ℚ, 0 ≤ x → sqrtf x ^ 2 ≤ 4 * x) (viewer : XMFLOAT3) (q : QuadTree)
    (planes : PlaneSet) (hq : Initialised sqrtf q) (hwe : 0 < q.m_worldExtent)
    (hall : q.m_rootPatch.all (fun n => n.m_bounds.Intersects planes) = true) :
    ∀ p ∈ (QuadTree.Update sqrtf q viewer planes).GetVisibleNodes,
      ∀ m : TerrainNode,
        (QuadTree.Update sqrtf q viewer planes).m_rootPatch.nodeAt p = some m →
          m.Covers viewer → m.m_isLeaf = true := by
  obtain ⟨hne, hwf⟩ := Initialised_wellFormed sqrtf q hq
  obtain ⟨hqu, hsize⟩ := Initialised_quartered sqrtf q hq
  cases hroot : q.m_rootPatch.data? with
  | none => rw [hroot] at hsize; simp at hsize
  | some root =>
    rw [hroot] at hsize
    simp only [Option.map_some', Option.some.injEq] at hsize
    have h1 := ProcessNode_under_viewer sqrtf hsqrt q.m_lodThresholds
      q.m_maximumDetailLevels viewer planes q.m_rootPatch
      { m_visiblePatchCount := 0, m_nextBufferIndex := 0 } hwf hqu hall root hroot
      (by rw [hsize]; exact hwe)
    rw [GetVisibleNodes_eq]
    exact h1

/-- A predicate that holds for every node of a tree holds for the node at a path. -/
theorem all_nodeAt (pred : TerrainNode → Bool) (t : NodePtr) :
    ∀ (path : NodePath) (n : TerrainNode), t.all pred = true → t.nodeAt path = some n →
      pred n = true := by
  induction t with
  | null =>
    intro path n _ hn
    unfold NodePtr.nodeAt at hn
    rw [subtreeAt_null] at hn
    simp [NodePtr.data?] at hn
  | node k c0 c1 c2 c3 ih0 ih1 ih2 ih3 =>
    intro path n hall hn
    rw [all_node] at hall
    obtain ⟨hk, a0, a1, a2, a3⟩ := hall
    cases path with
    | nil =>
      rw [nodeAt_nil] at hn
      rw [← Option.some.inj hn]
      exact hk
    | cons i rest =>
      rw [nodeAt_cons] at hn
      fin_cases i
      · exact ih0 rest n a0 hn
      · exact ih1 rest n a1 hn
      · exact ih2 rest n a2 hn
      · exact ih3 rest n a3 hn

/-- Claim C28, amended: for every `sqrtf` that returns at most twice the square root
(`std::sqrt` among them), `ShouldFragment` returns `true` for every non-leaf node
of positive size whose square contains the horizontal position of the viewer;
`ProcessNode` leaves such a node without the visible flag and with the slot it
had; and in every state reached after `Initialize` with a positive world extent,
when the planes accept the box of every node, each node `GetVisibleNodes` returns
after `Update` whose square contains the viewer is a leaf. -/
theorem ShouldFragment_under_viewer (sqrtf : ℚ → ℚ)
    (hsqrt : ∀ x : ℚ, 0 ≤ x → sqrtf x ^ 2 ≤ 4 * x) (viewer : XMFLOAT3) :
    (∀ n : TerrainNode, n.m_isLeaf = false → 0 < n.m_patchSize → n.Covers viewer →
      ShouldFragment sqrtf n viewer = true) ∧
    (∀ (th : List ℚ) (maxLv : Int) (planes : PlaneSet) (n : TerrainNode)
        (c0 c1 c2 c3 : NodePtr) (c : FrameCounters),
      n.m_isLeaf = false → 0 < n.m_patchSize → n.Covers viewer →
        ((ProcessNode sqrtf th maxLv viewer planes (.node n c0 c1 c2 c3) c).1.data?).map
            (fun (m : TerrainNode) => (m.m_isVisible, m.m_bufferIndex))
          = some (false, n.m_bufferIndex)) ∧
    (∀ (q : QuadTree) (planes : PlaneSet), Initialised sqrtf q → 0 < q.m_worldExtent →
      q.m_rootPatch.all (fun n => n.m_bounds.Intersects planes) = true →
        ∀ p ∈ (QuadTree.Update sqrtf q viewer planes).GetVisibleNodes,
          ∀ m : TerrainNode,
            (QuadTree.Update sqrtf q viewer planes).m_rootPatch.nodeAt p = some m →
              m.Covers viewer → m.m_isLeaf = true) := by
  refine ⟨fun n hl hs hc => ShouldFragment_of_covers sqrtf hsqrt viewer n hl hs hc, ?_, ?_⟩
  · intro th maxLv planes n c0 c1 c2 c3 c hl hs hc
    have hsf := ShouldFragment_of_covers sqrtf hsqrt viewer n hl hs hc
    by_cases hI : n.m_bounds.Intersects planes = true
    · rw [ProcessNode_split sqrtf th maxLv viewer planes n c0 c1 c2 c3 c hI
        (by rw [hl, hsf]; rfl)]
      rfl
    · rw [ProcessNode_culled sqrtf th maxLv viewer planes n c0 c1 c2 c3 c (by simpa using hI)]
      rfl
  · intro q planes hq hwe hall
    exact Update_under_viewer sqrtf hsqrt viewer q planes hq hwe hall

/-- Witness of C28: `sqrtQ`, which returns at most twice the square root, and the
viewer at `(3, 50, 4)`. -/
theorem ShouldFragment_under_viewer_witness :
    (∀ x : ℚ, 0 ≤ x → sqrtQ x ^ 2 ≤ 4 * x) ∧
    (∀ n : TerrainNode, n.m_isLeaf = false → 0 < n.m_patchSize →
      n.Covers (⟨3, 50, 4⟩ : XMFLOAT3) → ShouldFragment sqrtQ n ⟨3, 50, 4⟩ = true) ∧
    (∀ (th : List ℚ) (maxLv : Int) (planes : PlaneSet) (n : TerrainNode)
        (c0 c1 c2 c3 : NodePtr) (c : FrameCounters),
      n.m_isLeaf = false → 0 < n.m_patchSize → n.Covers (⟨3, 50, 4⟩ : XMFLOAT3) →
        ((ProcessNode sqrtQ th maxLv ⟨3, 50, 4⟩ planes (.node n c0 c1 c2 c3) c).1.data?).map
            (fun (m : TerrainNode) => (m.m_isVisible, m.m_bufferIndex))
          = some (false, n.m_bufferIndex)) ∧
    (∀ (q : QuadTree) (planes : PlaneSet), Initialised sqrtQ q → 0 < q.m_worldExtent →
      q.m_rootPatch.all (fun n => n.m_bounds.Intersects planes) = true →
        ∀ p ∈ (QuadTree.Update sqrtQ q ⟨3, 50, 4⟩ planes).GetVisibleNodes,
          ∀ m : TerrainNode,
            (QuadTree.Update sqrtQ q ⟨3, 50, 4⟩ planes).m_rootPatch.nodeAt p = some m →
              m.Covers (⟨3, 50, 4⟩ : XMFLOAT3) → m.m_isLeaf = true) :=
  ⟨sqrtQ_sq_le, ShouldFragment_under_viewer sqrtQ sqrtQ_sq_le ⟨3, 50, 4⟩⟩

/-- When no node is culled and no leaf of the tree has the viewer in its square, no
node that `GetVisibleNodes` returns after `Update` has the viewer in its square. -/
theorem Update_uncovered (sqrtf : ℚ → ℚ)
    (hsqrt : ∀ x : ℚ, 0 ≤ x → sqrtf x ^ 2 ≤ 4 * x) (viewer : XMFLOAT3) (q : QuadTree)
    (planes : PlaneSet) (hq : Initialised sqrtf q) (hwe : 0 < q.m_worldExtent)
    (hall : q.m_rootPatch.all (fun n => n.m_bounds.Intersects planes) = true)
    (hleaves : q.m_rootPatch.all (fun n => !(n.m_isLeaf && decide (n.Covers viewer))) = true) :
    ∀ p ∈ (QuadTree.Update sqrtf q viewer planes).GetVisibleNodes,
      ∀ m : TerrainNode,
        (QuadTree.Update sqrtf q viewer planes).m_rootPatch.nodeAt p = some m →
          ¬ m.Covers viewer := by
  intro p hp m hm hcov
  have hleaf := Update_under_viewer sqrtf hsqrt viewer q planes hq hwe hall p hp m hm hcov
  have hpl := ProcessNode_placement sqrtf q.m_lodThresholds q.m_maximumDetailLevels viewer planes
    q.m_rootPatch { m_visiblePatchCount := 0, m_nextBufferIndex := 0 } p
  have hm2 : (ProcessNode sqrtf q.m_lodThresholds q.m_maximumDetailLevels viewer planes
      q.m_rootPatch { m_visiblePatchCount := 0, m_nextBufferIndex := 0 }).1.nodeAt p
        = some m := hm
  rw [hm2] at hpl
  cases h0 : q.m_rootPatch.nodeAt p with
  | none => rw [h0] at hpl; simp at hpl
  | some m0 =>
    rw [h0] at hpl
    simp only [Option.map_some', Option.some.injEq, TerrainNode.placement, Prod.mk.injEq] at hpl
    obtain ⟨ex, ez, es, -, -, -, -, el⟩ := hpl
    have h1 := all_nodeAt _ _ p m0 hleaves h0
    have hcov0 : m0.Covers viewer := by
      unfold TerrainNode.Covers at hcov ⊢
      rw [← ex, ← ez, ← es]
      exact hcov
    rw [← el, hleaf] at h1
    simp [hcov0] at h1

/-- The tree of the C28 counterexample is a state reached by `Initialize`. -/
theorem Initialised_uncoveredTree : Initialised sqrtQ uncoveredTree := by
  unfold uncoveredTree
  exact Initialised.init _ _ _ _

/-- The planes `acceptingPlanes` accept every box. -/
theorem Intersects_acceptingPlanes (b : BoundingBoxAABB) :
    b.Intersects acceptingPlanes = true := by
  rw [Intersects_eq_true_iff]
  intro idx
  simp [planeDistance, acceptingPlanes, roundToFloat_zero, roundToFloat_one]

/-- The planes `acceptingPlanes` accept the box of every node of a tree. -/
theorem all_acceptingPlanes (t : NodePtr) :
    t.all (fun n => n.m_bounds.Intersects acceptingPlanes) = true := by
  induction t with
  | null => rfl
  | node n c0 c1 c2 c3 ih0 ih1 ih2 ih3 =>
    rw [all_node]
    exact ⟨Intersects_acceptingPlanes _, ih0, ih1, ih2, ih3⟩

/-- Counterexample to C28 as stated: `Initialize(0.1f, 0.01f, 4)` and the viewer at
`(-0.0375f, 50, 0.03125)`, that is `x = -80530640/2^31`, inside the root square.
The centres of the leaves are rounded sums: the square of the leaf `[0, 0, 2]`
ends at `x = -80530643/2^31`, left of the viewer, and the square of its neighbour
`[0, 0, 3]` begins at `x = -80530637/2^31`, right of the viewer.  With no node
culled, no node that `GetVisibleNodes` returns after `Update` has the viewer in its
square. -/
theorem Update_leaves_viewer_uncovered :
    (uncoveredTree.m_rootPatch.nodeAt []).map
        (fun (root : TerrainNode) => decide (root.Covers uncoveredViewer)) = some true ∧
    uncoveredTree.m_rootPatch.all (fun n => n.m_bounds.Intersects acceptingPlanes) = true ∧
    ((uncoveredTree.m_rootPatch.nodeAt [0, 0, 2]).map TerrainNode.square
      = some ((-107374189 / 2147483648, -80530643 / 2147483648),
          (53687091 / 2147483648, 80530637 / 2147483648))) ∧
    ((uncoveredTree.m_rootPatch.nodeAt [0, 0, 3]).map TerrainNode.square
      = some ((-80530637 / 2147483648, -53687091 / 2147483648),
          (53687091 / 2147483648, 80530637 / 2147483648))) ∧
    ∀ p ∈ (QuadTree.Update sqrtQ uncoveredTree uncoveredViewer acceptingPlanes).GetVisibleNodes,
      ∀ m : TerrainNode,
        (QuadTree.Update sqrtQ uncoveredTree uncoveredViewer acceptingPlanes).m_rootPatch.nodeAt p
            = some m →
          ¬ m.Covers uncoveredViewer :=
  ⟨by decide!, all_acceptingPlanes _, by decide!, by decide!,
    Update_uncovered sqrtQ sqrtQ_sq_le uncoveredViewer uncoveredTree acceptingPlanes
      Initialised_uncoveredTree (by decide!) (all_acceptingPlanes _) (by decide!)⟩

end CG
